import Mathlib

/-!
# Verification of the `SimulatedExchange` matching engine

Shallow embedding of `nautilus_trader/backtest/exchange.pyx` (the simulated
exchange / matching engine of this repository) and proofs about the claims of
its specification.

Modelling conventions:

* Prices, quantities and money amounts are integers (fixed-point raw values);
  timestamps are integers (nanoseconds).
* Python `dict`s become association lists (`alGet` / `alSet`), preserving
  insertion order like Python dictionaries; Python `list`s become `List`.
* The Cython order objects are shared mutable objects: every order object
  lives in the external cache.  The model keeps one heap `cache : List (Nat ×
  Order)` keyed by `client_order_id`; a function that in the source holds an
  object reference holds the `Order` value and re-reads it from the heap
  (`readOrder`) after any step that can mutate it.  Immutable attributes
  (`client_order_id`, `instrument_id`, `side`, `type`, `is_post_only`,
  `is_reduce_only`, `contingency`, the contingency id lists and
  `expire_time_ns`) may be read from the passed value directly; mutable ones
  (`status`, `price`, `trigger`, `quantity`, `filled_qty`, `is_triggered`,
  `venue_order_id`, `position_id`) are read from the heap.
* Events emitted through the execution client are applied synchronously to the
  order objects by the external execution engine; those appliers are modelled
  from the spec's order state machine (see the `generate_order_*` functions).
* External collaborators are oracle data inside the state: the order book
  exposes best bid/ask per instrument and a stream of fill plans
  (`sim_plans`, one plan popped per `simulate_order_fills` query), the fill
  model is three streams of Booleans (one draw popped per call), and the
  account's `calculate_commission` is an arbitrary function field.
* The mutually recursive command/fill cascade of the source is embedded as a
  single fuel-indexed interpreter `run : Nat → Act → Exchange → Option (List
  Event × Exchange)`; each `Act` constructor corresponds to one `cdef`
  method of `SimulatedExchange` and its body is a direct translation of that
  method.  `none` means the fuel ran out (or a source `assert` of an
  unrepresentable state failed); the source's recursion is guarded by flags
  (`update_ocos`, `cancel_ocos`) and by book/state changes, so every real
  execution is reproduced by a large enough fuel.
-/

/-- Order side (`OrderSide` C enum). -/
inductive OrderSide where
  | buy
  | sell
deriving DecidableEq, Repr

/-- Order type (`OrderType` C enum), restricted to the four types the
simulated exchange dispatches on. -/
inductive OrderType where
  | market
  | limit
  | stopMarket
  | stopLimit
deriving DecidableEq, Repr

/-- Liquidity side of a fill (`LiquiditySide` C enum). -/
inductive LiquiditySide where
  | maker
  | taker
deriving DecidableEq, Repr

/-- Contingency linkage of an order (`ContingencyType` C enum). -/
inductive ContingencyType where
  | nocontingency
  | oto
  | oco
deriving DecidableEq, Repr

/-- Order status (`OrderStatus` C enum), the statuses of the spec's order
state machine. -/
inductive OrderStatus where
  | initialized
  | submitted
  | accepted
  | pendingUpdate
  | pendingCancel
  | rejected
  | triggered
  | partiallyFilled
  | filled
  | canceled
  | expired
deriving DecidableEq, Repr

/-- Modelled from the spec: the OMS discipline enum (`OMSType` C enum of
`nautilus_trader.model.c_enums.oms_type`, which is not under `src/`).  The
spec's configuration contract is `oms_type ∈ {HEDGING, NETTING}` (§6) and the
enum family has a `NONE` default member; the C enum declaration order gives
`NONE = 0`, `NETTING = 1`, `HEDGING = 2`.  `toNat` is that C value; a bare
`if OMSType.HEDGING:` in Cython tests the numeric value of the constant. -/
inductive OMSType where
  | NONE
  | NETTING
  | HEDGING
deriving DecidableEq, Repr

/-- The C enum value of an `OMSType` member. -/
def OMSType.toNat : OMSType → Nat
  | .NONE => 0
  | .NETTING => 1
  | .HEDGING => 2

/-- Book type (`BookType` C enum): top-of-book, by-price, by-order. -/
inductive BookType where
  | L1_TBBO
  | L2_MBP
  | L3_MBO
deriving DecidableEq, Repr

/-- Position side (`PositionSide` C enum). -/
inductive PositionSide where
  | flat
  | long
  | short
deriving DecidableEq, Repr

/-- An instrument: identifier, quote currency and price increment are the
fields the matching engine reads. -/
structure Instrument where
  instrument_id : Nat
  quote_currency : Nat
  price_increment : Int
deriving DecidableEq, Repr

/-- A position snapshot as read from the external cache. -/
structure Position where
  id : String
  instrument_id : Nat
  side : PositionSide
  quantity : Int
deriving DecidableEq, Repr

/-- An order object.  `price` is the limit price for Limit/StopLimit orders
and the stop price for StopMarket orders (mirroring the single `price` field
the engine sorts and matches on); `trigger` is the StopLimit trigger price. -/
structure Order where
  client_order_id : Nat
  instrument_id : Nat
  side : OrderSide
  type : OrderType
  quantity : Int
  filled_qty : Int
  price : Int
  trigger : Int
  is_post_only : Bool
  is_reduce_only : Bool
  is_triggered : Bool
  expire_time_ns : Int
  status : OrderStatus
  contingency : ContingencyType
  parent_order_id : Option Nat
  child_order_ids : List Nat
  contingency_ids : List Nat
  venue_order_id : Option String
  position_id : Option String
deriving DecidableEq, Repr

/-- `leaves_qty = quantity - filled_qty` (spec §3 invariant). -/
def Order.leaves_qty (o : Order) : Int := o.quantity - o.filled_qty

/-- Modelled from the spec: terminal statuses (`Filled`, `Canceled`,
`Expired`, `Rejected` are terminal, §3). -/
def OrderStatus.isTerminal : OrderStatus → Bool
  | .rejected => true
  | .canceled => true
  | .expired => true
  | .filled => true
  | _ => false

/-- Modelled from the spec: `is_active_c` — the order has not reached a
terminal status. -/
def Order.is_active (o : Order) : Bool := !o.status.isTerminal

/-- Modelled from the spec: `is_working_c` — the order is eligible for
matching; §8-2: in the working index iff status ∈ {Accepted, PartiallyFilled,
Triggered}. -/
def Order.is_working (o : Order) : Bool :=
  o.status = .accepted || o.status = .partiallyFilled || o.status = .triggered

/-- Modelled from the spec: `is_completed_c` — terminal. -/
def Order.is_completed (o : Order) : Bool := o.status.isTerminal

/-- `is_passive_c`: every order type except Market rests in the book. -/
def Order.is_passive (o : Order) : Bool := o.type ≠ .market

/-- `is_buy_c`. -/
def Order.is_buy (o : Order) : Bool := o.side = .buy

/-- `is_sell_c`. -/
def Order.is_sell (o : Order) : Bool := o.side = .sell

/-- Modelled from the spec: `Position.is_closed_c` — side is flat. -/
def Position.is_closed (p : Position) : Bool := p.side = .flat

/-- `Position.is_long_c`. -/
def Position.is_long (p : Position) : Bool := p.side = .long

/-- `Position.is_short_c`. -/
def Position.is_short (p : Position) : Bool := p.side = .short

/-- Events emitted to the execution client (outbound contract of §6).
Identifier payloads beyond the client order id, the reason string and the
fill fields are elided. -/
inductive Event where
  | orderRejected (cid : Nat) (reason : String) (ts : Int)
  | orderAccepted (cid : Nat) (venue_order_id : String) (ts : Int)
  | orderPendingUpdate (cid : Nat) (ts : Int)
  | orderPendingCancel (cid : Nat) (ts : Int)
  | orderModifyRejected (cid : Nat) (reason : String) (ts : Int)
  | orderCancelRejected (cid : Nat) (reason : String) (ts : Int)
  | orderUpdated (cid : Nat) (quantity : Int) (price : Option Int)
      (trigger : Option Int) (ts : Int)
  | orderCanceled (cid : Nat) (ts : Int)
  | orderTriggered (cid : Nat) (ts : Int)
  | orderExpired (cid : Nat) (ts : Int)
  | orderFilled (cid : Nat) (venue_position_id : Option String)
      (execution_id : String) (last_qty last_px : Int) (quote_currency : Nat)
      (commission : Int) (liquidity_side : LiquiditySide) (ts : Int)
deriving DecidableEq, Repr

/-- The `ts_event` carried by an event. -/
def Event.ts : Event → Int
  | .orderRejected _ _ t => t
  | .orderAccepted _ _ t => t
  | .orderPendingUpdate _ t => t
  | .orderPendingCancel _ t => t
  | .orderModifyRejected _ _ t => t
  | .orderCancelRejected _ _ t => t
  | .orderUpdated _ _ _ _ t => t
  | .orderCanceled _ t => t
  | .orderTriggered _ t => t
  | .orderExpired _ t => t
  | .orderFilled _ _ _ _ _ _ _ _ t => t

/-- Whether an event is an `OrderExpired`. -/
def Event.isExpired : Event → Bool
  | .orderExpired _ _ => true
  | _ => false

/-- Whether an event is an `OrderFilled` for the given client order id with
the given liquidity side. -/
def Event.isFillFor (cid : Nat) (side : LiquiditySide) : Event → Bool
  | .orderFilled c _ _ _ _ _ _ ls _ => c = cid && ls = side
  | _ => false

/-- Trading commands consumed from the command queue (§4.4). -/
inductive Command where
  | submitOrder (order : Order)
  | submitOrderList (orders : List Order)
  | cancelOrder (cid : Nat)
  | modifyOrder (cid : Nat) (quantity : Option Int) (price : Option Int)
      (trigger : Option Int)
deriving DecidableEq, Repr

/-- Association-list lookup (Python `dict.get`): first binding wins. -/
def alGet {κ : Type} [DecidableEq κ] {α : Type} : List (κ × α) → κ → Option α
  | [], _ => none
  | (k, v) :: rest, key => if k = key then some v else alGet rest key

/-- Association-list update (Python `dict[k] = v`): replace the existing
binding in place, else append (Python dicts preserve insertion order). -/
def alSet {κ : Type} [DecidableEq κ] {α : Type} :
    List (κ × α) → κ → α → List (κ × α)
  | [], key, v => [(key, v)]
  | (k, w) :: rest, key, v =>
      if k = key then (k, v) :: rest else (k, w) :: alSet rest key v

/-- Association-list removal (Python `dict.pop(k, None)` for the binding). -/
def alDrop {κ : Type} [DecidableEq κ] {α : Type} : List (κ × α) → κ → List (κ × α)
  | [], _ => []
  | (k, w) :: rest, key => if k = key then rest else (k, w) :: alDrop rest key

/-- Zero-padded three-digit rendering, the `{n:03d}` format of the identifier
generators (§4.3). -/
def pad3 (n : Nat) : String :=
  if n < 10 then "00" ++ toString n
  else if n < 100 then "0" ++ toString n
  else toString n

/-- The complete mutable state of `SimulatedExchange` plus the oracle data of
its external collaborators (book view, fill model, account, cache). -/
structure Exchange where
  oms_type : OMSType
  book_type : BookType
  bar_execution : Bool
  reject_stop_orders : Bool
  instrument_indexer : List (Nat × Nat)
  instruments : List (Nat × Instrument)
  books : List (Nat × (Option Int × Option Int))
  last_bids : List (Nat × Int)
  last_asks : List (Nat × Int)
  order_index : List Nat
  orders_bid : List (Nat × List Nat)
  orders_ask : List (Nat × List Nat)
  oto_orders : List (Nat × Nat)
  symbol_pos_count : List (Nat × Nat)
  symbol_ord_count : List (Nat × Nat)
  executions_count : Nat
  message_queue : List Command
  now_ns : Int
  cache : List (Nat × Order)
  cache_position_ids : List (Nat × String)
  positions : List (String × Position)
  open_position_ids : List (Nat × List String)
  pos_for_order : List (Nat × String)
  orders_for_position : List (String × List Nat)
  fm_limit : List Bool
  fm_stop : List Bool
  fm_slip : List Bool
  sim_plans : List (List (Int × Int))
  commission_of : Int → Int → LiquiditySide → Int

/-- Write an order object back to the heap. -/
def setOrder (st : Exchange) (o : Order) : Exchange :=
  { st with cache := alSet st.cache o.client_order_id o }

/-- Read the current state of the object passed as `o` (Python aliasing: if
the cache holds an object under this client order id it is that object,
otherwise the passed value is the object itself). -/
def readOrder (st : Exchange) (o : Order) : Order :=
  (alGet st.cache o.client_order_id).getD o

/-- `best_bid_price`: best bid of the instrument's book, if any. -/
def best_bid_price (st : Exchange) (iid : Nat) : Option Int :=
  match alGet st.books iid with
  | none => none
  | some (b, _) => b

/-- `best_ask_price`: best ask of the instrument's book, if any. -/
def best_ask_price (st : Exchange) (iid : Nat) : Option Int :=
  match alGet st.books iid with
  | none => none
  | some (_, a) => a

/-- Pop one draw from the `is_limit_filled` stream of the fill model (an
exhausted oracle stream draws `false`). -/
def drawLimit (st : Exchange) : Bool × Exchange :=
  match st.fm_limit with
  | [] => (false, st)
  | b :: rest => (b, { st with fm_limit := rest })

/-- Pop one draw from the `is_stop_filled` stream of the fill model. -/
def drawStop (st : Exchange) : Bool × Exchange :=
  match st.fm_stop with
  | [] => (false, st)
  | b :: rest => (b, { st with fm_stop := rest })

/-- Pop one draw from the `is_slipped` stream of the fill model. -/
def drawSlip (st : Exchange) : Bool × Exchange :=
  match st.fm_slip with
  | [] => (false, st)
  | b :: rest => (b, { st with fm_slip := rest })

/-- `_is_limit_marketable`: the limit price crosses or touches the opposite
best (buy: `price ≥ ask`; sell: `price ≤ bid`); no market means not
marketable. -/
def is_limit_marketable (st : Exchange) (iid : Nat) (side : OrderSide)
    (order_price : Int) : Bool :=
  match side with
  | .buy =>
    match best_ask_price st iid with
    | none => false
    | some ask => order_price ≥ ask
  | .sell =>
    match best_bid_price st iid with
    | none => false
    | some bid => order_price ≤ bid

/-- `_is_limit_matched`: strict cross, or touch plus a fresh
`is_limit_filled` draw (the draw is only consumed on the touch case, as the
source's `or` short-circuits). -/
def is_limit_matched (st : Exchange) (iid : Nat) (side : OrderSide)
    (price : Int) : Bool × Exchange :=
  match side with
  | .buy =>
    match best_ask_price st iid with
    | none => (false, st)
    | some ask =>
      if price > ask then (true, st)
      else if ask = price then drawLimit st
      else (false, st)
  | .sell =>
    match best_bid_price st iid with
    | none => (false, st)
    | some bid =>
      if price < bid then (true, st)
      else if bid = price then drawLimit st
      else (false, st)

/-- `_is_stop_marketable`: the stop price is already in the market (buy:
`ask ≥ price`; sell: `bid ≤ price`). -/
def is_stop_marketable (st : Exchange) (iid : Nat) (side : OrderSide)
    (price : Int) : Bool :=
  match side with
  | .buy =>
    match best_ask_price st iid with
    | none => false
    | some ask => ask ≥ price
  | .sell =>
    match best_bid_price st iid with
    | none => false
    | some bid => bid ≤ price

/-- `_is_stop_triggered`: strict penetration, or touch plus a fresh
`is_stop_filled` draw. -/
def is_stop_triggered (st : Exchange) (iid : Nat) (side : OrderSide)
    (price : Int) : Bool × Exchange :=
  match side with
  | .buy =>
    match best_ask_price st iid with
    | none => (false, st)
    | some ask =>
      if ask > price then (true, st)
      else if ask = price then drawStop st
      else (false, st)
  | .sell =>
    match best_bid_price st iid with
    | none => (false, st)
    | some bid =>
      if bid < price then (true, st)
      else if bid = price then drawStop st
      else (false, st)

/-- `_generate_venue_position_id`: bump the per-instrument position counter
and format `"{instrument_index}-{pos_count:03d}"`. -/
def generate_venue_position_id (st : Exchange) (iid : Nat) : String × Exchange :=
  let pos_count := (alGet st.symbol_pos_count iid).getD 0 + 1
  let st := { st with symbol_pos_count := alSet st.symbol_pos_count iid pos_count }
  (toString ((alGet st.instrument_indexer iid).getD 0) ++ "-" ++ pad3 pos_count, st)

/-- `_generate_venue_order_id`: bump the per-instrument order counter and
format `"{instrument_index}-{ord_count:03d}"`. -/
def generate_venue_order_id (st : Exchange) (iid : Nat) : String × Exchange :=
  let ord_count := (alGet st.symbol_ord_count iid).getD 0 + 1
  let st := { st with symbol_ord_count := alSet st.symbol_ord_count iid ord_count }
  (toString ((alGet st.instrument_indexer iid).getD 0) ++ "-" ++ pad3 ord_count, st)

/-- `_generate_execution_id`: bump the global execution counter and format
`"{count}"`. -/
def generate_execution_id (st : Exchange) : String × Exchange :=
  let st := { st with executions_count := st.executions_count + 1 }
  (toString st.executions_count, st)

/-- `_get_position_id`.  NOTE (faithful to the source): the first branch
tests the bare enum constant — `if OMSType.HEDGING:` — whose C value is
nonzero, not `self.oms_type == OMSType.HEDGING`; the NETTING block below it
is reached only when `generate` is false and no cached id exists. -/
def get_position_id (st : Exchange) (order : Order) (generate : Bool) :
    Option String × Exchange :=
  if OMSType.HEDGING.toNat ≠ 0 then
    match alGet st.cache_position_ids order.client_order_id with
    | some pid => (some pid, st)
    | none =>
      if generate then
        let (pid, st) := generate_venue_position_id st order.instrument_id
        (some pid, st)
      else
        match (alGet st.open_position_ids order.instrument_id).getD [] with
        | [] => (none, st)
        | pid :: _ => (some pid, st)
  else
    match (alGet st.open_position_ids order.instrument_id).getD [] with
    | [] => (none, st)
    | pid :: _ => (some pid, st)

/-- The price sort key used by `_add_order`'s `key=lambda x: x.price`: the
current price of the heap object under the given client order id. -/
def priceKey (st : Exchange) (cid : Nat) : Int :=
  match alGet st.cache cid with
  | some o => o.price
  | none => 0

/-- Stable insertion for a descending-by-key sort: the inserted element (which
comes earlier in the original list) is placed before any equal-keyed element,
so ties keep list order, as Python's stable `sort(key=..., reverse=True)`
does. -/
def insertDesc (key : Nat → Int) (x : Nat) : List Nat → List Nat
  | [] => [x]
  | y :: ys => if key x ≥ key y then x :: y :: ys else y :: insertDesc key x ys

/-- Stable whole-list sort, descending by key. -/
def sortDesc (key : Nat → Int) : List Nat → List Nat
  | [] => []
  | x :: xs => insertDesc key x (sortDesc key xs)

/-- Stable insertion for an ascending-by-key sort (ties keep list order). -/
def insertAsc (key : Nat → Int) (x : Nat) : List Nat → List Nat
  | [] => [x]
  | y :: ys => if key x ≤ key y then x :: y :: ys else y :: insertAsc key x ys

/-- Stable whole-list sort, ascending by key. -/
def sortAsc (key : Nat → Int) : List Nat → List Nat
  | [] => []
  | x :: xs => insertAsc key x (sortAsc key xs)

/-- The working bid list of an instrument (client order ids). -/
def bidList (st : Exchange) (iid : Nat) : List Nat :=
  (alGet st.orders_bid iid).getD []

/-- The working ask list of an instrument (client order ids). -/
def askList (st : Exchange) (iid : Nat) : List Nat :=
  (alGet st.orders_ask iid).getD []

/-- `_add_order`: register the object, index it by client order id, append it
to its side list and re-sort that list by price (descending bids, ascending
asks). -/
def add_order (st : Exchange) (o : Order) : Exchange :=
  let st := setOrder st o
  let st :=
    if st.order_index.contains o.client_order_id then st
    else { st with order_index := st.order_index ++ [o.client_order_id] }
  if o.is_buy then
    let l := bidList st o.instrument_id ++ [o.client_order_id]
    { st with orders_bid := alSet st.orders_bid o.instrument_id (sortDesc (priceKey st) l) }
  else
    let l := askList st o.instrument_id ++ [o.client_order_id]
    { st with orders_ask := alSet st.orders_ask o.instrument_id (sortAsc (priceKey st) l) }

/-- `_delete_order`: drop the order from the index and remove it (first
occurrence, as Python `list.remove`) from its side list. -/
def delete_order (st : Exchange) (o : Order) : Exchange :=
  let st := { st with order_index := st.order_index.erase o.client_order_id }
  if o.is_buy then
    let l := (bidList st o.instrument_id).erase o.client_order_id
    { st with orders_bid := alSet st.orders_bid o.instrument_id l }
  else
    let l := (askList st o.instrument_id).erase o.client_order_id
    { st with orders_ask := alSet st.orders_ask o.instrument_id l }

/-- Pop one fill plan from the book-simulation oracle (one
`simulate_order_fills` query against the opposing ladder). -/
def popPlan (st : Exchange) : List (Int × Int) × Exchange :=
  match st.sim_plans with
  | [] => ([], st)
  | p :: rest => (p, { st with sim_plans := rest })

/-- `_determine_limit_price_and_volume`: under bar execution record the
order's own price as the last bid/ask and fill the whole remainder at it;
otherwise query the opposing book ladder. -/
def determine_limit_price_and_volume (st : Exchange) (ro : Order) :
    List (Int × Int) × Exchange :=
  if st.bar_execution then
    if ro.is_buy then
      ([(ro.price, ro.leaves_qty)],
       { st with last_bids := alSet st.last_bids ro.instrument_id ro.price })
    else
      ([(ro.price, ro.leaves_qty)],
       { st with last_asks := alSet st.last_asks ro.instrument_id ro.price })
  else popPlan st

/-- `_determine_market_price_and_volume`: under bar execution a Market order
fills at the recorded last ask/bid when one exists (else it falls through to
the book query); a triggered stop fills at its own price and records it;
otherwise query the opposing book ladder with an unbounded price. -/
def determine_market_price_and_volume (st : Exchange) (ro : Order) :
    List (Int × Int) × Exchange :=
  if st.bar_execution then
    if ro.type = .market then
      match (if ro.is_buy then alGet st.last_asks ro.instrument_id
             else alGet st.last_bids ro.instrument_id) with
      | some px => ([(px, ro.leaves_qty)], st)
      | none => popPlan st
    else
      if ro.is_buy then
        ([(ro.price, ro.leaves_qty)],
         { st with last_asks := alSet st.last_asks ro.instrument_id ro.price })
      else
        ([(ro.price, ro.leaves_qty)],
         { st with last_bids := alSet st.last_bids ro.instrument_id ro.price })
  else popPlan st

/-- Modelled from the spec: the cid rendering used inside reason strings
(`repr(command.client_order_id)`); the spec writes the reason as
`"<cid> not found"`, so the rendering is the id itself. -/
def reprClientOrderId (cid : Nat) : String := toString cid

/-- `_generate_order_rejected` plus the external application of the event:
the order becomes `Rejected` (terminal). -/
def generate_order_rejected (st : Exchange) (ro : Order) (reason : String) :
    Event × Exchange :=
  let st := setOrder st { ro with status := .rejected }
  (.orderRejected ro.client_order_id reason st.now_ns, st)

/-- `_generate_order_accepted` plus the external application of the event:
a fresh venue order id is generated and recorded, the order becomes
`Accepted` (spec §4.5 acceptance side effect). -/
def generate_order_accepted (st : Exchange) (ro : Order) : Event × Exchange :=
  let (vid, st) := generate_venue_order_id st ro.instrument_id
  let st := setOrder st { ro with status := .accepted, venue_order_id := some vid }
  (.orderAccepted ro.client_order_id vid st.now_ns, st)

/-- `_generate_order_pending_update` (event only; the transient
`PendingUpdate` status is not tracked, the engine keys behavior on
working/terminal statuses). -/
def generate_order_pending_update (st : Exchange) (ro : Order) : Event × Exchange :=
  (.orderPendingUpdate ro.client_order_id st.now_ns, st)

/-- `_generate_order_pending_cancel` (event only, as for pending update). -/
def generate_order_pending_cancel (st : Exchange) (ro : Order) : Event × Exchange :=
  (.orderPendingCancel ro.client_order_id st.now_ns, st)

/-- `_generate_order_modify_rejected` (no state change). -/
def generate_order_modify_rejected (st : Exchange) (cid : Nat) (reason : String) :
    Event × Exchange :=
  (.orderModifyRejected cid reason st.now_ns, st)

/-- `_generate_order_cancel_rejected` (no state change). -/
def generate_order_cancel_rejected (st : Exchange) (cid : Nat) (reason : String) :
    Event × Exchange :=
  (.orderCancelRejected cid reason st.now_ns, st)

/-- `_generate_order_updated` plus the external application of the event: a
venue order id is generated if the order does not have one; quantity and
price are updated (a `none` price leaves the price unchanged, mirroring the
`price=None` call in the reduce-only clip), and the trigger if given. -/
def generate_order_updated (st : Exchange) (ro : Order) (qty : Int)
    (price : Option Int) (trigger : Option Int) : Event × Exchange :=
  let (vid, st) :=
    match ro.venue_order_id with
    | some v => (v, st)
    | none => generate_venue_order_id st ro.instrument_id
  let st := setOrder st
    { ro with quantity := qty,
              price := price.getD ro.price,
              trigger := (trigger.map id).getD ro.trigger,
              venue_order_id := some vid }
  (.orderUpdated ro.client_order_id qty price trigger st.now_ns, st)

/-- `_generate_order_canceled` plus the external application of the event:
the order becomes `Canceled` (terminal). -/
def generate_order_canceled (st : Exchange) (ro : Order) : Event × Exchange :=
  let st := setOrder st { ro with status := .canceled }
  (.orderCanceled ro.client_order_id st.now_ns, st)

/-- `_generate_order_triggered` plus the external application of the event:
the stop-limit order records `is_triggered = true`. -/
def generate_order_triggered (st : Exchange) (ro : Order) : Event × Exchange :=
  let st := setOrder st { ro with is_triggered := true }
  (.orderTriggered ro.client_order_id st.now_ns, st)

/-- `_generate_order_expired` plus the external application of the event: the
order becomes `Expired`.  NOTE (faithful to the source): the event's
`ts_event` is `order.expire_time_ns`, not the current clock time. -/
def generate_order_expired (st : Exchange) (ro : Order) : Event × Exchange :=
  let st := setOrder st { ro with status := .expired }
  (.orderExpired ro.client_order_id ro.expire_time_ns, st)

/-- `_generate_order_filled` plus the external application of the event: the
venue order id is the order's or a fresh one, a fresh execution id is drawn,
and the order's `filled_qty`, `venue_order_id`, `position_id` and status
(`Filled` when nothing is left, else `PartiallyFilled`) are updated. -/
def generate_order_filled (st : Exchange) (ro : Order)
    (venue_position_id : Option String) (last_qty last_px : Int)
    (quote_currency : Nat) (commission : Int) (liquidity_side : LiquiditySide) :
    Event × Exchange :=
  let (vid, st) :=
    match ro.venue_order_id with
    | some v => (v, st)
    | none => generate_venue_order_id st ro.instrument_id
  let (exec_id, st) := generate_execution_id st
  let filled := ro.filled_qty + last_qty
  let st := setOrder st
    { ro with filled_qty := filled,
              venue_order_id := some vid,
              position_id :=
                match venue_position_id with
                | some p => some p
                | none => ro.position_id,
              status := if ro.quantity - filled ≤ 0 then .filled else .partiallyFilled }
  (.orderFilled ro.client_order_id venue_position_id exec_id last_qty last_px
      quote_currency commission liquidity_side st.now_ns, st)

/-- `_accept_order`: add to the working set, then emit `OrderAccepted`. -/
def accept_order (st : Exchange) (o : Order) : List Event × Exchange :=
  let ro := readOrder st o
  let st := add_order st ro
  let (ev, st) := generate_order_accepted st (readOrder st ro)
  ([ev], st)

/-- The position-id indexing step for one OTO child inside `_fill_order`:
`cache.add_position_id(order.position_id, ...)` when the child has no
position id yet (a parent without a position id indexes nothing). -/
def oto_index_child (st : Exchange) (parent child : Order) (cid : Nat) : Exchange :=
  if child.position_id = none then
    match parent.position_id with
    | some pid =>
      { st with cache_position_ids := alSet st.cache_position_ids cid pid }
    | none => st
  else st

/-- The acceptance step for one OTO child inside `_fill_order`:
`if not child_order.is_working_c(): self._accept_order(child_order)`. -/
def oto_accept_child (st : Exchange) (cid : Nat) : List Event × Exchange :=
  match alGet st.cache cid with
  | some child' => if child'.is_working then ([], st) else accept_order st child'
  | none => ([], st)

/-- The OTO child loop inside `_fill_order`: for each child of a filled OTO
parent, index the parent's position id for the child if the child has none
yet, and accept the child if it is not yet working.  Fails (like the source
`assert`) when a child is missing from the cache. -/
def oto_children_after_fill (st : Exchange) (parent : Order) :
    List Nat → Option (List Event × Exchange)
  | [] => some ([], st)
  | cid :: rest =>
    match alGet st.cache cid with
    | none => none
    | some child =>
      let st := oto_index_child st parent child cid
      let (evs, st) := oto_accept_child st cid
      match oto_children_after_fill st parent rest with
      | none => none
      | some (evs', st') => some (evs ++ evs', st')

/-- Render an order side for reason strings. -/
def OrderSide.str : OrderSide → String
  | .buy => "BUY"
  | .sell => "SELL"

/-- Render an order type for reason strings. -/
def OrderType.str : OrderType → String
  | .market => "MARKET"
  | .limit => "LIMIT"
  | .stopMarket => "STOP_MARKET"
  | .stopLimit => "STOP_LIMIT"

/-- The OTO registration of `_process_order`: `_oto_orders[child] = parent`
for each child id. -/
def registerOtoChildren (st : Exchange) (o : Order) : Exchange :=
  { st with oto_orders :=
      o.child_order_ids.foldl (fun m c => alSet m c o.client_order_id) st.oto_orders }

/-- The venue-order-id assignment step of `_cancel_order`: give the order a
fresh venue order id if it has none. -/
def cancel_order_venue (st : Exchange) (o : Order) : Order × Exchange :=
  let ro := readOrder st o
  if ro.venue_order_id.isNone then
    let (vid, st) := generate_venue_order_id st ro.instrument_id
    let ro := { ro with venue_order_id := some vid }
    (ro, setOrder st ro)
  else (ro, st)

/-- The side-list removal step of `_cancel_order` (and `_delete_order`'s list
half): drop the order's client order id from its side list. -/
def erase_from_side (st : Exchange) (o : Order) : Exchange :=
  if o.is_buy then
    let l := (bidList st o.instrument_id).erase o.client_order_id
    { st with orders_bid := alSet st.orders_bid o.instrument_id l }
  else
    let l := (askList st o.instrument_id).erase o.client_order_id
    { st with orders_ask := alSet st.orders_ask o.instrument_id l }

/-- The event-producing body of `_cancel_order`: assign a venue order id if
the order has none, remove the order from its side list, then emit
`OrderCanceled` (the optional OCO cascade is sequenced by the interpreter). -/
def cancel_order_core (st : Exchange) (o : Order) : Event × Exchange :=
  let (ro, st) := cancel_order_venue st o
  let st := erase_from_side st o
  generate_order_canceled st (readOrder st ro)

/-- One pending invocation of a `SimulatedExchange` method.  Each constructor
corresponds to a `cdef` method of the source (the `...Loop` constructors are
the `for` loops of those methods, which recurse through the engine). -/
inductive Act where
  | processQueue (cmds : List Command)
  | processOrders (orders : List Order)
  | processOrder (o : Order)
  | processOrderDispatch (o : Order)
  | processMarketOrder (o : Order)
  | processLimitOrder (o : Order)
  | processStopMarketOrder (o : Order)
  | processStopLimitOrder (o : Order)
  | updateOrder (o : Order) (qty : Option Int) (price : Option Int)
      (trigger : Option Int) (update_ocos : Bool)
  | updateLimitOrder (o : Order) (qty : Int) (price : Int)
  | updateStopMarketOrder (o : Order) (qty : Int) (price : Int)
  | updateStopLimitOrder (o : Order) (qty : Int) (price : Int) (trigger : Int)
  | updateOcoOrders (o : Order)
  | updateOcoLoop (o : Order) (cids : List Nat)
  | cancelOrder (o : Order) (cancel_ocos : Bool)
  | cancelOcoOrders (o : Order)
  | cancelOcoLoop (o : Order) (cids : List Nat)
  | expireOrder (o : Order)
  | matchOrder (o : Order)
  | matchLimitOrder (o : Order)
  | matchStopMarketOrder (o : Order)
  | matchStopLimitOrder (o : Order)
  | fillLimitOrder (o : Order) (liquidity_side : LiquiditySide)
  | fillMarketOrder (o : Order) (liquidity_side : LiquiditySide)
  | applyFills (o : Order) (liquidity_side : LiquiditySide)
      (fills : List (Int × Int)) (position_id : Option String)
      (position : Option Position)
  | applyFillsGo (instr : Instrument) (o : Order) (liquidity_side : LiquiditySide)
      (remaining orig : List (Int × Int)) (position_id : Option String)
      (position : Option Position)
  | fillOrder (instr : Instrument) (o : Order) (venue_position_id : Option String)
      (position : Option Position) (last_qty last_px : Int)
      (liquidity_side : LiquiditySide)
  | fillOcoLoop (o : Order) (cids : List Nat)
  | fillReduceLoop (venue_position_id : Option String) (position : Position)
      (cids : List Nat)
  | iterateSide (cids : List Nat) (timestamp_ns : Int)
  | iterateMatchingEngine (iid : Nat) (timestamp_ns : Int)

/-- Sequence two engine steps, concatenating their emitted events. -/
def seqRun (r : Option (List Event × Exchange))
    (k : Exchange → Option (List Event × Exchange)) :
    Option (List Event × Exchange) :=
  match r with
  | none => none
  | some (evs, st) =>
    match k st with
    | none => none
    | some (evs', st') => some (evs ++ evs', st')

/-- The engine interpreter: executes one pending invocation with the given
fuel.  `none` means the fuel ran out, or a source `assert` / fatal invariant
(spec §7 programmer errors) fired.  Every constructor's body is a direct
translation of the corresponding `SimulatedExchange` method. -/
def run : Nat → Act → Exchange → Option (List Event × Exchange)
  | 0, _, _ => none
  | Nat.succ n, act, st =>
    match act with
    | .processQueue cmds =>
      -- the command drain loop of `process`
      match cmds with
      | [] => some ([], st)
      | c :: rest =>
        let head : Option (List Event × Exchange) :=
          match c with
          | .submitOrder o => run n (.processOrder o) st
          | .submitOrderList os => run n (.processOrders os) st
          | .cancelOrder cid =>
            -- `order = self._order_index.pop(cid, None)`
            if st.order_index.contains cid then
              let st' := { st with order_index := st.order_index.erase cid }
              match alGet st'.cache cid with
              | none => none
              | some o =>
                if o.is_active then
                  let (ev, st') := generate_order_pending_cancel st' o
                  seqRun (some ([ev], st')) (fun s => run n (.cancelOrder o true) s)
                else some ([], st')
            else
              let (ev, st') := generate_order_cancel_rejected st cid
                (reprClientOrderId cid ++ " not found")
              some ([ev], st')
          | .modifyOrder cid qty price trigger =>
            -- `order = self._order_index.get(cid)`
            if st.order_index.contains cid then
              match alGet st.cache cid with
              | none => none
              | some o =>
                let (ev, st') := generate_order_pending_update st o
                seqRun (some ([ev], st'))
                  (fun s => run n (.updateOrder o qty price trigger true) s)
            else
              let (ev, st') := generate_order_modify_rejected st cid
                (reprClientOrderId cid ++ " not found")
              some ([ev], st')
        seqRun head (fun s => run n (.processQueue rest) s)
    | .processOrders orders =>
      -- the order loop of the `SubmitOrderList` branch
      match orders with
      | [] => some ([], st)
      | o :: rest =>
        seqRun (run n (.processOrder o) st) (fun s => run n (.processOrders rest) s)
    | .processOrder o =>
      -- `_process_order` (head: idempotence check, OTO registration, parent
      -- checks); the fall-through to the reduce-only check and the type
      -- dispatch is `.processOrderDispatch`
      if st.order_index.contains o.client_order_id then some ([], st)
      else
        let st := if o.contingency = .oto then registerOtoChildren st o else st
        match o.parent_order_id with
        | none => run n (.processOrderDispatch o) st
        | some pid =>
          if (alGet st.oto_orders o.client_order_id).isSome then
            match alGet st.cache pid with
            | none => none
            | some parent =>
              if parent.status = .rejected ∧ (readOrder st o).is_active then
                let (ev, st) := generate_order_rejected st (readOrder st o)
                  ("REJECT OTO from " ++ reprClientOrderId parent.client_order_id)
                some ([ev], st)
              else if parent.status = .accepted then some ([], st)
              else run n (.processOrderDispatch o) st
          else run n (.processOrderDispatch o) st
    | .processOrderDispatch o =>
      -- the tail of `_process_order`: reduce-only validation, then dispatch
      -- by order type
      let rejectReduceOnly : Bool :=
        match (alGet st.pos_for_order o.client_order_id).bind
            (fun pid => alGet st.positions pid) with
        | none => true
        | some p => p.is_closed || (o.is_buy && p.is_long) || (o.is_sell && p.is_short)
      if o.is_reduce_only ∧ rejectReduceOnly then
        let (ev, st) := generate_order_rejected st (readOrder st o)
          ("REDUCE_ONLY " ++ o.type.str ++ " " ++ o.side.str ++
           " order would have increased position.")
        some ([ev], st)
      else
        match o.type with
        | .market => run n (.processMarketOrder o) st
        | .limit => run n (.processLimitOrder o) st
        | .stopMarket => run n (.processStopMarketOrder o) st
        | .stopLimit => run n (.processStopLimitOrder o) st
    | .processMarketOrder o =>
      -- `_process_market_order`
      if o.side = .buy ∧ (best_ask_price st o.instrument_id).isNone then
        let (ev, st) := generate_order_rejected st (readOrder st o)
          ("no market for " ++ toString o.instrument_id)
        some ([ev], st)
      else if o.side = .sell ∧ (best_bid_price st o.instrument_id).isNone then
        let (ev, st) := generate_order_rejected st (readOrder st o)
          ("no market for " ++ toString o.instrument_id)
        some ([ev], st)
      else run n (.fillMarketOrder o .taker) st
    | .processLimitOrder o =>
      -- `_process_limit_order`
      let ro := readOrder st o
      if o.is_post_only ∧ is_limit_marketable st o.instrument_id o.side ro.price then
        let (ev, st) := generate_order_rejected st ro
          ("POST_ONLY LIMIT " ++ o.side.str ++ " order limit px of " ++
           toString ro.price ++ " would have been a TAKER")
        some ([ev], st)
      else
        let (evs, st) := accept_order st o
        let ro := readOrder st o
        let (m, st) := is_limit_matched st o.instrument_id o.side ro.price
        if m then seqRun (some (evs, st)) (fun s => run n (.fillLimitOrder o .taker) s)
        else some (evs, st)
    | .processStopMarketOrder o =>
      -- `_process_stop_market_order`
      let ro := readOrder st o
      if is_stop_marketable st o.instrument_id o.side ro.price ∧ st.reject_stop_orders then
        let (ev, st) := generate_order_rejected st ro
          ("STOP " ++ o.side.str ++ " order stop px of " ++ toString ro.price ++
           " was in the market")
        some ([ev], st)
      else some (accept_order st o)
    | .processStopLimitOrder o =>
      -- `_process_stop_limit_order`
      let ro := readOrder st o
      if is_stop_marketable st o.instrument_id o.side ro.trigger then
        let (ev, st) := generate_order_rejected st ro
          ("STOP_LIMIT " ++ o.side.str ++ " order trigger stop px of " ++
           toString ro.trigger ++ " was in the market")
        some ([ev], st)
      else some (accept_order st o)
    | .updateOrder o qty price trigger update_ocos =>
      -- `_update_order`
      let ro := readOrder st o
      let qty := qty.getD ro.quantity
      let price := price.getD ro.price
      let upd : Option (List Event × Exchange) :=
        match o.type with
        | .limit => run n (.updateLimitOrder o qty price) st
        | .stopMarket => run n (.updateStopMarketOrder o qty price) st
        | .stopLimit => run n (.updateStopLimitOrder o qty price (trigger.getD ro.trigger)) st
        | .market => none
      if o.contingency = .oco ∧ update_ocos then
        seqRun upd (fun s => run n (.updateOcoOrders o) s)
      else upd
    | .updateLimitOrder o qty price =>
      -- `_update_limit_order`
      let ro := readOrder st o
      if is_limit_marketable st o.instrument_id o.side price then
        if o.is_post_only then
          let (ev, st) := generate_order_modify_rejected st o.client_order_id
            ("POST_ONLY LIMIT " ++ o.side.str ++ " order new limit px of " ++
             toString price ++ " would have been a TAKER")
          some ([ev], st)
        else
          let (ev, st) := generate_order_updated st ro qty (some price) none
          seqRun (some ([ev], st)) (fun s => run n (.fillLimitOrder o .taker) s)
      else
        let (ev, st) := generate_order_updated st ro qty (some price) none
        some ([ev], st)
    | .updateStopMarketOrder o qty price =>
      -- `_update_stop_market_order`
      let ro := readOrder st o
      if is_stop_marketable st o.instrument_id o.side price then
        let (ev, st) := generate_order_modify_rejected st o.client_order_id
          ("STOP " ++ o.side.str ++ " order new stop px of " ++ toString price ++
           " was in the market")
        some ([ev], st)
      else
        let (ev, st) := generate_order_updated st ro qty (some price) none
        some ([ev], st)
    | .updateStopLimitOrder o qty price trigger =>
      -- `_update_stop_limit_order`
      let ro := readOrder st o
      if ro.is_triggered = false then
        if is_stop_marketable st o.instrument_id o.side price then
          let (ev, st) := generate_order_modify_rejected st o.client_order_id
            ("STOP_LIMIT " ++ o.side.str ++ " order new trigger stop px of " ++
             toString price ++ " was in the market")
          some ([ev], st)
        else
          let (ev, st) := generate_order_updated st ro qty (some price) (some trigger)
          some ([ev], st)
      else
        if is_limit_marketable st o.instrument_id o.side price then
          if o.is_post_only then
            let (ev, st) := generate_order_modify_rejected st o.client_order_id
              ("POST_ONLY LIMIT " ++ o.side.str ++ " order new limit px of " ++
               toString price ++ " would have been a TAKER")
            some ([ev], st)
          else
            let (ev, st) := generate_order_updated st ro qty (some price) none
            seqRun (some ([ev], st)) (fun s => run n (.fillLimitOrder o .taker) s)
        else
          let (ev, st) := generate_order_updated st ro qty (some price) (some trigger)
          some ([ev], st)
    | .updateOcoOrders o =>
      -- `_update_oco_orders`
      run n (.updateOcoLoop o o.contingency_ids) st
    | .updateOcoLoop o cids =>
      match cids with
      | [] => some ([], st)
      | cid :: rest =>
        match alGet st.cache cid with
        | none => none
        | some oco =>
          let ro := readOrder st o
          if oco.leaves_qty ≠ ro.leaves_qty then
            seqRun (run n (.updateOrder oco (some ro.leaves_qty) (some oco.price) none false) st)
              (fun s => run n (.updateOcoLoop o rest) s)
          else run n (.updateOcoLoop o rest) st
    | .cancelOrder o cancel_ocos =>
      -- `_cancel_order` (body factored as `cancel_order_core`)
      let (ev, st) := cancel_order_core st o
      if o.contingency = .oco ∧ cancel_ocos then
        seqRun (some ([ev], st)) (fun s => run n (.cancelOcoOrders o) s)
      else some ([ev], st)
    | .cancelOcoOrders o =>
      -- `_cancel_oco_orders`
      run n (.cancelOcoLoop o o.contingency_ids) st
    | .cancelOcoLoop o cids =>
      match cids with
      | [] => some ([], st)
      | cid :: rest =>
        match alGet st.cache cid with
        | none => none
        | some oco =>
          if oco.is_active then
            seqRun (run n (.cancelOrder oco false) st)
              (fun s => run n (.cancelOcoLoop o rest) s)
          else run n (.cancelOcoLoop o rest) st
    | .expireOrder o =>
      -- `_expire_order`
      let (ev, st) := generate_order_expired st (readOrder st o)
      if o.contingency = .oco then
        seqRun (some ([ev], st)) (fun s => run n (.cancelOcoOrders o) s)
      else some ([ev], st)
    | .matchOrder o =>
      -- `_match_order`
      match o.type with
      | .limit => run n (.matchLimitOrder o) st
      | .stopMarket => run n (.matchStopMarketOrder o) st
      | .stopLimit => run n (.matchStopLimitOrder o) st
      | .market => none
    | .matchLimitOrder o =>
      -- `_match_limit_order`
      let ro := readOrder st o
      let (m, st) := is_limit_matched st o.instrument_id o.side ro.price
      if m then run n (.fillLimitOrder o .maker) st else some ([], st)
    | .matchStopMarketOrder o =>
      -- `_match_stop_market_order`
      let ro := readOrder st o
      let (t, st) := is_stop_triggered st o.instrument_id o.side ro.price
      if t then run n (.fillMarketOrder o .taker) st else some ([], st)
    | .matchStopLimitOrder o =>
      -- `_match_stop_limit_order`
      let ro := readOrder st o
      if ro.is_triggered then
        let (m, st) := is_limit_matched st o.instrument_id o.side ro.price
        if m then run n (.fillLimitOrder o .maker) st else some ([], st)
      else
        let (t, st) := is_stop_triggered st o.instrument_id o.side ro.trigger
        if t then
          let (ev, st) := generate_order_triggered st (readOrder st o)
          let ro := readOrder st o
          if is_limit_marketable st o.instrument_id o.side ro.price = false then
            some ([ev], st)
          else if o.is_post_only then
            let st := delete_order st ro
            let (ev2, st) := generate_order_rejected st (readOrder st ro)
              ("POST_ONLY LIMIT " ++ o.side.str ++ " order limit px of " ++
               toString ro.price ++ " would have been a TAKER")
            some ([ev, ev2], st)
          else
            seqRun (some ([ev], st)) (fun s => run n (.fillLimitOrder o .taker) s)
        else some ([], st)
    | .fillLimitOrder o liquidity_side =>
      -- `_fill_limit_order`
      let ro := readOrder st o
      let (position_id, st) := get_position_id st ro true
      let position :=
        match position_id with
        | some pid => alGet st.positions pid
        | none => none
      if ro.is_reduce_only ∧ position.isNone then
        run n (.cancelOrder o true) st
      else
        let (fills, st) := determine_limit_price_and_volume st (readOrder st o)
        run n (.applyFills o liquidity_side fills position_id position) st
    | .fillMarketOrder o liquidity_side =>
      -- `_fill_market_order`
      let ro := readOrder st o
      let (position_id, st) := get_position_id st ro true
      let position :=
        match position_id with
        | some pid => alGet st.positions pid
        | none => none
      if ro.is_reduce_only ∧ position.isNone then
        run n (.cancelOrder o true) st
      else
        let (fills, st) := determine_market_price_and_volume st (readOrder st o)
        run n (.applyFills o liquidity_side fills position_id position) st
    | .applyFills o liquidity_side fills position_id position =>
      -- `_apply_fills` entry: `if not fills: return`, then the instrument
      -- lookup `self.instruments[order.instrument_id]`
      if fills.isEmpty then some ([], st)
      else
        match alGet st.instruments o.instrument_id with
        | none => none
        | some instr =>
          run n (.applyFillsGo instr o liquidity_side fills fills position_id position) st
    | .applyFillsGo instr o liquidity_side remaining orig position_id position =>
      -- the allocation loop of `_apply_fills`, followed (on normal loop
      -- exit only) by the L1 residual walk
      match remaining with
      | [] =>
        let ro := readOrder st o
        if ro.is_working ∧ st.book_type = .L1_TBBO ∧
            (o.type = .market ∨ o.type = .stopMarket) then
          let last_px := (orig.getLast?.getD (0, 0)).1
          let px :=
            if o.side = .buy then last_px + instr.price_increment
            else last_px - instr.price_increment
          run n (.fillOrder instr o position_id position ro.leaves_qty px liquidity_side) st
        else some ([], st)
      | (fill_px0, fill_qty0) :: rest =>
        let ro := readOrder st o
        if ro.is_reduce_only ∧ ro.leaves_qty = 0 then some ([], st)
        else
          let fill_px1 := if o.type = .stopMarket then ro.price else fill_px0
          let (slipped, st) :=
            if st.book_type = .L1_TBBO then drawSlip st else (false, st)
          let fill_px :=
            if slipped then
              if o.side = .buy then fill_px1 + instr.price_increment
              else fill_px1 - instr.price_increment
            else fill_px1
          let clip : Option (List Event × Int × Exchange) :=
            if ro.is_reduce_only then
              match position with
              | none => none
              | some p =>
                if fill_qty0 > p.quantity then
                  let org_qty := fill_qty0
                  let adj_qty := fill_qty0 - (fill_qty0 - p.quantity)
                  let updated_qty := ro.quantity - (org_qty - adj_qty)
                  if updated_qty > 0 then
                    let (ev, st) := generate_order_updated st ro updated_qty none none
                    some ([ev], adj_qty, st)
                  else some ([], adj_qty, st)
                else some ([], fill_qty0, st)
            else some ([], fill_qty0, st)
          match clip with
          | none => none
          | some (evs1, fill_qty, st) =>
            if fill_qty ≤ 0 then some (evs1, st)
            else
              seqRun (some (evs1, st)) (fun s =>
                seqRun (run n (.fillOrder instr o position_id position fill_qty fill_px liquidity_side) s)
                  (fun s2 => run n (.applyFillsGo instr o liquidity_side rest orig position_id position) s2))
    | .fillOrder instr o venue_position_id position last_qty last_px liquidity_side =>
      -- `_fill_order`; NOTE (faithful to the source): the commission is
      -- computed with `last_qty=order.quantity`, the order's full quantity
      let ro := readOrder st o
      let commission := st.commission_of ro.quantity last_px liquidity_side
      let (ev, st) := generate_order_filled st ro venue_position_id last_qty last_px
        instr.quote_currency commission liquidity_side
      let ro2 := readOrder st o
      let st := if ro2.is_passive ∧ ro2.is_completed then delete_order st ro2 else st
      let contres : Option (List Event × Exchange) :=
        if o.contingency = .oto then
          oto_children_after_fill st (readOrder st o) o.child_order_ids
        else if o.contingency = .oco then
          run n (.fillOcoLoop o o.contingency_ids) st
        else some ([], st)
      match contres with
      | none => none
      | some (evs2, st) =>
        match position with
        | none => some (ev :: evs2, st)
        | some p =>
          let cids :=
            match venue_position_id with
            | some v => (alGet st.orders_for_position v).getD []
            | none => []
          seqRun (some (ev :: evs2, st))
            (fun s => run n (.fillReduceLoop venue_position_id p cids) s)
    | .fillOcoLoop o cids =>
      -- the OCO sibling loop at the end of `_fill_order`
      match cids with
      | [] => some ([], st)
      | cid :: rest =>
        match alGet st.cache cid with
        | none => none
        | some oco =>
          let ro := readOrder st o
          if ro.is_completed ∧ oco.is_active then
            seqRun (run n (.cancelOrder oco true) st)
              (fun s => run n (.fillOcoLoop o rest) s)
          else if ro.leaves_qty ≠ oco.leaves_qty then
            seqRun (run n (.updateOrder oco (some ro.leaves_qty) (some oco.price) none false) st)
              (fun s => run n (.fillOcoLoop o rest) s)
          else run n (.fillOcoLoop o rest) st
    | .fillReduceLoop venue_position_id position cids =>
      -- the reduce-only follow-up loop at the end of `_fill_order`
      match cids with
      | [] => some ([], st)
      | cid :: rest =>
        match alGet st.cache cid with
        | none => none
        | some o2 =>
          if o2.is_reduce_only ∧ o2.is_active ∧ o2.is_passive then
            if position.quantity = 0 then
              seqRun (run n (.cancelOrder o2 true) st)
                (fun s => run n (.fillReduceLoop venue_position_id position rest) s)
            else if o2.leaves_qty ≠ position.quantity then
              seqRun (run n (.updateOrder o2 (some position.quantity) (some o2.price) none true) st)
                (fun s => run n (.fillReduceLoop venue_position_id position rest) s)
            else run n (.fillReduceLoop venue_position_id position rest) st
          else run n (.fillReduceLoop venue_position_id position rest) st
    | .iterateSide cids timestamp_ns =>
      -- `_iterate_side` over a snapshot of the side list
      match cids with
      | [] => some ([], st)
      | cid :: rest =>
        match alGet st.cache cid with
        | none => run n (.iterateSide rest timestamp_ns) st
        | some o =>
          if o.is_working = false then run n (.iterateSide rest timestamp_ns) st
          else if o.expire_time_ns ≠ 0 ∧ o.expire_time_ns ≤ timestamp_ns then
            let st := delete_order st o
            seqRun (run n (.expireOrder o) st)
              (fun s => run n (.iterateSide rest timestamp_ns) s)
          else
            seqRun (run n (.matchOrder o) st)
              (fun s => run n (.iterateSide rest timestamp_ns) s)
    | .iterateMatchingEngine iid timestamp_ns =>
      -- `_iterate_matching_engine`: the bid side snapshot, then the ask side
      seqRun (run n (.iterateSide (bidList st iid) timestamp_ns) st)
        (fun s => run n (.iterateSide (askList s iid) timestamp_ns) s)

/-- `process`: set the clock, drain the command queue in FIFO order (no
simulation modules are loaded), then clear the last bid/ask records. -/
def process (fuel : Nat) (now_ns : Int) (st : Exchange) :
    Option (List Event × Exchange) :=
  let st := { st with now_ns := now_ns }
  let cmds := st.message_queue
  let st := { st with message_queue := [] }
  match run fuel (.processQueue cmds) st with
  | none => none
  | some (evs, st) => some (evs, { st with last_bids := [], last_asks := [] })

/-- `process_tick`: set the clock, update the L1 book from the tick, then run
the matching iteration for the tick's instrument. -/
def process_tick (fuel : Nat) (iid : Nat) (bid ask ts_init : Int) (st : Exchange) :
    Option (List Event × Exchange) :=
  let st := { st with now_ns := ts_init }
  let st :=
    if st.book_type = .L1_TBBO then
      { st with books := alSet st.books iid (some bid, some ask) }
    else st
  run fuel (.iterateMatchingEngine iid ts_init) st

/-- The prices of the working bid list of an instrument, in list order. -/
def bidPrices (st : Exchange) (iid : Nat) : List Int :=
  (bidList st iid).map (priceKey st)

/-- The prices of the working ask list of an instrument, in list order. -/
def askPrices (st : Exchange) (iid : Nat) : List Int :=
  (askList st iid).map (priceKey st)

/-- The side-list sortedness invariant of the spec: for every instrument the
bid prices are non-increasing and the ask prices non-decreasing. -/
def sortedSides (st : Exchange) : Prop :=
  ∀ iid, List.Pairwise (fun a b : Int => a ≥ b) (bidPrices st iid) ∧
         List.Pairwise (fun a b : Int => a ≤ b) (askPrices st iid)

/-- Heap well-formedness: every cached order object is keyed by its own
client order id (true of the real cache, where the key is the object's id). -/
def cacheCoherent (st : Exchange) : Prop :=
  ∀ cid ord, alGet st.cache cid = some ord → ord.client_order_id = cid

/-- Whether the cached order under `cid` is non-terminal, belongs to
instrument `iid`, and lies on the given side (`buy = true` for the bid side).
`false` when no order is cached under `cid`. -/
def liveAt (st : Exchange) (iid : Nat) (buy : Bool) (cid : Nat) : Bool :=
  (alGet st.cache cid).any fun o =>
    o.is_active && (o.instrument_id == iid) && (o.is_buy == buy)

/-- The books' membership invariant of the spec: every client order id
resting in a bid (ask) list maps to a cached non-terminal order of that
instrument on the buy (sell) side.  (Quantified over the recorded instrument
keys; an instrument with no record has an empty list.) -/
def booksLive (st : Exchange) : Prop :=
  (∀ p ∈ st.orders_bid, ∀ cid ∈ bidList st p.1, liveAt st p.1 true cid = true) ∧
  (∀ p ∈ st.orders_ask, ∀ cid ∈ askList st p.1, liveAt st p.1 false cid = true)

/-- No side list holds the same client order id twice. -/
def booksNodup (st : Exchange) : Prop :=
  (∀ p ∈ st.orders_bid, (bidList st p.1).Nodup) ∧
  (∀ p ∈ st.orders_ask, (askList st p.1).Nodup)

/-- The two membership invariants together. -/
def booksWF (st : Exchange) : Prop := booksLive st ∧ booksNodup st

/-- `cid` rests in no side list of any instrument. -/
def notListed (st : Exchange) (cid : Nat) : Prop :=
  (∀ p ∈ st.orders_bid, cid ∉ bidList st p.1) ∧
  (∀ p ∈ st.orders_ask, cid ∉ askList st p.1)

/-- The order object passed to a cancel/expire path agrees with the cache on
the fields its side-list removal keys on (trivially true when the object is
the cached one itself, as at every engine call site). -/
def agreeSI (st : Exchange) (o : Order) : Prop :=
  ∀ c, alGet st.cache o.client_order_id = some c →
    c.is_buy = o.is_buy ∧ c.instrument_id = o.instrument_id

/-- The cache-update-then-conditional-delete step of `_fill_order`: apply the
`OrderFilled` write, then, exactly as the source does, delete the order from
its side list when it is passive and completed. -/
def fill_write_and_delete (st : Exchange) (o : Order) (vpid : Option String)
    (last_qty last_px : Int) (ccy : Nat) (com : Int) (ls : LiquiditySide) :
    Exchange :=
  let st1 := (generate_order_filled st (readOrder st o) vpid last_qty last_px
    ccy com ls).2
  let ro2 := readOrder st1 o
  if ro2.is_passive ∧ ro2.is_completed then delete_order st1 ro2 else st1

/-- The `ts_event` bound for `OrderExpired` events an invocation may emit:
`_expire_order` stamps the order's own `expire_time_ns`, and a matching
iteration at `timestamp_ns` only expires orders whose `expire_time_ns` is at
most `timestamp_ns`; no other invocation emits `OrderExpired`. -/
def expBound : Act → Exchange → Event → Prop
  | .expireOrder o, st, ev => ev.ts = (readOrder st o).expire_time_ns
  | .iterateSide _ ts, _, ev => ev.ts ≤ ts
  | .iterateMatchingEngine _ ts, _, ev => ev.ts ≤ ts
  | _, _, _ => False

/-- The event-timestamp contract of a list of emitted events: every event
carries `ts_event = now`, except that an `OrderExpired` event may instead
satisfy the invocation's expiry bound `P`. -/
def EvOk (now : Int) (P : Event → Prop) (evs : List Event) : Prop :=
  ∀ ev ∈ evs, (ev.isExpired = false ∧ ev.ts = now) ∨ (ev.isExpired = true ∧ P ev)

/-- A baseline exchange configuration for the concrete scenarios: a NETTING
venue with one instrument (id 1, insertion index 1, price increment 1), an
L2 book, no working orders, no positions, and a commission oracle that
returns the quantity it is given (so the quantity used by the commission
calculation can be read off the emitted event). -/
def exBase : Exchange where
  oms_type := .NETTING
  book_type := .L2_MBP
  bar_execution := false
  reject_stop_orders := true
  instrument_indexer := [(1, 1)]
  instruments := [(1, ⟨1, 0, 1⟩)]
  books := []
  last_bids := []
  last_asks := []
  order_index := []
  orders_bid := []
  orders_ask := []
  oto_orders := []
  symbol_pos_count := []
  symbol_ord_count := []
  executions_count := 0
  message_queue := []
  now_ns := 0
  cache := []
  cache_position_ids := []
  positions := []
  open_position_ids := []
  pos_for_order := []
  orders_for_position := []
  fm_limit := []
  fm_stop := []
  fm_slip := []
  sim_plans := []
  commission_of := fun q _ _ => q

/-- A baseline plain order on instrument 1 (fields overridden per scenario). -/
def orderBase (cid : Nat) (side : OrderSide) (ty : OrderType) (qty px : Int) :
    Order where
  client_order_id := cid
  instrument_id := 1
  side := side
  type := ty
  quantity := qty
  filled_qty := 0
  price := px
  trigger := 0
  is_post_only := false
  is_reduce_only := false
  is_triggered := false
  expire_time_ns := 0
  status := .submitted
  contingency := .nocontingency
  parent_order_id := none
  child_order_ids := []
  contingency_ids := []
  venue_order_id := none
  position_id := none

/-- C1 scenario: a NETTING exchange, an order with no cached position id and
no open position for its instrument. -/
def c1_order : Order := orderBase 1 .buy .limit 10 100

/-- C2 scenario: a working (accepted) limit buy that expires at t = 50,
iterated at t = 100. -/
def c2_order : Order :=
  { orderBase 3 .buy .limit 5 100 with status := .accepted, expire_time_ns := 50 }

/-- C2 scenario state: the order is cached, indexed and resting on the bid
side. -/
def c2_st : Exchange :=
  { exBase with cache := [(3, c2_order)], order_index := [3],
                orders_bid := [(1, [3])] }

/-- C3/C4 scenario: an accepted StopMarket buy for 10 with stop price 100,
filled against the two-allocation plan `[(101, 6), (102, 4)]` on an L2 book
(no slippage draw, no residual walk). -/
def c3_order : Order :=
  { orderBase 7 .buy .stopMarket 10 100 with status := .accepted }

/-- C3/C4 scenario state. -/
def c3_st : Exchange := { exBase with cache := [(7, c3_order)] }

/-- The C3/C4 fill plan. -/
def c3_fills : List (Int × Int) := [(101, 6), (102, 4)]

/-- C6 scenario: two resting limit buys at 100 and 99. -/
def c6_oA : Order := orderBase 1 .buy .limit 10 100

/-- C6 scenario: the second (lower-priced) limit buy. -/
def c6_oB : Order := orderBase 2 .buy .limit 10 99

/-- C6 scenario starting state: both orders cached and queued for
submission (there is no market, so they simply rest). -/
def c6_st0 : Exchange :=
  { exBase with cache := [(1, c6_oA), (2, c6_oB)],
                message_queue := [.submitOrder c6_oA, .submitOrder c6_oB] }

/-- C6 state after both submissions are processed at t = 5. -/
def c6_st1 : Exchange :=
  ((process 6 5 c6_st0).map Prod.snd).getD c6_st0

/-- C6 state after a `ModifyOrder` moves order 1 from price 100 to 98
(not marketable: there is no market) at t = 6. -/
def c6_st2 : Exchange :=
  ((process 6 6
      { c6_st1 with message_queue := [.modifyOrder 1 none (some 98) none] }).map
    Prod.snd).getD c6_st1

/-- C6 witness state: the plain limit buy `c6_oA` cached, nothing resting. -/
def c6w_st0 : Exchange := { exBase with cache := [(1, c6_oA)] }

/-- C6 witness order: the accepted copy of `c6_oA`. -/
def c6w_oAcc : Order := { c6_oA with status := .accepted }

/-- C6 witness state: `c6w_oAcc` cached and resting as the single bid of
instrument 1. -/
def c6w_stL : Exchange :=
  { exBase with cache := [(1, c6w_oAcc)], orders_bid := [(1, [1])] }

/-- C5 witness scenario: a post-only limit buy at 101 against best ask 100
(marketable, so the submission is rejected). -/
def c5_order : Order := { orderBase 9 .buy .limit 10 101 with is_post_only := true }

/-- C5 witness scenario state. -/
def c5_st : Exchange :=
  { exBase with books := [(1, (some 99, some 100))], cache := [(9, c5_order)] }

/-- The fill price carried by an event, when it is an `OrderFilled`. -/
def fillPxOf : Event → Option Int
  | .orderFilled _ _ _ _ px _ _ _ _ => some px
  | _ => none

/-- The result of the C3 scenario run (used by the C3 witness). -/
def c3_result : List Event × Exchange :=
  (run 10 (.applyFills c3_order .taker c3_fills none none) c3_st).getD ([], c3_st)

/-! ## Helper lemmas -/

theorem alGet_alSet {κ : Type} [DecidableEq κ] {α : Type}
    (l : List (κ × α)) (k : κ) (v : α) (k' : κ) :
    alGet (alSet l k v) k' = if k = k' then some v else alGet l k' := by
  induction l with
  | nil => simp [alGet, alSet]
  | cons p rest ih =>
    obtain ⟨k1, w⟩ := p
    by_cases h1 : k1 = k
    · subst h1
      by_cases h2 : k1 = k' <;> simp [alGet, alSet, h2]
    · by_cases h2 : k1 = k'
      · subst h2
        have hk : ¬(k = k1) := fun h => h1 h.symm
        simp [alGet, alSet, h1, hk]
      · simp [alGet, alSet, h1, h2, ih]

theorem alGet_keyed {l : List (Nat × Order)}
    (h : ∀ p ∈ l, (p.2).client_order_id = p.1) {cid : Nat} {ord : Order}
    (hg : alGet l cid = some ord) : ord.client_order_id = cid := by
  induction l with
  | nil => simp [alGet] at hg
  | cons p rest ih =>
    obtain ⟨k, w⟩ := p
    simp only [alGet] at hg
    by_cases he : k = cid
    · rw [if_pos he] at hg
      cases hg
      rw [← he]
      exact h (k, ord) (by simp)
    · rw [if_neg he] at hg
      exact ih (fun q hq => h q (List.mem_cons_of_mem _ hq)) hg

theorem coherent_of_cache_eq {st st' : Exchange} (h : st'.cache = st.cache)
    (hc : cacheCoherent st) : cacheCoherent st' := by
  intro cid ord hg
  exact hc cid ord (h ▸ hg)

theorem coherent_of_self_write {st st' : Exchange} (x : Order)
    (h : st'.cache = alSet st.cache x.client_order_id x)
    (hc : cacheCoherent st) : cacheCoherent st' := by
  intro cid ord hg
  rw [h, alGet_alSet] at hg
  by_cases he : x.client_order_id = cid
  · rw [if_pos he] at hg
    cases hg
    exact he
  · rw [if_neg he] at hg
    exact hc cid ord hg

theorem cacheCoherent_setOrder {st : Exchange} (x : Order)
    (hc : cacheCoherent st) : cacheCoherent (setOrder st x) :=
  coherent_of_self_write x rfl hc

theorem cacheCoherent_of_forall (st : Exchange)
    (h : ∀ p ∈ st.cache, (p.2).client_order_id = p.1) : cacheCoherent st :=
  fun _ _ hg => alGet_keyed h hg

theorem seqRun_eq_some {r : Option (List Event × Exchange)}
    {k : Exchange → Option (List Event × Exchange)} {evs : List Event}
    {st' : Exchange} (h : seqRun r k = some (evs, st')) :
    ∃ e1 s1 e2, r = some (e1, s1) ∧ k s1 = some (e2, st') ∧ evs = e1 ++ e2 := by
  match r with
  | none => simp [seqRun] at h
  | some (e1, s1) =>
    simp only [seqRun] at h
    match hk : k s1 with
    | none => rw [hk] at h; simp at h
    | some (e2, s2) =>
      rw [hk] at h
      simp only [Option.some.injEq, Prod.mk.injEq] at h
      obtain ⟨h1, h2⟩ := h
      subst h2
      exact ⟨e1, s1, e2, rfl, hk, h1.symm⟩

/-! ## Claim theorems -/

/-- C1: the position-id resolution is claimed to return, under NETTING, the
id of the open position or `None`, never generating a fresh venue position
id.  The source instead tests the bare constant `OMSType.HEDGING` (always
truthy), so on a NETTING exchange with no cached position id it generates and
returns a fresh venue position id: this theorem evaluates `_get_position_id`
at that failing input. -/
theorem C1_netting_generates_position_id :
    exBase.oms_type = OMSType.NETTING ∧
    alGet exBase.cache_position_ids c1_order.client_order_id = none ∧
    (alGet exBase.open_position_ids c1_order.instrument_id).getD [] = [] ∧
    (get_position_id exBase c1_order true).1 = some "1-001" := by decide

/-- C2 counterexample: a matching iteration at clock time 100 expires an
order with `expire_time_ns = 50` and the emitted `OrderExpired` carries
`ts_event = 50`, not the claimed `now_ns = 100`. -/
theorem C2_counterexample :
    (process_tick 10 1 90 110 100 c2_st).map Prod.fst =
      some [Event.orderExpired 3 50] ∧
    c2_order.expire_time_ns = 50 ∧ (50 : Int) ≠ 100 := by decide

/-- C3 counterexample: a StopMarket buy with stop price 100 filled against
the two-allocation plan `[(101, 6), (102, 4)]` emits BOTH fills at the stop
price 100; the claim predicts the second allocation at the plan price 102. -/
theorem C3_counterexample :
    (run 10 (.applyFills c3_order .taker c3_fills none none) c3_st).map Prod.fst =
      some [Event.orderFilled 7 none "1" 6 100 0 10 .taker 0,
            Event.orderFilled 7 none "2" 4 100 0 10 .taker 0] ∧
    c3_order.price = 100 ∧ c3_fills = [(101, 6), (102, 4)] ∧ (100 : Int) ≠ 102 := by
  decide

/-- C4: the commission of an emitted `OrderFilled` is claimed to be computed
from the allocation's fill quantity.  `_fill_order` instead passes
`last_qty=order.quantity` to `calculate_commission`: filling 4 of a 10-lot
order yields a commission computed from 10 (the oracle returns the quantity
it is given), not from 4. -/
theorem C4_commission_uses_order_quantity :
    (run 10 (.fillOrder ⟨1, 0, 1⟩ c3_order none none 4 101 .taker) c3_st).map Prod.fst =
      some [Event.orderFilled 7 none "1" 4 101 0 10 .taker 0] ∧
    c3_order.quantity = 10 ∧
    c3_st.commission_of 4 101 .taker = 4 ∧ (10 : Int) ≠ 4 := by decide

/-- C6 counterexample: submitting limit buys at 100 and 99 leaves the bid
list sorted, but a `ModifyOrder` moving the first order's price to 98 does
not re-sort the list: the bid prices afterwards are `[98, 99]`, which is not
non-increasing. -/
theorem C6_counterexample :
    (process 6 5 c6_st0).isSome = true ∧
    (process 6 6
        { c6_st1 with message_queue := [.modifyOrder 1 none (some 98) none] }).isSome
      = true ∧
    bidPrices c6_st2 1 = [98, 99] ∧
    ¬ List.Pairwise (fun a b : Int => a ≥ b) (bidPrices c6_st2 1) := by decide

/-- C10: `_apply_fills` with an empty fill plan returns before touching
anything: no event is emitted (in particular no L1 residual fill) and the
state — order index, side lists, counters, heap — is returned unchanged. -/
theorem C10_empty_fill_plan_noop (n : Nat) (st : Exchange) (o : Order)
    (liquidity_side : LiquiditySide) (position_id : Option String)
    (position : Option Position) :
    run (n + 1) (.applyFills o liquidity_side [] position_id position) st =
      some ([], st) := by
  simp [run]

/-- C8: submitting an order whose client order id is already in the working
index is a no-op: `_process_order` returns immediately with no event and an
unchanged state. -/
theorem C8_resubmission_idempotent (n : Nat) (st : Exchange) (o : Order)
    (h : st.order_index.contains o.client_order_id = true) :
    run (n + 1) (.processOrder o) st = some ([], st) := by
  have hm : o.client_order_id ∈ st.order_index := by simpa using h
  simp [run, hm]

/-- C7: a `CancelOrder` whose client order id is not in the working-order
index emits exactly one `OrderCancelRejected` whose reason is exactly
`"<cid> not found"`, and leaves the order index, both side lists, and all
identifier counters unchanged (only the clock, the drained queue and the
cleared last bid/ask records differ). -/
theorem C7_cancel_unknown_cid_rejected (n : Nat) (now : Int) (st : Exchange)
    (cid : Nat)
    (hq : st.message_queue = [Command.cancelOrder cid])
    (h : st.order_index.contains cid = false) :
    process (n + 2) now st =
      some ([Event.orderCancelRejected cid (reprClientOrderId cid ++ " not found") now],
        { st with message_queue := [], now_ns := now,
                  last_bids := [], last_asks := [] }) := by
  have hm : cid ∉ st.order_index := by simpa using h
  simp [process, hq, run, hm, generate_order_cancel_rejected, seqRun]

/-- C9: a `CancelOrder` whose client order id is indexed but whose order is
no longer active removes the id from the order index and emits no event at
all; the side lists are untouched. -/
theorem C9_cancel_inactive_silent_removal (n : Nat) (now : Int) (st : Exchange)
    (cid : Nat) (o : Order)
    (hq : st.message_queue = [Command.cancelOrder cid])
    (hc : st.order_index.contains cid = true)
    (ho : alGet st.cache cid = some o)
    (ha : o.is_active = false) :
    process (n + 2) now st =
      some ([], { st with message_queue := [], now_ns := now,
                          order_index := st.order_index.erase cid,
                          last_bids := [], last_asks := [] }) := by
  have hm : cid ∈ st.order_index := by simpa using hc
  simp [process, hq, run, hm, ho, ha, seqRun]

/-- Witness for C7 at a concrete input: cancel of the unknown id 42. -/
theorem C7_witness :
    process 2 5 { exBase with message_queue := [Command.cancelOrder 42] } =
      some ([Event.orderCancelRejected 42 (reprClientOrderId 42 ++ " not found") 5],
        { { exBase with message_queue := [Command.cancelOrder 42] } with
            message_queue := [], now_ns := 5, last_bids := [], last_asks := [] }) :=
  C7_cancel_unknown_cid_rejected 0 5
    { exBase with message_queue := [Command.cancelOrder 42] } 42 rfl (by decide)

/-- Witness for C8 at a concrete input: re-submitting order 3 while id 3 is
already indexed. -/
theorem C8_witness :
    run 1 (.processOrder c2_order) { exBase with order_index := [3] } =
      some ([], { exBase with order_index := [3] }) :=
  C8_resubmission_idempotent 0 { exBase with order_index := [3] } c2_order
    (by decide)

/-- Witness for C9 at a concrete input: cancel of the indexed but already
canceled order 3. -/
theorem C9_witness :
    process 2 7
      { exBase with message_queue := [Command.cancelOrder 3],
                    order_index := [3],
                    cache := [(3, { c2_order with status := OrderStatus.canceled })] } =
      some ([],
        { { exBase with message_queue := [Command.cancelOrder 3],
                        order_index := [3],
                        cache := [(3, { c2_order with status := OrderStatus.canceled })] } with
            message_queue := [], now_ns := 7,
            order_index := ([3] : List Nat).erase 3,
            last_bids := [], last_asks := [] }) :=
  C9_cancel_inactive_silent_removal 0 7
    { exBase with message_queue := [Command.cancelOrder 3],
                  order_index := [3],
                  cache := [(3, { c2_order with status := OrderStatus.canceled })] }
    3 { c2_order with status := OrderStatus.canceled } rfl (by decide) (by decide)
    (by decide)

theorem is_limit_matched_marketable {st : Exchange} {iid : Nat} {side : OrderSide}
    {price : Int} (h : (is_limit_matched st iid side price).1 = true) :
    is_limit_marketable st iid side price = true := by
  cases side with
  | buy =>
    simp only [is_limit_matched, is_limit_marketable] at h ⊢
    cases hA : best_ask_price st iid with
    | none => rw [hA] at h; simp at h
    | some ask =>
      rw [hA] at h
      dsimp only at h
      simp only [hA]
      by_cases h1 : price > ask
      · simp only [decide_eq_true_eq]; omega
      · rw [if_neg h1] at h
        by_cases h2 : ask = price
        · subst h2; simp
        · rw [if_neg h2] at h; simp at h
  | sell =>
    simp only [is_limit_matched, is_limit_marketable] at h ⊢
    cases hB : best_bid_price st iid with
    | none => rw [hB] at h; simp at h
    | some bid =>
      rw [hB] at h
      dsimp only at h
      simp only [hB]
      by_cases h1 : price < bid
      · simp only [decide_eq_true_eq]; omega
      · rw [if_neg h1] at h
        by_cases h2 : bid = price
        · subst h2; simp
        · rw [if_neg h2] at h; simp at h

theorem setOrder_books (st : Exchange) (x : Order) :
    (setOrder st x).books = st.books := rfl

theorem add_order_books (st : Exchange) (o : Order) :
    (add_order st o).books = st.books := by
  simp only [add_order, setOrder]
  split <;> split <;> rfl

theorem generate_order_accepted_books (st : Exchange) (ro : Order) :
    (generate_order_accepted st ro).2.books = st.books := rfl

theorem accept_order_books (st : Exchange) (o : Order) :
    (accept_order st o).2.books = st.books := by
  show (generate_order_accepted (add_order st (readOrder st o))
      (readOrder (add_order st (readOrder st o)) (readOrder st o))).2.books = st.books
  rw [generate_order_accepted_books, add_order_books]

theorem is_limit_marketable_books {st st' : Exchange} (h : st'.books = st.books)
    (iid : Nat) (side : OrderSide) (price : Int) :
    is_limit_marketable st' iid side price = is_limit_marketable st iid side price := by
  cases side <;>
    simp only [is_limit_marketable, best_ask_price, best_bid_price, h]

theorem readOrder_cid {st : Exchange} (hc : cacheCoherent st) (o : Order) :
    (readOrder st o).client_order_id = o.client_order_id := by
  unfold readOrder
  cases h : alGet st.cache o.client_order_id with
  | none => rfl
  | some x => exact hc _ _ h

theorem add_order_cache (st : Exchange) (o : Order) :
    (add_order st o).cache = alSet st.cache o.client_order_id o := by
  simp only [add_order, setOrder]
  split <;> split <;> rfl

theorem readOrder_eq {st : Exchange} {o x : Order}
    (h : alGet st.cache o.client_order_id = some x) : readOrder st o = x := by
  unfold readOrder; rw [h]; rfl

theorem generate_order_accepted_cache (st : Exchange) (ro : Order) :
    (generate_order_accepted st ro).2.cache =
      alSet st.cache ro.client_order_id
        { ro with status := .accepted,
                  venue_order_id :=
                    some (generate_venue_order_id st ro.instrument_id).1 } := rfl

theorem readOrder_accept_order {st : Exchange} {o : Order} (hc : cacheCoherent st) :
    ∃ vid : String,
      readOrder (accept_order st o).2 o =
        { readOrder st o with status := .accepted, venue_order_id := some vid } := by
  have hcid := readOrder_cid hc o
  have h1 : readOrder (add_order st (readOrder st o)) (readOrder st o) = readOrder st o := by
    apply readOrder_eq
    rw [add_order_cache, alGet_alSet, if_pos rfl]
  refine ⟨(generate_venue_order_id (add_order st (readOrder st o))
    (readOrder st o).instrument_id).1, ?_⟩
  have hacc : (accept_order st o).2 =
      (generate_order_accepted (add_order st (readOrder st o))
        (readOrder (add_order st (readOrder st o)) (readOrder st o))).2 := rfl
  rw [hacc, h1]
  apply readOrder_eq
  rw [generate_order_accepted_cache, alGet_alSet, if_pos hcid]

theorem accept_order_events (st : Exchange) (o : Order) :
    ∃ cid vid ts, (accept_order st o).1 = [Event.orderAccepted cid vid ts] :=
  ⟨_, _, _, rfl⟩

/-- C5: a post-only Limit order never receives an `OrderFilled` with
liquidity side Taker as a direct result of its own submission
(`_process_limit_order`) or of a `ModifyOrder` applied to it
(`_update_limit_order`): a marketable price is rejected instead, and a
non-marketable price cannot match (matching implies marketability). -/
theorem C5_post_only_never_taker_filled :
    (∀ (n : Nat) (st : Exchange) (o : Order) (evs : List Event) (st' : Exchange),
        cacheCoherent st → o.is_post_only = true →
        run (n + 1) (.processLimitOrder o) st = some (evs, st') →
        ∀ ev ∈ evs, ev.isFillFor o.client_order_id .taker = false) ∧
    (∀ (n : Nat) (st : Exchange) (o : Order) (qty price : Int)
        (evs : List Event) (st' : Exchange),
        o.is_post_only = true →
        run (n + 1) (.updateLimitOrder o qty price) st = some (evs, st') →
        ∀ ev ∈ evs, ev.isFillFor o.client_order_id .taker = false) := by
  constructor
  · intro n st o evs st' hc hpo hrun
    simp only [run] at hrun
    split at hrun
    case isTrue hcond =>
      simp only [Option.some.injEq, Prod.mk.injEq] at hrun
      obtain ⟨h1, _⟩ := hrun
      intro ev hev
      rw [← h1] at hev
      simp only [List.mem_singleton] at hev
      subst hev
      simp [generate_order_rejected, Event.isFillFor]
    case isFalse hcond =>
      have hmkt :
          ¬is_limit_marketable st o.instrument_id o.side (readOrder st o).price = true :=
        fun h => hcond ⟨hpo, h⟩
      split at hrun
      case isTrue hm =>
        exfalso
        apply hmkt
        have h2 := is_limit_matched_marketable hm
        obtain ⟨vid, hread⟩ := readOrder_accept_order hc (o := o)
        rw [hread] at h2
        rwa [is_limit_marketable_books (accept_order_books st o)] at h2
      case isFalse hm =>
        simp only [Option.some.injEq, Prod.mk.injEq] at hrun
        obtain ⟨h1, _⟩ := hrun
        intro ev hev
        rw [← h1] at hev
        obtain ⟨cid, vid, ts, hev2⟩ := accept_order_events st o
        rw [hev2] at hev
        simp only [List.mem_singleton] at hev
        subst hev
        simp [Event.isFillFor]
  · intro n st o qty price evs st' hpo hrun
    simp only [run, hpo] at hrun
    split at hrun
    case isTrue hmkt =>
      cases hrun
      intro ev hev
      simp only [List.mem_singleton] at hev
      subst hev
      simp [generate_order_modify_rejected, Event.isFillFor]
    case isFalse hmkt =>
      cases hrun
      intro ev hev
      simp only [List.mem_singleton] at hev
      subst hev
      simp [generate_order_updated, Event.isFillFor]

/-- Witness for C5 at a concrete input: the post-only limit buy at 101 against
best ask 100 is rejected, and the rejection event is not a Taker fill. -/
theorem C5_witness :
    cacheCoherent c5_st ∧ c5_order.is_post_only = true ∧
    Event.isFillFor c5_order.client_order_id LiquiditySide.taker
      (Event.orderRejected 9
        "POST_ONLY LIMIT BUY order limit px of 101 would have been a TAKER" 0) =
      false := by
  have hc : cacheCoherent c5_st := cacheCoherent_of_forall _ (by decide)
  refine ⟨hc, rfl, ?_⟩
  exact C5_post_only_never_taker_filled.1 2 c5_st c5_order
    [Event.orderRejected 9
      "POST_ONLY LIMIT BUY order limit px of 101 would have been a TAKER" 0]
    { c5_st with cache := [(9, { c5_order with status := OrderStatus.rejected })] }
    hc rfl rfl
    (Event.orderRejected 9
      "POST_ONLY LIMIT BUY order limit px of 101 would have been a TAKER" 0)
    (by decide)

theorem mem_insertDesc {key : Nat → Int} {x z : Nat} {l : List Nat} :
    z ∈ insertDesc key x l ↔ z = x ∨ z ∈ l := by
  induction l with
  | nil => simp [insertDesc]
  | cons y ys ih =>
    simp only [insertDesc]
    by_cases h : key x ≥ key y
    · rw [if_pos h]
      simp [or_comm, or_left_comm]
    · rw [if_neg h]
      simp only [List.mem_cons, ih]
      tauto

theorem pairwise_insertDesc {key : Nat → Int} {x : Nat} {l : List Nat}
    (h : List.Pairwise (fun a b => key a ≥ key b) l) :
    List.Pairwise (fun a b => key a ≥ key b) (insertDesc key x l) := by
  induction l with
  | nil => simp [insertDesc]
  | cons y ys ih =>
    rw [List.pairwise_cons] at h
    simp only [insertDesc]
    by_cases hxy : key x ≥ key y
    · rw [if_pos hxy]
      refine List.Pairwise.cons ?_ (List.Pairwise.cons h.1 h.2)
      intro z hz
      rcases List.mem_cons.mp hz with rfl | hz2
      · omega
      · have := h.1 z hz2
        omega
    · rw [if_neg hxy]
      refine List.Pairwise.cons ?_ (ih h.2)
      intro z hz
      rcases mem_insertDesc.mp hz with rfl | hz2
      · omega
      · exact h.1 z hz2

theorem pairwise_sortDesc (key : Nat → Int) (l : List Nat) :
    List.Pairwise (fun a b => key a ≥ key b) (sortDesc key l) := by
  induction l with
  | nil => simp [sortDesc]
  | cons x xs ih => exact pairwise_insertDesc ih

theorem mem_insertAsc {key : Nat → Int} {x z : Nat} {l : List Nat} :
    z ∈ insertAsc key x l ↔ z = x ∨ z ∈ l := by
  induction l with
  | nil => simp [insertAsc]
  | cons y ys ih =>
    simp only [insertAsc]
    by_cases h : key x ≤ key y
    · rw [if_pos h]
      simp [or_comm, or_left_comm]
    · rw [if_neg h]
      simp only [List.mem_cons, ih]
      tauto

theorem pairwise_insertAsc {key : Nat → Int} {x : Nat} {l : List Nat}
    (h : List.Pairwise (fun a b => key a ≤ key b) l) :
    List.Pairwise (fun a b => key a ≤ key b) (insertAsc key x l) := by
  induction l with
  | nil => simp [insertAsc]
  | cons y ys ih =>
    rw [List.pairwise_cons] at h
    simp only [insertAsc]
    by_cases hxy : key x ≤ key y
    · rw [if_pos hxy]
      refine List.Pairwise.cons ?_ (List.Pairwise.cons h.1 h.2)
      intro z hz
      rcases List.mem_cons.mp hz with rfl | hz2
      · omega
      · have := h.1 z hz2
        omega
    · rw [if_neg hxy]
      refine List.Pairwise.cons ?_ (ih h.2)
      intro z hz
      rcases mem_insertAsc.mp hz with rfl | hz2
      · omega
      · exact h.1 z hz2

theorem pairwise_sortAsc (key : Nat → Int) (l : List Nat) :
    List.Pairwise (fun a b => key a ≤ key b) (sortAsc key l) := by
  induction l with
  | nil => simp [sortAsc]
  | cons x xs ih => exact pairwise_insertAsc ih

theorem priceKey_setOrder (st : Exchange) (o : Order) (cid : Nat) :
    priceKey (setOrder st o) cid =
      if o.client_order_id = cid then o.price else priceKey st cid := by
  simp only [priceKey, setOrder, alGet_alSet]
  by_cases h : o.client_order_id = cid
  · rw [if_pos h, if_pos h]
  · rw [if_neg h, if_neg h]

theorem add_order_buy (st : Exchange) (o : Order) (h : o.is_buy = true) :
    (add_order st o).orders_bid =
      alSet st.orders_bid o.instrument_id
        (sortDesc (priceKey (setOrder st o))
          (bidList st o.instrument_id ++ [o.client_order_id])) ∧
    (add_order st o).orders_ask = st.orders_ask ∧
    (add_order st o).cache = alSet st.cache o.client_order_id o := by
  simp only [add_order, setOrder]
  split
  case isTrue hb =>
    split
    case isTrue hcont => exact ⟨rfl, rfl, rfl⟩
    case isFalse hcont => exact ⟨rfl, rfl, rfl⟩
  case isFalse hb => exact absurd h hb

theorem add_order_sell (st : Exchange) (o : Order) (h : o.is_buy = false) :
    (add_order st o).orders_ask =
      alSet st.orders_ask o.instrument_id
        (sortAsc (priceKey (setOrder st o))
          (askList st o.instrument_id ++ [o.client_order_id])) ∧
    (add_order st o).orders_bid = st.orders_bid ∧
    (add_order st o).cache = alSet st.cache o.client_order_id o := by
  simp only [add_order, setOrder]
  split
  case isTrue hb => rw [h] at hb; cases hb
  case isFalse hb =>
    split
    case isTrue hcont => exact ⟨rfl, rfl, rfl⟩
    case isFalse hcont => exact ⟨rfl, rfl, rfl⟩

theorem delete_order_buy (st : Exchange) (o : Order) (h : o.is_buy = true) :
    (delete_order st o).orders_bid =
      alSet st.orders_bid o.instrument_id
        ((bidList st o.instrument_id).erase o.client_order_id) ∧
    (delete_order st o).orders_ask = st.orders_ask ∧
    (delete_order st o).cache = st.cache := by
  simp only [delete_order]
  split
  case isTrue hb => exact ⟨rfl, rfl, rfl⟩
  case isFalse hb => exact absurd h hb

theorem delete_order_sell (st : Exchange) (o : Order) (h : o.is_buy = false) :
    (delete_order st o).orders_ask =
      alSet st.orders_ask o.instrument_id
        ((askList st o.instrument_id).erase o.client_order_id) ∧
    (delete_order st o).orders_bid = st.orders_bid ∧
    (delete_order st o).cache = st.cache := by
  simp only [delete_order]
  split
  case isTrue hb => rw [h] at hb; cases hb
  case isFalse hb => exact ⟨rfl, rfl, rfl⟩

theorem priceKey_congr {st1 st2 : Exchange} (h : st1.cache = st2.cache) :
    priceKey st1 = priceKey st2 := by
  funext cid
  simp [priceKey, h]

theorem map_priceKey_setOrder_of_not_mem {st : Exchange} {o : Order} {l : List Nat}
    (h : o.client_order_id ∉ l) :
    List.map (priceKey (setOrder st o)) l = List.map (priceKey st) l := by
  apply List.map_congr_left
  intro a ha
  rw [priceKey_setOrder, if_neg]
  intro he
  exact h (by rw [he]; exact ha)

theorem delete_order_book_type (st : Exchange) (o : Order) :
    (delete_order st o).book_type = st.book_type := by
  simp only [delete_order]
  split <;> rfl

theorem delete_order_now_ns (st : Exchange) (o : Order) :
    (delete_order st o).now_ns = st.now_ns := by
  simp only [delete_order]
  split <;> rfl

theorem delete_order_cache (st : Exchange) (o : Order) :
    (delete_order st o).cache = st.cache := by
  simp only [delete_order]
  split <;> rfl

theorem generate_order_filled_cache (st : Exchange) (ro : Order)
    (vpid : Option String) (q px : Int) (ccy : Nat) (com : Int)
    (ls : LiquiditySide) :
    ∃ x : Order,
      (generate_order_filled st ro vpid q px ccy com ls).2.cache =
        alSet st.cache ro.client_order_id x ∧
      x.client_order_id = ro.client_order_id ∧ x.price = ro.price ∧
      x.is_reduce_only = ro.is_reduce_only ∧ x.type = ro.type ∧
      x.contingency = ro.contingency ∧
      (generate_order_filled st ro vpid q px ccy com ls).2.book_type = st.book_type ∧
      (generate_order_filled st ro vpid q px ccy com ls).2.now_ns = st.now_ns := by
  unfold generate_order_filled generate_venue_order_id generate_execution_id setOrder
  cases ro.venue_order_id <;> exact ⟨_, rfl, rfl, rfl, rfl, rfl, rfl, rfl, rfl⟩

theorem generate_order_filled_fst (st : Exchange) (ro : Order)
    (vpid : Option String) (q px : Int) (ccy : Nat) (com : Int)
    (ls : LiquiditySide) :
    ∃ eid, (generate_order_filled st ro vpid q px ccy com ls).1 =
      Event.orderFilled ro.client_order_id vpid eid q px ccy com ls st.now_ns := by
  unfold generate_order_filled generate_venue_order_id generate_execution_id setOrder
  cases ro.venue_order_id <;> exact ⟨_, rfl⟩

theorem fillOrder_simple {n : Nat} {instr : Instrument} {o : Order}
    {vpid : Option String} {q px : Int} {ls : LiquiditySide} {st : Exchange}
    {evs : List Event} {st' : Exchange}
    (hc : cacheCoherent st) (hcont : o.contingency = ContingencyType.nocontingency)
    (hrun : run (n + 1) (.fillOrder instr o vpid none q px ls) st = some (evs, st')) :
    (∀ ev ∈ evs, ∀ p, fillPxOf ev = some p → p = px) ∧
    (readOrder st' o).price = (readOrder st o).price ∧
    (readOrder st' o).is_reduce_only = (readOrder st o).is_reduce_only ∧
    (readOrder st' o).type = (readOrder st o).type ∧
    (readOrder st' o).contingency = (readOrder st o).contingency ∧
    st'.book_type = st.book_type ∧ st'.now_ns = st.now_ns ∧ cacheCoherent st' := by
  obtain ⟨x, hcache, hxcid, hxpr, hxro, hxty, hxcont, hbook, hnow⟩ :=
    generate_order_filled_cache st (readOrder st o) vpid q px instr.quote_currency
      (st.commission_of (readOrder st o).quantity px ls) ls
  obtain ⟨eid, hev⟩ :=
    generate_order_filled_fst st (readOrder st o) vpid q px instr.quote_currency
      (st.commission_of (readOrder st o).quantity px ls) ls
  have hocid := readOrder_cid hc o
  simp only [run, hcont, reduceCtorEq, if_false, Bool.false_eq_true] at hrun
  have hread1 : readOrder (generate_order_filled st (readOrder st o) vpid q px
      instr.quote_currency (st.commission_of (readOrder st o).quantity px ls) ls).2 o = x := by
    apply readOrder_eq
    rw [hcache, alGet_alSet, hocid, if_pos rfl]
  have hco1 : cacheCoherent (generate_order_filled st (readOrder st o) vpid q px
      instr.quote_currency (st.commission_of (readOrder st o).quantity px ls) ls).2 := by
    apply coherent_of_self_write x _ hc
    rw [hcache, hxcid]
  have hevpx : ∀ ev ∈ [(generate_order_filled st (readOrder st o) vpid q px
      instr.quote_currency (st.commission_of (readOrder st o).quantity px ls) ls).1],
      ∀ p, fillPxOf ev = some p → p = px := by
    intro ev hev2 p hp
    simp only [List.mem_singleton] at hev2
    subst hev2
    simp only [hev, fillPxOf, Option.some.injEq] at hp
    omega
  split at hrun
  case isTrue hdel =>
    cases hrun
    refine ⟨hevpx, ?_, ?_, ?_, ?_, ?_, ?_, ?_⟩
    · rw [readOrder_eq (by rw [delete_order_cache, hcache, alGet_alSet, hocid, if_pos rfl]),
        hxpr]
    · rw [readOrder_eq (by rw [delete_order_cache, hcache, alGet_alSet, hocid, if_pos rfl]),
        hxro]
    · rw [readOrder_eq (by rw [delete_order_cache, hcache, alGet_alSet, hocid, if_pos rfl]),
        hxty]
    · rw [readOrder_eq (by rw [delete_order_cache, hcache, alGet_alSet, hocid, if_pos rfl]),
        hxcont]
    · rw [delete_order_book_type, hbook]
    · rw [delete_order_now_ns, hnow]
    · exact coherent_of_cache_eq (delete_order_cache _ _) hco1
  case isFalse hdel =>
    cases hrun
    refine ⟨hevpx, ?_, ?_, ?_, ?_, hbook, hnow, hco1⟩
    · rw [hread1, hxpr]
    · rw [hread1, hxro]
    · rw [hread1, hxty]
    · rw [hread1, hxcont]

theorem seqRun_some_nil (st : Exchange)
    (k : Exchange → Option (List Event × Exchange)) :
    seqRun (some ([], st)) k = k st := by
  cases h : k st with
  | none => simp [seqRun, h]
  | some p =>
    cases p
    simp [seqRun, h]

theorem applyFillsGo_stop_px (n : Nat) :
    ∀ (instr : Instrument) (o : Order) (ls : LiquiditySide)
      (remaining orig : List (Int × Int)) (pid : Option String)
      (st : Exchange) (evs : List Event) (st' : Exchange),
      cacheCoherent st →
      o.type = OrderType.stopMarket →
      o.contingency = ContingencyType.nocontingency →
      (readOrder st o).is_reduce_only = false →
      st.book_type ≠ BookType.L1_TBBO →
      run n (.applyFillsGo instr o ls remaining orig pid none) st = some (evs, st') →
      ∀ ev ∈ evs, ∀ p, fillPxOf ev = some p → p = (readOrder st o).price := by
  induction n with
  | zero =>
    intro instr o ls remaining orig pid st evs st' _ _ _ _ _ hrun
    simp [run] at hrun
  | succ m ih =>
    intro instr o ls remaining orig pid st evs st' hc htype hcont hro hbook hrun
    match remaining with
    | [] =>
      simp only [run, hbook, false_and, and_false, if_false] at hrun
      cases hrun
      intro ev hev
      simp at hev
    | (px0, q0) :: rest =>
      simp only [run, htype, hro, hbook, Bool.false_eq_true, false_and, if_false,
        reduceIte] at hrun
      split at hrun
      case isTrue hq0 =>
        cases hrun
        intro ev hev
        simp at hev
      case isFalse hq0 =>
        rw [seqRun_some_nil] at hrun
        obtain ⟨e1, s1, e2, h1, h2, heq⟩ := seqRun_eq_some hrun
        match m, h1 with
        | Nat.zero, h1 => simp [run] at h1
        | Nat.succ m', h1 =>
          obtain ⟨hpx1, hpr, hrro, hty, hct, hbk, _, hco1⟩ :=
            fillOrder_simple hc hcont h1
          have hres := ih instr o ls rest orig pid s1 e2 st' hco1 htype hcont
            (by rw [hrro, hro]) (by rw [hbk]; exact hbook) h2
          intro ev hev p hp
          subst heq
          rcases List.mem_append.mp hev with hin | hin
          · exact hpx1 ev hin p hp
          · rw [hres ev hin p hp, hpr]

/-- C3 (amended): when a (plain, non-reduce-only, non-contingent) StopMarket
order is filled against a fill plan with slippage out of play (non-L1 book),
EVERY allocation of the plan — not only the first — is filled at the order's
stop price: every `OrderFilled` the fill emits carries the stop price, and
the plan prices are discarded. -/
theorem C3_stop_price_every_allocation (n : Nat) (o : Order) (ls : LiquiditySide)
    (fills : List (Int × Int)) (pid : Option String) (st : Exchange)
    (evs : List Event) (st' : Exchange)
    (hc : cacheCoherent st)
    (htype : o.type = OrderType.stopMarket)
    (hcont : o.contingency = ContingencyType.nocontingency)
    (hro : (readOrder st o).is_reduce_only = false)
    (hbook : st.book_type ≠ BookType.L1_TBBO)
    (hrun : run (n + 1) (.applyFills o ls fills pid none) st = some (evs, st')) :
    ∀ ev ∈ evs, ∀ p, fillPxOf ev = some p → p = (readOrder st o).price := by
  simp only [run] at hrun
  split at hrun
  case isTrue h =>
    cases hrun
    intro ev hev
    simp at hev
  case isFalse h =>
    cases hin : alGet st.instruments o.instrument_id with
    | none => rw [hin] at hrun; simp at hrun
    | some instr =>
      rw [hin] at hrun
      exact applyFillsGo_stop_px n instr o ls fills fills pid st evs st'
        hc htype hcont hro hbook hrun

/-- Witness for C3 (amended) at a concrete input: in the C3 scenario the
second allocation's fill price is also the stop price 100. -/
theorem C3_witness :
    cacheCoherent c3_st ∧ c3_st.book_type ≠ BookType.L1_TBBO ∧
    (100 : Int) = (readOrder c3_st c3_order).price := by
  have hc : cacheCoherent c3_st := cacheCoherent_of_forall _ (by decide)
  refine ⟨hc, by decide, ?_⟩
  exact C3_stop_price_every_allocation 9 c3_order .taker c3_fills none c3_st
    c3_result.1 c3_result.2 hc rfl rfl rfl (by decide) rfl
    (Event.orderFilled 7 none "2" 4 100 0 10 .taker 0) (by decide) 100 (by decide)

theorem generate_order_rejected_spec (st : Exchange) (ro : Order) (r : String)
    (hc : cacheCoherent st) :
    cacheCoherent (generate_order_rejected st ro r).2 ∧
    (generate_order_rejected st ro r).2.now_ns = st.now_ns ∧
    (generate_order_rejected st ro r).1 =
      Event.orderRejected ro.client_order_id r st.now_ns :=
  ⟨coherent_of_self_write { ro with status := .rejected } rfl hc, rfl, rfl⟩

theorem generate_order_accepted_spec (st : Exchange) (ro : Order)
    (hc : cacheCoherent st) :
    cacheCoherent (generate_order_accepted st ro).2 ∧
    (generate_order_accepted st ro).2.now_ns = st.now_ns ∧
    ∃ vid, (generate_order_accepted st ro).1 =
      Event.orderAccepted ro.client_order_id vid st.now_ns :=
  ⟨coherent_of_self_write
      { ro with status := .accepted,
                venue_order_id := some (generate_venue_order_id st ro.instrument_id).1 }
      (generate_order_accepted_cache st ro) hc,
   rfl, ⟨_, rfl⟩⟩

theorem generate_order_canceled_spec (st : Exchange) (ro : Order)
    (hc : cacheCoherent st) :
    cacheCoherent (generate_order_canceled st ro).2 ∧
    (generate_order_canceled st ro).2.now_ns = st.now_ns ∧
    (generate_order_canceled st ro).1 =
      Event.orderCanceled ro.client_order_id st.now_ns :=
  ⟨coherent_of_self_write { ro with status := .canceled } rfl hc, rfl, rfl⟩

theorem generate_order_triggered_spec (st : Exchange) (ro : Order)
    (hc : cacheCoherent st) :
    cacheCoherent (generate_order_triggered st ro).2 ∧
    (generate_order_triggered st ro).2.now_ns = st.now_ns ∧
    (generate_order_triggered st ro).1 =
      Event.orderTriggered ro.client_order_id st.now_ns :=
  ⟨coherent_of_self_write { ro with is_triggered := true } rfl hc, rfl, rfl⟩

theorem generate_order_expired_spec (st : Exchange) (ro : Order)
    (hc : cacheCoherent st) :
    cacheCoherent (generate_order_expired st ro).2 ∧
    (generate_order_expired st ro).2.now_ns = st.now_ns ∧
    (generate_order_expired st ro).1 =
      Event.orderExpired ro.client_order_id ro.expire_time_ns :=
  ⟨coherent_of_self_write { ro with status := .expired } rfl hc, rfl, rfl⟩

theorem generate_order_updated_spec (st : Exchange) (ro : Order) (qty : Int)
    (price trigger : Option Int) (hc : cacheCoherent st) :
    cacheCoherent (generate_order_updated st ro qty price trigger).2 ∧
    (generate_order_updated st ro qty price trigger).2.now_ns = st.now_ns ∧
    (generate_order_updated st ro qty price trigger).1 =
      Event.orderUpdated ro.client_order_id qty price trigger st.now_ns := by
  unfold generate_order_updated generate_venue_order_id setOrder
  cases hv : ro.venue_order_id with
  | none =>
    refine ⟨?_, rfl, rfl⟩
    exact coherent_of_self_write _ rfl hc
  | some v =>
    refine ⟨?_, rfl, rfl⟩
    exact coherent_of_self_write _ rfl hc

theorem generate_order_filled_spec (st : Exchange) (ro : Order)
    (vpid : Option String) (q px : Int) (ccy : Nat) (com : Int)
    (ls : LiquiditySide) (hc : cacheCoherent st) :
    cacheCoherent (generate_order_filled st ro vpid q px ccy com ls).2 ∧
    (generate_order_filled st ro vpid q px ccy com ls).2.now_ns = st.now_ns ∧
    ∃ eid, (generate_order_filled st ro vpid q px ccy com ls).1 =
      Event.orderFilled ro.client_order_id vpid eid q px ccy com ls st.now_ns := by
  obtain ⟨x, hcache, hxcid, _, _, _, _, _, hnow⟩ :=
    generate_order_filled_cache st ro vpid q px ccy com ls
  obtain ⟨eid, hev⟩ := generate_order_filled_fst st ro vpid q px ccy com ls
  exact ⟨coherent_of_self_write x (by rw [hcache, hxcid]) hc, hnow, ⟨eid, hev⟩⟩

theorem add_order_now_ns (st : Exchange) (o : Order) :
    (add_order st o).now_ns = st.now_ns := by
  simp only [add_order, setOrder]
  split <;> split <;> rfl

theorem accept_order_spec (st : Exchange) (o : Order) (hc : cacheCoherent st) :
    cacheCoherent (accept_order st o).2 ∧
    (accept_order st o).2.now_ns = st.now_ns ∧
    ∀ ev ∈ (accept_order st o).1,
      ev.isExpired = false ∧ ev.ts = st.now_ns := by
  have hc1 : cacheCoherent (add_order st (readOrder st o)) :=
    coherent_of_self_write (readOrder st o) (add_order_cache st (readOrder st o)) hc
  obtain ⟨hc2, hn2, vid, hev⟩ :=
    generate_order_accepted_spec (add_order st (readOrder st o))
      (readOrder (add_order st (readOrder st o)) (readOrder st o)) hc1
  have hacc2 : (accept_order st o).2 =
      (generate_order_accepted (add_order st (readOrder st o))
        (readOrder (add_order st (readOrder st o)) (readOrder st o))).2 := rfl
  have hacc1 : (accept_order st o).1 =
      [(generate_order_accepted (add_order st (readOrder st o))
        (readOrder (add_order st (readOrder st o)) (readOrder st o))).1] := rfl
  refine ⟨hacc2 ▸ hc2, by rw [hacc2, hn2, add_order_now_ns], ?_⟩
  intro ev hmem
  rw [hacc1, List.mem_singleton] at hmem
  rw [hmem, hev]
  exact ⟨rfl, by rw [add_order_now_ns]; rfl⟩

theorem oto_index_child_state (st : Exchange) (parent child : Order) (cid : Nat) :
    (oto_index_child st parent child cid).cache = st.cache ∧
    (oto_index_child st parent child cid).now_ns = st.now_ns := by
  unfold oto_index_child
  split
  · cases parent.position_id <;> exact ⟨rfl, rfl⟩
  · exact ⟨rfl, rfl⟩

theorem oto_accept_child_spec (st : Exchange) (cid : Nat) (hc : cacheCoherent st) :
    cacheCoherent (oto_accept_child st cid).2 ∧
    (oto_accept_child st cid).2.now_ns = st.now_ns ∧
    ∀ ev ∈ (oto_accept_child st cid).1, ev.isExpired = false ∧ ev.ts = st.now_ns := by
  unfold oto_accept_child
  cases hch : alGet st.cache cid with
  | none => exact ⟨hc, rfl, by intro ev hev; simp at hev⟩
  | some child' =>
    dsimp only
    by_cases hw : child'.is_working = true
    · rw [if_pos hw]
      exact ⟨hc, rfl, by intro ev hev; simp at hev⟩
    · rw [if_neg hw]
      exact accept_order_spec st child' hc

theorem oto_children_after_fill_spec (parent : Order) :
    ∀ (cids : List Nat) (st : Exchange) (evs : List Event) (st' : Exchange),
      cacheCoherent st →
      oto_children_after_fill st parent cids = some (evs, st') →
      cacheCoherent st' ∧ st'.now_ns = st.now_ns ∧
      ∀ ev ∈ evs, ev.isExpired = false ∧ ev.ts = st.now_ns := by
  intro cids
  induction cids with
  | nil =>
    intro st evs st' hc h
    cases h
    exact ⟨hc, rfl, by intro ev hev; simp at hev⟩
  | cons cid rest ih =>
    intro st evs st' hc h
    simp only [oto_children_after_fill] at h
    cases hch : alGet st.cache cid with
    | none => rw [hch] at h; cases h
    | some child =>
      rw [hch] at h
      dsimp only at h
      obtain ⟨hi_cache, hi_now⟩ := oto_index_child_state st parent child cid
      have hci : cacheCoherent (oto_index_child st parent child cid) :=
        coherent_of_cache_eq hi_cache hc
      obtain ⟨ha, hb, hcv⟩ :=
        oto_accept_child_spec (oto_index_child st parent child cid) cid hci
      cases hrec : oto_children_after_fill
          (oto_accept_child (oto_index_child st parent child cid) cid).2 parent rest with
      | none => rw [hrec] at h; cases h
      | some q =>
        obtain ⟨qe, qs⟩ := q
        rw [hrec] at h
        cases h
        obtain ⟨hra, hrb, hrc⟩ := ih _ _ _ ha hrec
        refine ⟨hra, by rw [hrb, hb, hi_now], ?_⟩
        intro ev hev
        rcases List.mem_append.mp hev with hin | hin
        · obtain ⟨h1, h2⟩ := hcv ev hin
          exact ⟨h1, by rw [h2, hi_now]⟩
        · obtain ⟨h1, h2⟩ := hrc ev hin
          exact ⟨h1, by rw [h2, hb, hi_now]⟩

theorem generate_venue_order_id_state (st : Exchange) (iid : Nat) :
    (generate_venue_order_id st iid).2.cache = st.cache ∧
    (generate_venue_order_id st iid).2.now_ns = st.now_ns := ⟨rfl, rfl⟩

theorem get_position_id_state (st : Exchange) (o : Order) (g : Bool) :
    (get_position_id st o g).2.cache = st.cache ∧
    (get_position_id st o g).2.now_ns = st.now_ns := by
  unfold get_position_id generate_venue_position_id
  dsimp only
  repeat' split
  all_goals exact ⟨rfl, rfl⟩

theorem popPlan_state (st : Exchange) :
    (popPlan st).2.cache = st.cache ∧ (popPlan st).2.now_ns = st.now_ns := by
  unfold popPlan
  split <;> exact ⟨rfl, rfl⟩

theorem determine_limit_state (st : Exchange) (ro : Order) :
    (determine_limit_price_and_volume st ro).2.cache = st.cache ∧
    (determine_limit_price_and_volume st ro).2.now_ns = st.now_ns := by
  unfold determine_limit_price_and_volume
  repeat' split
  all_goals first
    | exact ⟨rfl, rfl⟩
    | exact popPlan_state st

theorem determine_market_state (st : Exchange) (ro : Order) :
    (determine_market_price_and_volume st ro).2.cache = st.cache ∧
    (determine_market_price_and_volume st ro).2.now_ns = st.now_ns := by
  unfold determine_market_price_and_volume
  repeat' split
  all_goals first
    | exact ⟨rfl, rfl⟩
    | exact popPlan_state st

theorem drawLimit_state (st : Exchange) :
    (drawLimit st).2.cache = st.cache ∧ (drawLimit st).2.now_ns = st.now_ns := by
  unfold drawLimit
  split <;> exact ⟨rfl, rfl⟩

theorem drawStop_state (st : Exchange) :
    (drawStop st).2.cache = st.cache ∧ (drawStop st).2.now_ns = st.now_ns := by
  unfold drawStop
  split <;> exact ⟨rfl, rfl⟩

theorem drawSlip_state (st : Exchange) :
    (drawSlip st).2.cache = st.cache ∧ (drawSlip st).2.now_ns = st.now_ns := by
  unfold drawSlip
  split <;> exact ⟨rfl, rfl⟩

theorem is_limit_matched_state (st : Exchange) (iid : Nat) (side : OrderSide)
    (price : Int) :
    (is_limit_matched st iid side price).2.cache = st.cache ∧
    (is_limit_matched st iid side price).2.now_ns = st.now_ns := by
  unfold is_limit_matched
  repeat' split
  all_goals first
    | exact ⟨rfl, rfl⟩
    | exact drawLimit_state st

theorem is_stop_triggered_state (st : Exchange) (iid : Nat) (side : OrderSide)
    (price : Int) :
    (is_stop_triggered st iid side price).2.cache = st.cache ∧
    (is_stop_triggered st iid side price).2.now_ns = st.now_ns := by
  unfold is_stop_triggered
  repeat' split
  all_goals first
    | exact ⟨rfl, rfl⟩
    | exact drawStop_state st

theorem registerOtoChildren_state (st : Exchange) (o : Order) :
    (registerOtoChildren st o).cache = st.cache ∧
    (registerOtoChildren st o).now_ns = st.now_ns := ⟨rfl, rfl⟩

theorem EvOk_nil (now : Int) (P : Event → Prop) : EvOk now P [] := by
  intro ev hev
  simp at hev

theorem EvOk_append {now : Int} {P : Event → Prop} {e1 e2 : List Event}
    (h1 : EvOk now P e1) (h2 : EvOk now P e2) : EvOk now P (e1 ++ e2) := by
  intro ev hev
  rcases List.mem_append.mp hev with h | h
  · exact h1 ev h
  · exact h2 ev h

theorem EvOk_mono {now : Int} {P Q : Event → Prop} {evs : List Event}
    (h : EvOk now P evs) (hpq : ∀ ev, P ev → Q ev) : EvOk now Q evs := by
  intro ev hev
  rcases h ev hev with ⟨a, b⟩ | ⟨a, b⟩
  · exact Or.inl ⟨a, b⟩
  · exact Or.inr ⟨a, hpq ev b⟩

theorem EvOk_shift {n1 n2 : Int} {P Q : Event → Prop} {evs : List Event}
    (h : EvOk n1 P evs) (hn : n1 = n2) (hpq : ∀ ev, P ev → Q ev) :
    EvOk n2 Q evs :=
  hn ▸ EvOk_mono h hpq

theorem EvOk_of_forall {now : Int} {P : Event → Prop} {evs : List Event}
    (h : ∀ ev ∈ evs, ev.isExpired = false ∧ ev.ts = now) : EvOk now P evs :=
  fun ev hev => Or.inl (h ev hev)

theorem EvOk_singleton {now : Int} {P : Event → Prop} {ev : Event}
    (h1 : ev.isExpired = false) (h2 : ev.ts = now) : EvOk now P [ev] := by
  intro e he
  rw [List.mem_singleton] at he
  subst he
  exact Or.inl ⟨h1, h2⟩

theorem coherent_of_two_self_writes {st st' : Exchange} (x y : Order)
    (h : st'.cache = alSet (alSet st.cache x.client_order_id x) y.client_order_id y)
    (hc : cacheCoherent st) : cacheCoherent st' := by
  intro cid ord hg
  rw [h, alGet_alSet] at hg
  by_cases hy : y.client_order_id = cid
  · rw [if_pos hy] at hg
    cases hg
    exact hy
  · rw [if_neg hy, alGet_alSet] at hg
    by_cases hx : x.client_order_id = cid
    · rw [if_pos hx] at hg
      cases hg
      exact hx
    · rw [if_neg hx] at hg
      exact hc cid ord hg

theorem cancel_order_core_spec (st : Exchange) (o : Order) (hc : cacheCoherent st) :
    cacheCoherent (cancel_order_core st o).2 ∧
    (cancel_order_core st o).2.now_ns = st.now_ns ∧
    ((cancel_order_core st o).1).isExpired = false ∧
    ((cancel_order_core st o).1).ts = st.now_ns := by
  unfold cancel_order_core cancel_order_venue erase_from_side
    generate_venue_order_id generate_order_canceled
  dsimp only
  split
  all_goals split
  all_goals refine ⟨?_, rfl, rfl, rfl⟩
  all_goals first
    | exact coherent_of_two_self_writes _ _ rfl hc
    | exact coherent_of_self_write _ rfl hc

theorem triple_seq {now : Int} {Q : Event → Prop}
    {s1 s2 : Exchange} {e1 e2 : List Event}
    (_c1 : cacheCoherent s1) (n1 : s1.now_ns = now) (v1 : EvOk now Q e1)
    (c2 : cacheCoherent s2) (n2 : s2.now_ns = s1.now_ns)
    (v2 : EvOk s1.now_ns Q e2) :
    cacheCoherent s2 ∧ s2.now_ns = now ∧ EvOk now Q (e1 ++ e2) :=
  ⟨c2, by rw [n2, n1], EvOk_append v1 (EvOk_shift v2 n1 (fun _ h => h))⟩

set_option maxHeartbeats 1000000

/-- Every event the interpreter emits while the clock reads `now_ns` carries
`ts_event = now_ns`, except `OrderExpired` events, which satisfy the
invocation's expiry bound (`expBound`); the interpreter also preserves cache
coherence and never changes the clock. -/
theorem run_event_timestamps (n : Nat) :
    ∀ (act : Act) (st : Exchange) (evs : List Event) (st' : Exchange),
      cacheCoherent st → run n act st = some (evs, st') →
      cacheCoherent st' ∧ st'.now_ns = st.now_ns ∧
      EvOk st.now_ns (expBound act st) evs := by
  induction n with
  | zero =>
    intro act st evs st' _ h
    simp [run] at h
  | succ n ih =>
    intro act st evs st' hc hrun
    cases act with
    | processQueue cmds =>
      cases cmds with
      | nil =>
        simp only [run] at hrun
        cases hrun
        exact ⟨hc, rfl, EvOk_nil _ _⟩
      | cons c rest =>
        simp only [run] at hrun
        obtain ⟨e1, s1, e2, h1, h2, heq⟩ := seqRun_eq_some hrun
        subst heq
        have hh : cacheCoherent s1 ∧ s1.now_ns = st.now_ns ∧
            EvOk st.now_ns (fun _ => (False : Prop)) e1 := by
          cases c with
          | submitOrder o =>
            obtain ⟨c1, n1, v1⟩ := ih _ _ _ _ hc h1
            exact ⟨c1, n1, EvOk_mono v1 (fun _ hf => False.elim hf)⟩
          | submitOrderList os =>
            obtain ⟨c1, n1, v1⟩ := ih _ _ _ _ hc h1
            exact ⟨c1, n1, EvOk_mono v1 (fun _ hf => False.elim hf)⟩
          | cancelOrder cid =>
            simp only [generate_order_pending_cancel,
              generate_order_cancel_rejected] at h1
            split at h1
            · split at h1
              · cases h1
              · split at h1
                · obtain ⟨ea, sa, eb, ha, hb, hab⟩ := seqRun_eq_some h1
                  subst hab
                  simp only [Option.some.injEq, Prod.mk.injEq] at ha
                  obtain ⟨hea, hsa⟩ := ha
                  subst hsa
                  have hbco : cacheCoherent
                      { st with order_index := st.order_index.erase cid } :=
                    coherent_of_cache_eq rfl hc
                  obtain ⟨cb, nb, vb⟩ := ih _ _ _ _ hbco hb
                  refine ⟨cb, by rw [nb], ?_⟩
                  rw [← hea]
                  exact EvOk_append (EvOk_singleton rfl rfl)
                    (EvOk_shift vb rfl (fun _ hf => False.elim hf))
                · cases h1
                  exact ⟨coherent_of_cache_eq (rfl :
                      ({ st with order_index := st.order_index.erase cid}).cache
                        = st.cache) hc, rfl, EvOk_nil _ _⟩
            · cases h1
              exact ⟨hc, rfl, EvOk_singleton rfl rfl⟩
          | modifyOrder cid q p tr =>
            simp only [generate_order_pending_update,
              generate_order_modify_rejected] at h1
            split at h1
            · split at h1
              · cases h1
              · obtain ⟨ea, sa, eb, ha, hb, hab⟩ := seqRun_eq_some h1
                subst hab
                simp only [Option.some.injEq, Prod.mk.injEq] at ha
                obtain ⟨hea, hsa⟩ := ha
                subst hsa
                obtain ⟨cb, nb, vb⟩ := ih _ _ _ _ hc hb
                refine ⟨cb, by rw [nb], ?_⟩
                rw [← hea]
                exact EvOk_append (EvOk_singleton rfl rfl)
                  (EvOk_shift vb rfl (fun _ hf => False.elim hf))
            · cases h1
              exact ⟨hc, rfl, EvOk_singleton rfl rfl⟩
        obtain ⟨c1, n1, v1⟩ := hh
        obtain ⟨c2, n2, v2⟩ := ih _ _ _ _ c1 h2
        exact triple_seq c1 n1 (EvOk_mono v1 (fun _ hf => False.elim hf))
          c2 n2 (EvOk_mono v2 (fun _ hf => False.elim hf))
    | processOrders orders =>
      cases orders with
      | nil =>
        simp only [run] at hrun
        cases hrun
        exact ⟨hc, rfl, EvOk_nil _ _⟩
      | cons o rest =>
        simp only [run] at hrun
        obtain ⟨e1, s1, e2, h1, h2, heq⟩ := seqRun_eq_some hrun
        subst heq
        obtain ⟨c1, n1, v1⟩ := ih _ _ _ _ hc h1
        obtain ⟨c2, n2, v2⟩ := ih _ _ _ _ c1 h2
        exact triple_seq c1 n1 (EvOk_mono v1 (fun _ hf => False.elim hf))
          c2 n2 (EvOk_mono v2 (fun _ hf => False.elim hf))
    | processOrder o =>
      simp only [run] at hrun
      split at hrun
      · cases hrun
        exact ⟨hc, rfl, EvOk_nil _ _⟩
      · generalize hst0 :
          (if o.contingency = ContingencyType.oto then registerOtoChildren st o
           else st) = st0 at hrun
        have h0 : st0.cache = st.cache ∧ st0.now_ns = st.now_ns := by
          rw [← hst0]
          split
          · exact registerOtoChildren_state st o
          · exact ⟨rfl, rfl⟩
        have hc0 : cacheCoherent st0 := coherent_of_cache_eq h0.1 hc
        split at hrun
        · obtain ⟨c1, n1, v1⟩ := ih _ _ _ _ hc0 hrun
          exact ⟨c1, by rw [n1, h0.2], EvOk_shift v1 h0.2 (fun _ hf => False.elim hf)⟩
        · split at hrun
          · split at hrun
            · cases hrun
            · split at hrun
              · simp only [generate_order_rejected] at hrun
                cases hrun
                exact ⟨cacheCoherent_setOrder _ hc0, h0.2, EvOk_singleton rfl h0.2⟩
              · split at hrun
                · cases hrun
                  exact ⟨hc0, h0.2, EvOk_nil _ _⟩
                · obtain ⟨c1, n1, v1⟩ := ih _ _ _ _ hc0 hrun
                  exact ⟨c1, by rw [n1, h0.2],
                    EvOk_shift v1 h0.2 (fun _ hf => False.elim hf)⟩
          · obtain ⟨c1, n1, v1⟩ := ih _ _ _ _ hc0 hrun
            exact ⟨c1, by rw [n1, h0.2], EvOk_shift v1 h0.2 (fun _ hf => False.elim hf)⟩
    | processOrderDispatch o =>
      simp only [run, generate_order_rejected] at hrun
      split at hrun
      · cases hrun
        exact ⟨cacheCoherent_setOrder _ hc, rfl, EvOk_singleton rfl rfl⟩
      · split at hrun
        all_goals
          obtain ⟨c1, n1, v1⟩ := ih _ _ _ _ hc hrun
        all_goals
          exact ⟨c1, n1, EvOk_mono v1 (fun _ hf => False.elim hf)⟩
    | processMarketOrder o =>
      simp only [run, generate_order_rejected] at hrun
      split at hrun
      · cases hrun
        exact ⟨cacheCoherent_setOrder _ hc, rfl, EvOk_singleton rfl rfl⟩
      · split at hrun
        · cases hrun
          exact ⟨cacheCoherent_setOrder _ hc, rfl, EvOk_singleton rfl rfl⟩
        · obtain ⟨c1, n1, v1⟩ := ih _ _ _ _ hc hrun
          exact ⟨c1, n1, EvOk_mono v1 (fun _ hf => False.elim hf)⟩
    | processLimitOrder o =>
      simp only [run, generate_order_rejected] at hrun
      split at hrun
      · cases hrun
        exact ⟨cacheCoherent_setOrder _ hc, rfl, EvOk_singleton rfl rfl⟩
      · rcases hA : accept_order st o with ⟨evA, stA⟩
        rw [hA] at hrun
        dsimp only at hrun
        obtain ⟨ca, na, va⟩ := accept_order_spec st o hc
        rw [hA] at ca na va
        have caA : cacheCoherent stA := ca
        have naA : stA.now_ns = st.now_ns := na
        rcases hM : is_limit_matched stA o.instrument_id o.side (readOrder stA o).price
          with ⟨m, stM⟩
        rw [hM] at hrun
        dsimp only at hrun
        have hstate := is_limit_matched_state stA o.instrument_id o.side (readOrder stA o).price
        rw [hM] at hstate
        have hnowM : stM.now_ns = stA.now_ns := hstate.2
        have hcM : cacheCoherent stM := coherent_of_cache_eq hstate.1 caA
        split at hrun
        · obtain ⟨e1, s1, e2, h1, h2, heq⟩ := seqRun_eq_some hrun
          subst heq
          simp only [Option.some.injEq, Prod.mk.injEq] at h1
          obtain ⟨he1, hs1⟩ := h1
          subst hs1
          obtain ⟨c2, n2, v2⟩ := ih _ _ _ _ hcM h2
          refine ⟨c2, by rw [n2, hnowM, naA], ?_⟩
          refine EvOk_append ?_
            (EvOk_shift v2 (by rw [hnowM, naA]) (fun _ hf => False.elim hf))
          · rw [← he1]
            exact EvOk_of_forall (fun ev hev => va ev hev)
        · cases hrun
          refine ⟨hcM, by rw [hnowM, naA], ?_⟩
          exact EvOk_of_forall (fun ev hev => va ev hev)
    | processStopMarketOrder o =>
      simp only [run, generate_order_rejected] at hrun
      split at hrun
      · cases hrun
        exact ⟨cacheCoherent_setOrder _ hc, rfl, EvOk_singleton rfl rfl⟩
      · simp only [Option.some.injEq] at hrun
        obtain ⟨ca, na, va⟩ := accept_order_spec st o hc
        rw [hrun] at ca na va
        exact ⟨ca, na, EvOk_of_forall (fun ev hev => va ev hev)⟩
    | processStopLimitOrder o =>
      simp only [run, generate_order_rejected] at hrun
      split at hrun
      · cases hrun
        exact ⟨cacheCoherent_setOrder _ hc, rfl, EvOk_singleton rfl rfl⟩
      · simp only [Option.some.injEq] at hrun
        obtain ⟨ca, na, va⟩ := accept_order_spec st o hc
        rw [hrun] at ca na va
        exact ⟨ca, na, EvOk_of_forall (fun ev hev => va ev hev)⟩
    | updateOrder o qty price trigger update_ocos =>
      simp only [run] at hrun
      split at hrun
      · obtain ⟨e1, s1, e2, h1, h2, heq⟩ := seqRun_eq_some hrun
        subst heq
        have hh : cacheCoherent s1 ∧ s1.now_ns = st.now_ns ∧
            EvOk st.now_ns
              (expBound (Act.updateOrder o qty price trigger update_ocos) st) e1 := by
          split at h1
          all_goals first
            | cases h1
            | (obtain ⟨c1, n1, v1⟩ := ih _ _ _ _ hc h1
               exact ⟨c1, n1, EvOk_mono v1 (fun _ hf => False.elim hf)⟩)
        obtain ⟨c1, n1, v1⟩ := hh
        obtain ⟨c2, n2, v2⟩ := ih _ _ _ _ c1 h2
        exact triple_seq c1 n1 v1 c2 n2 (EvOk_mono v2 (fun _ hf => False.elim hf))
      · split at hrun
        all_goals first
          | cases hrun
          | (obtain ⟨c1, n1, v1⟩ := ih _ _ _ _ hc hrun
             exact ⟨c1, n1, EvOk_mono v1 (fun _ hf => False.elim hf)⟩)
    | updateLimitOrder o qty price =>
      simp only [run, generate_order_modify_rejected] at hrun
      split at hrun
      · split at hrun
        · cases hrun
          exact ⟨hc, rfl, EvOk_singleton rfl rfl⟩
        · rcases hG : generate_order_updated st (readOrder st o) qty (some price) none
            with ⟨evU, stU⟩
          rw [hG] at hrun
          dsimp only at hrun
          obtain ⟨cG, nG, eG⟩ :=
            generate_order_updated_spec st (readOrder st o) qty (some price) none hc
          rw [hG] at cG nG eG
          have cGa : cacheCoherent stU := cG
          have nGa : stU.now_ns = st.now_ns := nG
          have eGa : evU = Event.orderUpdated (readOrder st o).client_order_id qty
              (some price) none st.now_ns := eG
          obtain ⟨e1, s1, e2, h1, h2, heq⟩ := seqRun_eq_some hrun
          subst heq
          simp only [Option.some.injEq, Prod.mk.injEq] at h1
          obtain ⟨he1, hs1⟩ := h1
          subst hs1
          obtain ⟨c2, n2, v2⟩ := ih _ _ _ _ cGa h2
          refine ⟨c2, by rw [n2, nGa], ?_⟩
          refine EvOk_append ?_ (EvOk_shift v2 nGa (fun _ hf => False.elim hf))
          · rw [← he1]
            exact EvOk_singleton (by rw [eGa]; rfl) (by rw [eGa]; rfl)
      · rcases hG : generate_order_updated st (readOrder st o) qty (some price) none
          with ⟨evU, stU⟩
        rw [hG] at hrun
        dsimp only at hrun
        obtain ⟨cG, nG, eG⟩ :=
          generate_order_updated_spec st (readOrder st o) qty (some price) none hc
        rw [hG] at cG nG eG
        have eGa : evU = Event.orderUpdated (readOrder st o).client_order_id qty
            (some price) none st.now_ns := eG
        cases hrun
        exact ⟨cG, nG, EvOk_singleton (by rw [eGa]; rfl) (by rw [eGa]; rfl)⟩
    | updateStopMarketOrder o qty price =>
      simp only [run, generate_order_modify_rejected] at hrun
      split at hrun
      · cases hrun
        exact ⟨hc, rfl, EvOk_singleton rfl rfl⟩
      · rcases hG : generate_order_updated st (readOrder st o) qty (some price) none
          with ⟨evU, stU⟩
        rw [hG] at hrun
        dsimp only at hrun
        obtain ⟨cG, nG, eG⟩ :=
          generate_order_updated_spec st (readOrder st o) qty (some price) none hc
        rw [hG] at cG nG eG
        have eGa : evU = Event.orderUpdated (readOrder st o).client_order_id qty
            (some price) none st.now_ns := eG
        cases hrun
        exact ⟨cG, nG, EvOk_singleton (by rw [eGa]; rfl) (by rw [eGa]; rfl)⟩
    | updateStopLimitOrder o qty price trigger =>
      simp only [run, generate_order_modify_rejected] at hrun
      split at hrun
      · split at hrun
        · cases hrun
          exact ⟨hc, rfl, EvOk_singleton rfl rfl⟩
        · rcases hG : generate_order_updated st (readOrder st o) qty (some price)
            (some trigger) with ⟨evU, stU⟩
          rw [hG] at hrun
          dsimp only at hrun
          obtain ⟨cG, nG, eG⟩ := generate_order_updated_spec st (readOrder st o) qty
            (some price) (some trigger) hc
          rw [hG] at cG nG eG
          have eGa : evU = Event.orderUpdated (readOrder st o).client_order_id qty
              (some price) (some trigger) st.now_ns := eG
          cases hrun
          exact ⟨cG, nG, EvOk_singleton (by rw [eGa]; rfl) (by rw [eGa]; rfl)⟩
      · split at hrun
        · split at hrun
          · cases hrun
            exact ⟨hc, rfl, EvOk_singleton rfl rfl⟩
          · rcases hG : generate_order_updated st (readOrder st o) qty (some price) none
              with ⟨evU, stU⟩
            rw [hG] at hrun
            dsimp only at hrun
            obtain ⟨cG, nG, eG⟩ :=
              generate_order_updated_spec st (readOrder st o) qty (some price) none hc
            rw [hG] at cG nG eG
            have cGa : cacheCoherent stU := cG
            have nGa : stU.now_ns = st.now_ns := nG
            have eGa : evU = Event.orderUpdated (readOrder st o).client_order_id qty
                (some price) none st.now_ns := eG
            obtain ⟨e1, s1, e2, h1, h2, heq⟩ := seqRun_eq_some hrun
            subst heq
            simp only [Option.some.injEq, Prod.mk.injEq] at h1
            obtain ⟨he1, hs1⟩ := h1
            subst hs1
            obtain ⟨c2, n2, v2⟩ := ih _ _ _ _ cGa h2
            refine ⟨c2, by rw [n2, nGa], ?_⟩
            refine EvOk_append ?_ (EvOk_shift v2 nGa (fun _ hf => False.elim hf))
            · rw [← he1]
              exact EvOk_singleton (by rw [eGa]; rfl) (by rw [eGa]; rfl)
        · rcases hG : generate_order_updated st (readOrder st o) qty (some price)
            (some trigger) with ⟨evU, stU⟩
          rw [hG] at hrun
          dsimp only at hrun
          obtain ⟨cG, nG, eG⟩ := generate_order_updated_spec st (readOrder st o) qty
            (some price) (some trigger) hc
          rw [hG] at cG nG eG
          have eGa : evU = Event.orderUpdated (readOrder st o).client_order_id qty
              (some price) (some trigger) st.now_ns := eG
          cases hrun
          exact ⟨cG, nG, EvOk_singleton (by rw [eGa]; rfl) (by rw [eGa]; rfl)⟩
    | updateOcoOrders o =>
      simp only [run] at hrun
      obtain ⟨c1, n1, v1⟩ := ih _ _ _ _ hc hrun
      exact ⟨c1, n1, EvOk_mono v1 (fun _ hf => False.elim hf)⟩
    | updateOcoLoop o cids =>
      cases cids with
      | nil =>
        simp only [run] at hrun
        cases hrun
        exact ⟨hc, rfl, EvOk_nil _ _⟩
      | cons cid rest =>
        simp only [run] at hrun
        split at hrun
        · cases hrun
        · split at hrun
          · obtain ⟨e1, s1, e2, h1, h2, heq⟩ := seqRun_eq_some hrun
            subst heq
            obtain ⟨c1, n1, v1⟩ := ih _ _ _ _ hc h1
            obtain ⟨c2, n2, v2⟩ := ih _ _ _ _ c1 h2
            exact triple_seq c1 n1 (EvOk_mono v1 (fun _ hf => False.elim hf))
              c2 n2 (EvOk_mono v2 (fun _ hf => False.elim hf))
          · obtain ⟨c1, n1, v1⟩ := ih _ _ _ _ hc hrun
            exact ⟨c1, n1, EvOk_mono v1 (fun _ hf => False.elim hf)⟩
    | cancelOrder o cancel_ocos =>
      simp only [run] at hrun
      rcases hCC : cancel_order_core st o with ⟨evC, stC⟩
      rw [hCC] at hrun
      dsimp only at hrun
      obtain ⟨cC, nC, eC1, eC2⟩ := cancel_order_core_spec st o hc
      rw [hCC] at cC nC eC1 eC2
      have cCa : cacheCoherent stC := cC
      have nCa : stC.now_ns = st.now_ns := nC
      have e1a : evC.isExpired = false := eC1
      have e2a : evC.ts = st.now_ns := eC2
      split at hrun
      · obtain ⟨e1, s1, e2, h1, h2, heq⟩ := seqRun_eq_some hrun
        subst heq
        simp only [Option.some.injEq, Prod.mk.injEq] at h1
        obtain ⟨he1, hs1⟩ := h1
        subst hs1
        obtain ⟨c2, n2, v2⟩ := ih _ _ _ _ cCa h2
        refine ⟨c2, by rw [n2, nCa], ?_⟩
        refine EvOk_append ?_ (EvOk_shift v2 nCa (fun _ hf => False.elim hf))
        · rw [← he1]
          exact EvOk_singleton e1a e2a
      · cases hrun
        exact ⟨cCa, nCa, EvOk_singleton e1a e2a⟩
    | cancelOcoOrders o =>
      simp only [run] at hrun
      obtain ⟨c1, n1, v1⟩ := ih _ _ _ _ hc hrun
      exact ⟨c1, n1, EvOk_mono v1 (fun _ hf => False.elim hf)⟩
    | cancelOcoLoop o cids =>
      cases cids with
      | nil =>
        simp only [run] at hrun
        cases hrun
        exact ⟨hc, rfl, EvOk_nil _ _⟩
      | cons cid rest =>
        simp only [run] at hrun
        split at hrun
        · cases hrun
        · split at hrun
          · obtain ⟨e1, s1, e2, h1, h2, heq⟩ := seqRun_eq_some hrun
            subst heq
            obtain ⟨c1, n1, v1⟩ := ih _ _ _ _ hc h1
            obtain ⟨c2, n2, v2⟩ := ih _ _ _ _ c1 h2
            exact triple_seq c1 n1 (EvOk_mono v1 (fun _ hf => False.elim hf))
              c2 n2 (EvOk_mono v2 (fun _ hf => False.elim hf))
          · obtain ⟨c1, n1, v1⟩ := ih _ _ _ _ hc hrun
            exact ⟨c1, n1, EvOk_mono v1 (fun _ hf => False.elim hf)⟩
    | expireOrder o =>
      simp only [run, generate_order_expired] at hrun
      split at hrun
      · obtain ⟨e1, s1, e2, h1, h2, heq⟩ := seqRun_eq_some hrun
        subst heq
        simp only [Option.some.injEq, Prod.mk.injEq] at h1
        obtain ⟨he1, hs1⟩ := h1
        subst hs1
        obtain ⟨c2, n2, v2⟩ := ih _ _ _ _ (cacheCoherent_setOrder _ hc) h2
        refine ⟨c2, by rw [n2]; rfl, ?_⟩
        refine EvOk_append ?_ ?_
        · rw [← he1]
          intro e he
          rw [List.mem_singleton] at he
          subst he
          exact Or.inr ⟨rfl, rfl⟩
        · exact EvOk_shift v2 rfl (fun _ hf => False.elim hf)
      · cases hrun
        refine ⟨cacheCoherent_setOrder _ hc, rfl, ?_⟩
        intro e he
        rw [List.mem_singleton] at he
        subst he
        exact Or.inr ⟨rfl, rfl⟩
    | matchOrder o =>
      simp only [run] at hrun
      split at hrun
      any_goals cases hrun
      all_goals
        obtain ⟨c1, n1, v1⟩ := ih _ _ _ _ hc hrun
      all_goals
        exact ⟨c1, n1, EvOk_mono v1 (fun _ hf => False.elim hf)⟩
    | matchLimitOrder o =>
      simp only [run] at hrun
      rcases hM : is_limit_matched st o.instrument_id o.side (readOrder st o).price
        with ⟨m, st1⟩
      rw [hM] at hrun
      dsimp only at hrun
      have hstate := is_limit_matched_state st o.instrument_id o.side (readOrder st o).price
      rw [hM] at hstate
      have hnow1 : st1.now_ns = st.now_ns := hstate.2
      have hc1 : cacheCoherent st1 := coherent_of_cache_eq hstate.1 hc
      split at hrun
      · obtain ⟨c1, n1, v1⟩ := ih _ _ _ _ hc1 hrun
        exact ⟨c1, by rw [n1, hnow1], EvOk_shift v1 hnow1 (fun _ hf => False.elim hf)⟩
      · cases hrun
        exact ⟨hc1, hnow1, EvOk_nil _ _⟩
    | matchStopMarketOrder o =>
      simp only [run] at hrun
      rcases hM : is_stop_triggered st o.instrument_id o.side (readOrder st o).price
        with ⟨t, st1⟩
      rw [hM] at hrun
      dsimp only at hrun
      have hstate := is_stop_triggered_state st o.instrument_id o.side (readOrder st o).price
      rw [hM] at hstate
      have hnow1 : st1.now_ns = st.now_ns := hstate.2
      have hc1 : cacheCoherent st1 := coherent_of_cache_eq hstate.1 hc
      split at hrun
      · obtain ⟨c1, n1, v1⟩ := ih _ _ _ _ hc1 hrun
        exact ⟨c1, by rw [n1, hnow1], EvOk_shift v1 hnow1 (fun _ hf => False.elim hf)⟩
      · cases hrun
        exact ⟨hc1, hnow1, EvOk_nil _ _⟩
    | matchStopLimitOrder o =>
      simp only [run] at hrun
      split at hrun
      · rcases hM : is_limit_matched st o.instrument_id o.side (readOrder st o).price
          with ⟨m, st1⟩
        rw [hM] at hrun
        dsimp only at hrun
        have hstate := is_limit_matched_state st o.instrument_id o.side (readOrder st o).price
        rw [hM] at hstate
        have hnow1 : st1.now_ns = st.now_ns := hstate.2
        have hc1 : cacheCoherent st1 := coherent_of_cache_eq hstate.1 hc
        split at hrun
        · obtain ⟨c1, n1, v1⟩ := ih _ _ _ _ hc1 hrun
          exact ⟨c1, by rw [n1, hnow1], EvOk_shift v1 hnow1 (fun _ hf => False.elim hf)⟩
        · cases hrun
          exact ⟨hc1, hnow1, EvOk_nil _ _⟩
      · rcases hT : is_stop_triggered st o.instrument_id o.side (readOrder st o).trigger
          with ⟨t, st1⟩
        rw [hT] at hrun
        dsimp only at hrun
        have hstate := is_stop_triggered_state st o.instrument_id o.side (readOrder st o).trigger
        rw [hT] at hstate
        have hnow1 : st1.now_ns = st.now_ns := hstate.2
        have hc1 : cacheCoherent st1 := coherent_of_cache_eq hstate.1 hc
        split at hrun
        · simp only [generate_order_triggered, generate_order_rejected] at hrun
          split at hrun
          · cases hrun
            exact ⟨cacheCoherent_setOrder _ hc1, hnow1, EvOk_singleton rfl hnow1⟩
          · split at hrun
            · cases hrun
              refine ⟨cacheCoherent_setOrder _
                  (coherent_of_cache_eq (delete_order_cache _ _)
                    (cacheCoherent_setOrder _ hc1)), ?_, ?_⟩
              · show (delete_order _ _).now_ns = st.now_ns
                rw [delete_order_now_ns]
                exact hnow1
              · intro e he
                simp only [List.mem_cons, List.not_mem_nil, or_false] at he
                rcases he with rfl | rfl
                · exact Or.inl ⟨rfl, hnow1⟩
                · refine Or.inl ⟨rfl, ?_⟩
                  show (delete_order _ _).now_ns = st.now_ns
                  rw [delete_order_now_ns]
                  exact hnow1
            · obtain ⟨e1, s1, e2, h1, h2, heq⟩ := seqRun_eq_some hrun
              subst heq
              simp only [Option.some.injEq, Prod.mk.injEq] at h1
              obtain ⟨he1, hs1⟩ := h1
              subst hs1
              obtain ⟨c2, n2, v2⟩ := ih _ _ _ _ (cacheCoherent_setOrder _ hc1) h2
              refine ⟨c2, by rw [n2]; exact hnow1, ?_⟩
              refine EvOk_append ?_
                (EvOk_shift v2 (show _ = st.now_ns from hnow1) (fun _ hf => False.elim hf))
              · rw [← he1]
                exact EvOk_singleton rfl hnow1
        · cases hrun
          exact ⟨hc1, hnow1, EvOk_nil _ _⟩
    | fillLimitOrder o ls =>
      simp only [run] at hrun
      rcases hP : get_position_id st (readOrder st o) true with ⟨pid1, st1⟩
      rw [hP] at hrun
      dsimp only at hrun
      have hstate := get_position_id_state st (readOrder st o) true
      rw [hP] at hstate
      have hnow1 : st1.now_ns = st.now_ns := hstate.2
      have hc1 : cacheCoherent st1 := coherent_of_cache_eq hstate.1 hc
      split at hrun
      · obtain ⟨c1, n1, v1⟩ := ih _ _ _ _ hc1 hrun
        exact ⟨c1, by rw [n1, hnow1], EvOk_shift v1 hnow1 (fun _ hf => False.elim hf)⟩
      · rcases hD : determine_limit_price_and_volume st1 (readOrder st1 o)
          with ⟨fills, st2⟩
        rw [hD] at hrun
        dsimp only at hrun
        have hdst := determine_limit_state st1 (readOrder st1 o)
        rw [hD] at hdst
        have hnow2 : st2.now_ns = st1.now_ns := hdst.2
        have hc2 : cacheCoherent st2 := coherent_of_cache_eq hdst.1 hc1
        obtain ⟨c1, n1, v1⟩ := ih _ _ _ _ hc2 hrun
        refine ⟨c1, by rw [n1, hnow2, hnow1], ?_⟩
        exact EvOk_shift v1 (by rw [hnow2, hnow1]) (fun _ hf => False.elim hf)
    | fillMarketOrder o ls =>
      simp only [run] at hrun
      rcases hP : get_position_id st (readOrder st o) true with ⟨pid1, st1⟩
      rw [hP] at hrun
      dsimp only at hrun
      have hstate := get_position_id_state st (readOrder st o) true
      rw [hP] at hstate
      have hnow1 : st1.now_ns = st.now_ns := hstate.2
      have hc1 : cacheCoherent st1 := coherent_of_cache_eq hstate.1 hc
      split at hrun
      · obtain ⟨c1, n1, v1⟩ := ih _ _ _ _ hc1 hrun
        exact ⟨c1, by rw [n1, hnow1], EvOk_shift v1 hnow1 (fun _ hf => False.elim hf)⟩
      · rcases hD : determine_market_price_and_volume st1 (readOrder st1 o)
          with ⟨fills, st2⟩
        rw [hD] at hrun
        dsimp only at hrun
        have hdst := determine_market_state st1 (readOrder st1 o)
        rw [hD] at hdst
        have hnow2 : st2.now_ns = st1.now_ns := hdst.2
        have hc2 : cacheCoherent st2 := coherent_of_cache_eq hdst.1 hc1
        obtain ⟨c1, n1, v1⟩ := ih _ _ _ _ hc2 hrun
        refine ⟨c1, by rw [n1, hnow2, hnow1], ?_⟩
        exact EvOk_shift v1 (by rw [hnow2, hnow1]) (fun _ hf => False.elim hf)
    | applyFills o ls fills pid pos =>
      simp only [run] at hrun
      split at hrun
      · cases hrun
        exact ⟨hc, rfl, EvOk_nil _ _⟩
      · split at hrun
        · cases hrun
        · obtain ⟨c1, n1, v1⟩ := ih _ _ _ _ hc hrun
          exact ⟨c1, n1, EvOk_mono v1 (fun _ hf => False.elim hf)⟩
    | applyFillsGo instr o ls remaining orig pid pos =>
      cases remaining with
      | nil =>
        simp only [run] at hrun
        split at hrun
        · obtain ⟨c1, n1, v1⟩ := ih _ _ _ _ hc hrun
          exact ⟨c1, n1, EvOk_mono v1 (fun _ hf => False.elim hf)⟩
        · cases hrun
          exact ⟨hc, rfl, EvOk_nil _ _⟩
      | cons head rest =>
        obtain ⟨fpx, fq⟩ := head
        simp only [run] at hrun
        split at hrun
        · cases hrun
          exact ⟨hc, rfl, EvOk_nil _ _⟩
        · split at hrun
          · cases hrun
          · rename_i clip evs1 fq2 stC hClip
            have hS : ((if st.book_type = BookType.L1_TBBO then drawSlip st
                  else (false, st)).2).cache = st.cache ∧
                ((if st.book_type = BookType.L1_TBBO then drawSlip st
                  else (false, st)).2).now_ns = st.now_ns := by
              split
              · exact drawSlip_state st
              · exact ⟨rfl, rfl⟩
            have hcS : cacheCoherent ((if st.book_type = BookType.L1_TBBO
                then drawSlip st else (false, st)).2) :=
              coherent_of_cache_eq hS.1 hc
            have hfacts : cacheCoherent stC ∧ stC.now_ns = st.now_ns ∧
                EvOk st.now_ns (fun _ => (False : Prop)) evs1 := by
              split at hClip
              · split at hClip
                · cases hClip
                · rename_i p
                  split at hClip
                  · split at hClip
                    · obtain ⟨cU, nU, eU⟩ := generate_order_updated_spec
                        ((if st.book_type = BookType.L1_TBBO then drawSlip st
                          else (false, st)).2)
                        (readOrder st o)
                        ((readOrder st o).quantity - (fq - (fq - (fq - p.quantity))))
                        none none hcS
                      cases hClip
                      refine ⟨cU, by rw [nU]; exact hS.2, ?_⟩
                      intro e he
                      rw [List.mem_singleton] at he
                      subst he
                      refine Or.inl ⟨?_, ?_⟩
                      · rw [eU]
                        rfl
                      · rw [eU]
                        exact hS.2
                    · cases hClip
                      exact ⟨hcS, hS.2, EvOk_nil _ _⟩
                  · cases hClip
                    exact ⟨hcS, hS.2, EvOk_nil _ _⟩
              · cases hClip
                exact ⟨hcS, hS.2, EvOk_nil _ _⟩
            obtain ⟨hcC, hnC, hv1⟩ := hfacts
            split at hrun
            · cases hrun
              exact ⟨hcC, hnC, EvOk_mono hv1 (fun _ hf => False.elim hf)⟩
            · obtain ⟨ea, sa, eb, ha, hb, hab⟩ := seqRun_eq_some hrun
              subst hab
              simp only [Option.some.injEq, Prod.mk.injEq] at ha
              obtain ⟨hea, hsa⟩ := ha
              subst hsa
              obtain ⟨eb1, sb1, eb2, hb1, hb2, hbe⟩ := seqRun_eq_some hb
              subst hbe
              obtain ⟨cb1, nb1, vb1⟩ := ih _ _ _ _ hcC hb1
              obtain ⟨cb2, nb2, vb2⟩ := ih _ _ _ _ cb1 hb2
              refine ⟨cb2, by rw [nb2, nb1, hnC], ?_⟩
              rw [← hea]
              refine EvOk_append (EvOk_mono hv1 (fun _ hf => False.elim hf)) ?_
              refine EvOk_append (EvOk_shift vb1 hnC (fun _ hf => False.elim hf)) ?_
              exact EvOk_shift vb2 (by rw [nb1, hnC]) (fun _ hf => False.elim hf)
    | fillOrder instr o vpid pos lq lpx ls =>
      simp only [run] at hrun
      rcases hG : generate_order_filled st (readOrder st o) vpid lq lpx
          instr.quote_currency
          (st.commission_of (readOrder st o).quantity lpx ls) ls with ⟨evF, stG⟩
      rw [hG] at hrun
      dsimp only at hrun
      obtain ⟨cF, nF, hex⟩ := generate_order_filled_spec st (readOrder st o) vpid lq lpx
        instr.quote_currency (st.commission_of (readOrder st o).quantity lpx ls) ls hc
      obtain ⟨eid, hevF⟩ := hex
      rw [hG] at cF nF hevF
      have cFa : cacheCoherent stG := cF
      have nFa : stG.now_ns = st.now_ns := nF
      have hevFa : evF = Event.orderFilled (readOrder st o).client_order_id vpid eid
          lq lpx instr.quote_currency
          (st.commission_of (readOrder st o).quantity lpx ls) ls st.now_ns := hevF
      have hcD : cacheCoherent (delete_order stG (readOrder stG o)) :=
        coherent_of_cache_eq (delete_order_cache _ _) cFa
      have hnD : (delete_order stG (readOrder stG o)).now_ns = st.now_ns := by
        rw [delete_order_now_ns]
        exact nFa
      split at hrun
      · cases hrun
      · rename_i contres evs2 st3 hCt
        have hfacts : cacheCoherent st3 ∧ st3.now_ns = st.now_ns ∧
            EvOk st.now_ns (fun _ => (False : Prop)) evs2 := by
          split at hCt
          · split at hCt
            · obtain ⟨c3, n3, v3⟩ :=
                oto_children_after_fill_spec _ _ _ _ _ hcD hCt
              refine ⟨c3, by rw [n3]; exact hnD, ?_⟩
              intro e he
              exact Or.inl ⟨(v3 e he).1, by rw [(v3 e he).2]; exact hnD⟩
            · obtain ⟨c3, n3, v3⟩ :=
                oto_children_after_fill_spec _ _ _ _ _ cFa hCt
              refine ⟨c3, by rw [n3]; exact nFa, ?_⟩
              intro e he
              exact Or.inl ⟨(v3 e he).1, by rw [(v3 e he).2]; exact nFa⟩
          · split at hCt
            · split at hCt
              · obtain ⟨c3, n3, v3⟩ := ih _ _ _ _ hcD hCt
                exact ⟨c3, by rw [n3]; exact hnD,
                  EvOk_shift v3 hnD (fun _ hf => False.elim hf)⟩
              · obtain ⟨c3, n3, v3⟩ := ih _ _ _ _ cFa hCt
                exact ⟨c3, by rw [n3]; exact nFa,
                  EvOk_shift v3 nFa (fun _ hf => False.elim hf)⟩
            · split at hCt
              · cases hCt
                exact ⟨hcD, hnD, EvOk_nil _ _⟩
              · cases hCt
                exact ⟨cFa, nFa, EvOk_nil _ _⟩
        obtain ⟨hc3, hn3, hv3⟩ := hfacts
        cases pos with
        | none =>
          dsimp only at hrun
          cases hrun
          refine ⟨hc3, hn3, ?_⟩
          intro e he
          rcases List.mem_cons.mp he with rfl | he2
          · exact Or.inl ⟨by rw [hevFa]; rfl, by rw [hevFa]; rfl⟩
          · exact hv3 e he2
        | some p =>
          dsimp only at hrun
          obtain ⟨ea, sa, eb, ha, hb, hab⟩ := seqRun_eq_some hrun
          subst hab
          simp only [Option.some.injEq, Prod.mk.injEq] at ha
          obtain ⟨hea, hsa⟩ := ha
          subst hsa
          obtain ⟨cb, nb, vb⟩ := ih _ _ _ _ hc3 hb
          refine ⟨cb, by rw [nb, hn3], ?_⟩
          rw [← hea]
          refine EvOk_append ?_ (EvOk_shift vb hn3 (fun _ hf => False.elim hf))
          intro e he
          rcases List.mem_cons.mp he with rfl | he2
          · exact Or.inl ⟨by rw [hevFa]; rfl, by rw [hevFa]; rfl⟩
          · exact hv3 e he2
    | fillOcoLoop o cids =>
      cases cids with
      | nil =>
        simp only [run] at hrun
        cases hrun
        exact ⟨hc, rfl, EvOk_nil _ _⟩
      | cons cid rest =>
        simp only [run] at hrun
        split at hrun
        · cases hrun
        · split at hrun
          · obtain ⟨e1, s1, e2, h1, h2, heq⟩ := seqRun_eq_some hrun
            subst heq
            obtain ⟨c1, n1, v1⟩ := ih _ _ _ _ hc h1
            obtain ⟨c2, n2, v2⟩ := ih _ _ _ _ c1 h2
            exact triple_seq c1 n1 (EvOk_mono v1 (fun _ hf => False.elim hf))
              c2 n2 (EvOk_mono v2 (fun _ hf => False.elim hf))
          · split at hrun
            · obtain ⟨e1, s1, e2, h1, h2, heq⟩ := seqRun_eq_some hrun
              subst heq
              obtain ⟨c1, n1, v1⟩ := ih _ _ _ _ hc h1
              obtain ⟨c2, n2, v2⟩ := ih _ _ _ _ c1 h2
              exact triple_seq c1 n1 (EvOk_mono v1 (fun _ hf => False.elim hf))
                c2 n2 (EvOk_mono v2 (fun _ hf => False.elim hf))
            · obtain ⟨c1, n1, v1⟩ := ih _ _ _ _ hc hrun
              exact ⟨c1, n1, EvOk_mono v1 (fun _ hf => False.elim hf)⟩
    | fillReduceLoop vpid pos cids =>
      cases cids with
      | nil =>
        simp only [run] at hrun
        cases hrun
        exact ⟨hc, rfl, EvOk_nil _ _⟩
      | cons cid rest =>
        simp only [run] at hrun
        split at hrun
        · cases hrun
        · split at hrun
          · split at hrun
            · obtain ⟨e1, s1, e2, h1, h2, heq⟩ := seqRun_eq_some hrun
              subst heq
              obtain ⟨c1, n1, v1⟩ := ih _ _ _ _ hc h1
              obtain ⟨c2, n2, v2⟩ := ih _ _ _ _ c1 h2
              exact triple_seq c1 n1 (EvOk_mono v1 (fun _ hf => False.elim hf))
                c2 n2 (EvOk_mono v2 (fun _ hf => False.elim hf))
            · split at hrun
              · obtain ⟨e1, s1, e2, h1, h2, heq⟩ := seqRun_eq_some hrun
                subst heq
                obtain ⟨c1, n1, v1⟩ := ih _ _ _ _ hc h1
                obtain ⟨c2, n2, v2⟩ := ih _ _ _ _ c1 h2
                exact triple_seq c1 n1 (EvOk_mono v1 (fun _ hf => False.elim hf))
                  c2 n2 (EvOk_mono v2 (fun _ hf => False.elim hf))
              · obtain ⟨c1, n1, v1⟩ := ih _ _ _ _ hc hrun
                exact ⟨c1, n1, EvOk_mono v1 (fun _ hf => False.elim hf)⟩
          · obtain ⟨c1, n1, v1⟩ := ih _ _ _ _ hc hrun
            exact ⟨c1, n1, EvOk_mono v1 (fun _ hf => False.elim hf)⟩
    | iterateSide cids ts =>
      cases cids with
      | nil =>
        simp only [run] at hrun
        cases hrun
        exact ⟨hc, rfl, EvOk_nil _ _⟩
      | cons cid rest =>
        simp only [run] at hrun
        split at hrun
        · obtain ⟨c1, n1, v1⟩ := ih _ _ _ _ hc hrun
          exact ⟨c1, n1, EvOk_mono v1 (fun _ h => h)⟩
        · rename_i o hco
          split at hrun
          · obtain ⟨c1, n1, v1⟩ := ih _ _ _ _ hc hrun
            exact ⟨c1, n1, EvOk_mono v1 (fun _ h => h)⟩
          · split at hrun
            · rename_i hnw hexp
              obtain ⟨e1, s1, e2, h1, h2, heq⟩ := seqRun_eq_some hrun
              subst heq
              have hcd : cacheCoherent (delete_order st o) :=
                coherent_of_cache_eq (delete_order_cache st o) hc
              obtain ⟨c1, n1, v1⟩ := ih _ _ _ _ hcd h1
              obtain ⟨c2, n2, v2⟩ := ih _ _ _ _ c1 h2
              have hnd : (delete_order st o).now_ns = st.now_ns :=
                delete_order_now_ns st o
              have hcid : o.client_order_id = cid := hc cid o hco
              have hro : readOrder (delete_order st o) o = o := by
                unfold readOrder
                rw [delete_order_cache, hcid, hco]
                rfl
              refine ⟨c2, by rw [n2, n1, hnd], ?_⟩
              refine EvOk_append ?_ ?_
              · refine EvOk_shift v1 hnd (fun ev hts => ?_)
                have h1t : ev.ts = (readOrder (delete_order st o) o).expire_time_ns := hts
                rw [hro] at h1t
                show ev.ts ≤ ts
                rw [h1t]
                exact hexp.2
              · exact EvOk_shift v2 (by rw [n1, hnd]) (fun _ h => h)
            · obtain ⟨e1, s1, e2, h1, h2, heq⟩ := seqRun_eq_some hrun
              subst heq
              obtain ⟨c1, n1, v1⟩ := ih _ _ _ _ hc h1
              obtain ⟨c2, n2, v2⟩ := ih _ _ _ _ c1 h2
              exact triple_seq c1 n1 (EvOk_mono v1 (fun _ hf => False.elim hf))
                c2 n2 (EvOk_mono v2 (fun _ h => h))
    | iterateMatchingEngine iid ts =>
      simp only [run] at hrun
      obtain ⟨e1, s1, e2, h1, h2, heq⟩ := seqRun_eq_some hrun
      subst heq
      obtain ⟨c1, n1, v1⟩ := ih _ _ _ _ hc h1
      obtain ⟨c2, n2, v2⟩ := ih _ _ _ _ c1 h2
      exact triple_seq c1 n1 (EvOk_mono v1 (fun _ h => h))
        c2 n2 (EvOk_mono v2 (fun _ h => h))


/-- C2: the spec says every event emitted while processing a tick carries
`ts_event` equal to the tick's `ts_init`.  Corrected: that holds for every
event except `OrderExpired`, which is stamped with the order's own
`expire_time_ns` (at most `ts_init` at emission). -/
theorem C2_event_ts_clock_except_expired (fuel : Nat) (iid : Nat)
    (bid ask ts_init : Int) (st : Exchange) (evs : List Event) (st' : Exchange)
    (hc : cacheCoherent st)
    (h : process_tick fuel iid bid ask ts_init st = some (evs, st')) :
    ∀ ev ∈ evs, (ev.isExpired = false ∧ ev.ts = ts_init) ∨
      (ev.isExpired = true ∧ ev.ts ≤ ts_init) := by
  simp only [process_tick] at h
  split at h
  · obtain ⟨_, _, v⟩ := run_event_timestamps fuel _ _ _ _
      (by exact coherent_of_cache_eq rfl hc) h
    intro ev hev
    rcases v ev hev with ⟨a, b⟩ | ⟨a, b⟩
    · exact Or.inl ⟨a, b⟩
    · exact Or.inr ⟨a, b⟩
  · obtain ⟨_, _, v⟩ := run_event_timestamps fuel _ _ _ _
      (by exact coherent_of_cache_eq rfl hc) h
    intro ev hev
    rcases v ev hev with ⟨a, b⟩ | ⟨a, b⟩
    · exact Or.inl ⟨a, b⟩
    · exact Or.inr ⟨a, b⟩

theorem C2_witness :
    (Event.orderExpired 3 50).isExpired = false ∧
      (Event.orderExpired 3 50).ts = 100 ∨
    (Event.orderExpired 3 50).isExpired = true ∧
      (Event.orderExpired 3 50).ts ≤ 100 :=
  C2_event_ts_clock_except_expired 10 1 99 100 100 c2_st _ _
    (cacheCoherent_of_forall _ (by decide)) rfl
    (Event.orderExpired 3 50) (by decide)

theorem alGet_mem {κ : Type} [DecidableEq κ] {α : Type} {l : List (κ × α)}
    {k : κ} {v : α} (h : alGet l k = some v) : (k, v) ∈ l := by
  induction l with
  | nil => simp [alGet] at h
  | cons p rest ih =>
    obtain ⟨k0, v0⟩ := p
    simp only [alGet] at h
    by_cases he : k0 = k
    · subst he
      rw [if_pos rfl] at h
      cases h
      exact List.mem_cons_self _ _
    · rw [if_neg he] at h
      exact List.mem_cons_of_mem _ (ih h)

theorem mem_bidList {st : Exchange} {iid cid : Nat} (h : cid ∈ bidList st iid) :
    ∃ l, alGet st.orders_bid iid = some l ∧ cid ∈ l := by
  unfold bidList at h
  cases hg : alGet st.orders_bid iid with
  | none => rw [hg] at h; simp at h
  | some l => rw [hg] at h; exact ⟨l, rfl, h⟩

theorem mem_askList {st : Exchange} {iid cid : Nat} (h : cid ∈ askList st iid) :
    ∃ l, alGet st.orders_ask iid = some l ∧ cid ∈ l := by
  unfold askList at h
  cases hg : alGet st.orders_ask iid with
  | none => rw [hg] at h; simp at h
  | some l => rw [hg] at h; exact ⟨l, rfl, h⟩

theorem liveAt_iff {st : Exchange} {iid : Nat} {buy : Bool} {cid : Nat} :
    liveAt st iid buy cid = true ↔
      ∃ o, alGet st.cache cid = some o ∧ o.is_active = true ∧
        o.instrument_id = iid ∧ o.is_buy = buy := by
  unfold liveAt
  cases hg : alGet st.cache cid with
  | none => simp
  | some o => simp [Option.any, Bool.and_eq_true, beq_iff_eq, and_assoc]

theorem booksLive_bid {st : Exchange} (hb : booksLive st) {iid cid : Nat}
    (h : cid ∈ bidList st iid) :
    ∃ o, alGet st.cache cid = some o ∧ o.is_active = true ∧
      o.instrument_id = iid ∧ o.is_buy = true := by
  obtain ⟨l, hg, hm⟩ := mem_bidList h
  exact liveAt_iff.mp (hb.1 (iid, l) (alGet_mem hg) cid h)

theorem booksLive_ask {st : Exchange} (hb : booksLive st) {iid cid : Nat}
    (h : cid ∈ askList st iid) :
    ∃ o, alGet st.cache cid = some o ∧ o.is_active = true ∧
      o.instrument_id = iid ∧ o.is_buy = false := by
  obtain ⟨l, hg, hm⟩ := mem_askList h
  exact liveAt_iff.mp (hb.2 (iid, l) (alGet_mem hg) cid h)

theorem booksNodup_bid {st : Exchange} (hn : booksNodup st) (iid : Nat) :
    (bidList st iid).Nodup := by
  cases hg : alGet st.orders_bid iid with
  | none =>
    unfold bidList
    rw [hg]
    simp
  | some l => exact hn.1 (iid, l) (alGet_mem hg)

theorem booksNodup_ask {st : Exchange} (hn : booksNodup st) (iid : Nat) :
    (askList st iid).Nodup := by
  cases hg : alGet st.orders_ask iid with
  | none =>
    unfold askList
    rw [hg]
    simp
  | some l => exact hn.2 (iid, l) (alGet_mem hg)

theorem notListed_spec {st : Exchange} {cid : Nat} (h : notListed st cid)
    (iid : Nat) : cid ∉ bidList st iid ∧ cid ∉ askList st iid := by
  constructor
  · intro hm
    obtain ⟨l, hg, hml⟩ := mem_bidList hm
    exact h.1 (iid, l) (alGet_mem hg) hm
  · intro hm
    obtain ⟨l, hg, hml⟩ := mem_askList hm
    exact h.2 (iid, l) (alGet_mem hg) hm

theorem mem_sortDesc {key : Nat → Int} {z : Nat} {l : List Nat} :
    z ∈ sortDesc key l ↔ z ∈ l := by
  induction l with
  | nil => simp [sortDesc]
  | cons x xs ih =>
    simp only [sortDesc, mem_insertDesc, ih, List.mem_cons]

theorem mem_sortAsc {key : Nat → Int} {z : Nat} {l : List Nat} :
    z ∈ sortAsc key l ↔ z ∈ l := by
  induction l with
  | nil => simp [sortAsc]
  | cons x xs ih =>
    simp only [sortAsc, mem_insertAsc, ih, List.mem_cons]

theorem nodup_insertDesc {key : Nat → Int} {x : Nat} {l : List Nat}
    (hx : x ∉ l) (h : l.Nodup) : (insertDesc key x l).Nodup := by
  induction l with
  | nil => simp [insertDesc]
  | cons y ys ih =>
    rw [List.nodup_cons] at h
    simp only [insertDesc]
    split
    · exact List.nodup_cons.mpr ⟨hx, List.nodup_cons.mpr h⟩
    · refine List.nodup_cons.mpr
        ⟨?_, ih (fun hm => hx (List.mem_cons_of_mem _ hm)) h.2⟩
      intro hy
      rcases mem_insertDesc.mp hy with rfl | hm
      · exact hx (List.mem_cons_self _ _)
      · exact h.1 hm

theorem nodup_insertAsc {key : Nat → Int} {x : Nat} {l : List Nat}
    (hx : x ∉ l) (h : l.Nodup) : (insertAsc key x l).Nodup := by
  induction l with
  | nil => simp [insertAsc]
  | cons y ys ih =>
    rw [List.nodup_cons] at h
    simp only [insertAsc]
    split
    · exact List.nodup_cons.mpr ⟨hx, List.nodup_cons.mpr h⟩
    · refine List.nodup_cons.mpr
        ⟨?_, ih (fun hm => hx (List.mem_cons_of_mem _ hm)) h.2⟩
      intro hy
      rcases mem_insertAsc.mp hy with rfl | hm
      · exact hx (List.mem_cons_self _ _)
      · exact h.1 hm

theorem nodup_sortDesc {key : Nat → Int} {l : List Nat} (h : l.Nodup) :
    (sortDesc key l).Nodup := by
  induction l with
  | nil => simp [sortDesc]
  | cons x xs ih =>
    rw [List.nodup_cons] at h
    exact nodup_insertDesc (fun hm => h.1 (mem_sortDesc.mp hm)) (ih h.2)

theorem nodup_sortAsc {key : Nat → Int} {l : List Nat} (h : l.Nodup) :
    (sortAsc key l).Nodup := by
  induction l with
  | nil => simp [sortAsc]
  | cons x xs ih =>
    rw [List.nodup_cons] at h
    exact nodup_insertAsc (fun hm => h.1 (mem_sortAsc.mp hm)) (ih h.2)

theorem mem_alSet {κ : Type} [DecidableEq κ] {α : Type} {l : List (κ × α)}
    {k : κ} {v : α} {p : κ × α} (h : p ∈ alSet l k v) :
    p = (k, v) ∨ p ∈ l := by
  induction l with
  | nil => simpa [alSet] using h
  | cons q rest ih =>
    obtain ⟨k0, v0⟩ := q
    simp only [alSet] at h
    by_cases he : k0 = k
    · subst he
      rw [if_pos rfl] at h
      rcases List.mem_cons.mp h with rfl | hm
      · exact Or.inl rfl
      · exact Or.inr (List.mem_cons_of_mem _ hm)
    · rw [if_neg he] at h
      rcases List.mem_cons.mp h with rfl | hm
      · exact Or.inr (List.mem_cons_self _ _)
      · rcases ih hm with h1 | h1
        · exact Or.inl h1
        · exact Or.inr (List.mem_cons_of_mem _ h1)

theorem liveAt_congr {st st' : Exchange} (h : st'.cache = st.cache)
    (iid : Nat) (b : Bool) (cid : Nat) :
    liveAt st' iid b cid = liveAt st iid b cid := by
  unfold liveAt
  rw [h]

theorem bidList_eq_of_orders {st st' : Exchange} (iid0 : Nat) (newl : List Nat)
    (h : st'.orders_bid = alSet st.orders_bid iid0 newl) (k : Nat) :
    bidList st' k = if iid0 = k then newl else bidList st k := by
  unfold bidList
  rw [h, alGet_alSet]
  by_cases he : iid0 = k
  · rw [if_pos he, if_pos he]
    rfl
  · rw [if_neg he, if_neg he]

theorem askList_eq_of_orders {st st' : Exchange} (iid0 : Nat) (newl : List Nat)
    (h : st'.orders_ask = alSet st.orders_ask iid0 newl) (k : Nat) :
    askList st' k = if iid0 = k then newl else askList st k := by
  unfold askList
  rw [h, alGet_alSet]
  by_cases he : iid0 = k
  · rw [if_pos he, if_pos he]
    rfl
  · rw [if_neg he, if_neg he]

theorem bidList_congr {st st' : Exchange} (h : st'.orders_bid = st.orders_bid)
    (k : Nat) : bidList st' k = bidList st k := by
  unfold bidList
  rw [h]

theorem askList_congr {st st' : Exchange} (h : st'.orders_ask = st.orders_ask)
    (k : Nat) : askList st' k = askList st k := by
  unfold askList
  rw [h]

theorem booksLive_setOrder_unlisted {st : Exchange} {x : Order}
    (hb : booksLive st) (hn : notListed st x.client_order_id) :
    booksLive (setOrder st x) := by
  constructor
  · intro p hp cid hcid
    have hp' : p ∈ st.orders_bid := hp
    have hcid' : cid ∈ bidList st p.1 := hcid
    have hne : x.client_order_id ≠ cid := by
      intro he
      exact hn.1 p hp' (by rw [he]; exact hcid')
    have h1 : liveAt (setOrder st x) p.1 true cid = liveAt st p.1 true cid := by
      unfold liveAt setOrder
      dsimp only
      rw [alGet_alSet, if_neg hne]
    rw [h1]
    exact hb.1 p hp' cid hcid'
  · intro p hp cid hcid
    have hp' : p ∈ st.orders_ask := hp
    have hcid' : cid ∈ askList st p.1 := hcid
    have hne : x.client_order_id ≠ cid := by
      intro he
      exact hn.2 p hp' (by rw [he]; exact hcid')
    have h1 : liveAt (setOrder st x) p.1 false cid = liveAt st p.1 false cid := by
      unfold liveAt setOrder
      dsimp only
      rw [alGet_alSet, if_neg hne]
    rw [h1]
    exact hb.2 p hp' cid hcid'

theorem booksLive_setOrder_keep {st : Exchange} {x : Order}
    (hb : booksLive st)
    (hx : ∀ c, alGet st.cache x.client_order_id = some c →
      x.is_active = c.is_active ∧ x.instrument_id = c.instrument_id ∧
      x.is_buy = c.is_buy) :
    booksLive (setOrder st x) := by
  have key : ∀ iid b cid, liveAt st iid b cid = true →
      liveAt (setOrder st x) iid b cid = true := by
    intro iid b cid h
    obtain ⟨c, hg, ha, hi, hbuy⟩ := liveAt_iff.mp h
    by_cases he : x.client_order_id = cid
    · subst he
      obtain ⟨e1, e2, e3⟩ := hx c hg
      refine liveAt_iff.mpr ⟨x, ?_, ?_, ?_, ?_⟩
      · show alGet (alSet st.cache x.client_order_id x) x.client_order_id = some x
        rw [alGet_alSet, if_pos rfl]
      · rw [e1]; exact ha
      · rw [e2]; exact hi
      · rw [e3]; exact hbuy
    · refine liveAt_iff.mpr ⟨c, ?_, ha, hi, hbuy⟩
      show alGet (alSet st.cache x.client_order_id x) cid = some c
      rw [alGet_alSet, if_neg he]
      exact hg
  constructor
  · intro p hp cid hcid
    exact key p.1 true cid (hb.1 p hp cid hcid)
  · intro p hp cid hcid
    exact key p.1 false cid (hb.2 p hp cid hcid)

theorem booksNodup_setOrder {st : Exchange} (x : Order) (hn : booksNodup st) :
    booksNodup (setOrder st x) := hn

theorem notListed_setOrder {st : Exchange} (x : Order) {cid : Nat}
    (h : notListed st cid) : notListed (setOrder st x) cid := h

theorem readOrder_self {st : Exchange} (hc : cacheCoherent st) (o : Order) :
    ∀ c, alGet st.cache (readOrder st o).client_order_id = some c →
      c = readOrder st o := by
  intro c hg
  rw [readOrder_cid hc] at hg
  unfold readOrder
  rw [hg]
  rfl

theorem booksWF_delete {st : Exchange} (o : Order) (hw : booksWF st) :
    booksWF (delete_order st o) := by
  obtain ⟨hb, hn⟩ := hw
  have hcache : (delete_order st o).cache = st.cache := delete_order_cache st o
  by_cases hbuy : o.is_buy = true
  · obtain ⟨hob, hoa, _⟩ := delete_order_buy st o hbuy
    have hbl := bidList_eq_of_orders o.instrument_id
      ((bidList st o.instrument_id).erase o.client_order_id) hob
    have hal := askList_congr hoa
    refine ⟨⟨?_, ?_⟩, ?_, ?_⟩
    · intro p hp cid hcid
      rw [liveAt_congr hcache]
      rw [hbl] at hcid
      by_cases hi : o.instrument_id = p.1
      · rw [if_pos hi] at hcid
        obtain ⟨c, hg, ha, hiid, hb2⟩ :=
          booksLive_bid hb (List.erase_subset _ _ hcid)
        exact liveAt_iff.mpr ⟨c, hg, ha, by rw [hiid, hi], hb2⟩
      · rw [if_neg hi] at hcid
        exact liveAt_iff.mpr (booksLive_bid hb hcid)
    · intro p hp cid hcid
      rw [liveAt_congr hcache]
      rw [hal] at hcid
      exact liveAt_iff.mpr (booksLive_ask hb hcid)
    · intro p hp
      rw [hbl]
      by_cases hi : o.instrument_id = p.1
      · rw [if_pos hi]
        exact (booksNodup_bid hn o.instrument_id).erase _
      · rw [if_neg hi]
        exact booksNodup_bid hn p.1
    · intro p hp
      rw [hal]
      exact booksNodup_ask hn p.1
  · have hbuy2 : o.is_buy = false := by
      revert hbuy
      cases o.is_buy <;> simp
    obtain ⟨hoa, hob, _⟩ := delete_order_sell st o hbuy2
    have hal := askList_eq_of_orders o.instrument_id
      ((askList st o.instrument_id).erase o.client_order_id) hoa
    have hbl := bidList_congr hob
    refine ⟨⟨?_, ?_⟩, ?_, ?_⟩
    · intro p hp cid hcid
      rw [liveAt_congr hcache]
      rw [hbl] at hcid
      exact liveAt_iff.mpr (booksLive_bid hb hcid)
    · intro p hp cid hcid
      rw [liveAt_congr hcache]
      rw [hal] at hcid
      by_cases hi : o.instrument_id = p.1
      · rw [if_pos hi] at hcid
        obtain ⟨c, hg, ha, hiid, hb2⟩ :=
          booksLive_ask hb (List.erase_subset _ _ hcid)
        exact liveAt_iff.mpr ⟨c, hg, ha, by rw [hiid, hi], hb2⟩
      · rw [if_neg hi] at hcid
        exact liveAt_iff.mpr (booksLive_ask hb hcid)
    · intro p hp
      rw [hbl]
      exact booksNodup_bid hn p.1
    · intro p hp
      rw [hal]
      by_cases hi : o.instrument_id = p.1
      · rw [if_pos hi]
        exact (booksNodup_ask hn o.instrument_id).erase _
      · rw [if_neg hi]
        exact booksNodup_ask hn p.1

theorem notListed_delete {st : Exchange} {o : Order} (hw : booksWF st)
    (hagree : agreeSI st o) :
    notListed (delete_order st o) o.client_order_id := by
  obtain ⟨hb, hn⟩ := hw
  by_cases hbuy : o.is_buy = true
  · obtain ⟨hob, hoa, _⟩ := delete_order_buy st o hbuy
    have hbl := bidList_eq_of_orders o.instrument_id
      ((bidList st o.instrument_id).erase o.client_order_id) hob
    have hal := askList_congr hoa
    constructor
    · intro p hp hm
      rw [hbl] at hm
      by_cases hi : o.instrument_id = p.1
      · rw [if_pos hi] at hm
        have := ((booksNodup_bid hn o.instrument_id).mem_erase_iff).mp hm
        exact this.1 rfl
      · rw [if_neg hi] at hm
        obtain ⟨c, hg, ha, hiid, hb2⟩ := booksLive_bid hb hm
        obtain ⟨e1, e2⟩ := hagree c hg
        exact hi (by rw [← e2, hiid])
    · intro p hp hm
      rw [hal] at hm
      obtain ⟨c, hg, ha, hiid, hb2⟩ := booksLive_ask hb hm
      obtain ⟨e1, e2⟩ := hagree c hg
      rw [hbuy] at e1
      cases hb2 ▸ e1
  · have hbuy2 : o.is_buy = false := by
      revert hbuy
      cases o.is_buy <;> simp
    obtain ⟨hoa, hob, _⟩ := delete_order_sell st o hbuy2
    have hal := askList_eq_of_orders o.instrument_id
      ((askList st o.instrument_id).erase o.client_order_id) hoa
    have hbl := bidList_congr hob
    constructor
    · intro p hp hm
      rw [hbl] at hm
      obtain ⟨c, hg, ha, hiid, hb2⟩ := booksLive_bid hb hm
      obtain ⟨e1, e2⟩ := hagree c hg
      rw [hbuy2] at e1
      cases hb2 ▸ e1
    · intro p hp hm
      rw [hal] at hm
      by_cases hi : o.instrument_id = p.1
      · rw [if_pos hi] at hm
        have := ((booksNodup_ask hn o.instrument_id).mem_erase_iff).mp hm
        exact this.1 rfl
      · rw [if_neg hi] at hm
        obtain ⟨c, hg, ha, hiid, hb2⟩ := booksLive_ask hb hm
        obtain ⟨e1, e2⟩ := hagree c hg
        exact hi (by rw [← e2, hiid])

theorem generate_order_accepted_orders (st : Exchange) (ro : Order) :
    (generate_order_accepted st ro).2.orders_bid = st.orders_bid ∧
    (generate_order_accepted st ro).2.orders_ask = st.orders_ask := ⟨rfl, rfl⟩

theorem booksWF_accept_order {st : Exchange} (o : Order)
    (hc : cacheCoherent st) (hw : booksWF st)
    (hn : notListed st o.client_order_id) :
    booksWF (accept_order st o).2 := by
  obtain ⟨hb, hnd⟩ := hw
  set ro := readOrder st o with hrodef
  have hciro : ro.client_order_id = o.client_order_id := readOrder_cid hc o
  have hread : readOrder (add_order st ro) ro = ro := by
    unfold readOrder
    rw [add_order_cache, alGet_alSet, if_pos rfl]
    rfl
  have hacc2 : (accept_order st o).2 =
      (generate_order_accepted (add_order st ro)
        (readOrder (add_order st ro) ro)).2 := rfl
  rw [hacc2, hread]
  have hfc : ∀ cid,
      alGet (generate_order_accepted (add_order st ro) ro).2.cache cid =
      if ro.client_order_id = cid then
        some { ro with status := .accepted, venue_order_id := some (generate_venue_order_id (add_order st ro) ro.instrument_id).1 }
      else alGet st.cache cid := by
    intro cid
    rw [generate_order_accepted_cache, alGet_alSet]
    by_cases he : ro.client_order_id = cid
    · rw [if_pos he, if_pos he]
    · rw [if_neg he, if_neg he, add_order_cache, alGet_alSet, if_neg he]
  have horders := generate_order_accepted_orders (add_order st ro) ro
  by_cases hbuy : ro.is_buy = true
  · obtain ⟨hob, hoa, _⟩ := add_order_buy st ro hbuy
    have hbl : ∀ k, bidList (generate_order_accepted (add_order st ro) ro).2 k =
        if ro.instrument_id = k then
          sortDesc (priceKey (setOrder st ro))
            (bidList st ro.instrument_id ++ [ro.client_order_id])
        else bidList st k := by
      intro k
      rw [bidList_congr horders.1 k]
      exact bidList_eq_of_orders _ _ hob k
    have hal : ∀ k, askList (generate_order_accepted (add_order st ro) ro).2 k =
        askList st k := by
      intro k
      rw [askList_congr horders.2 k]
      exact askList_congr hoa k
    refine ⟨⟨?_, ?_⟩, ?_, ?_⟩
    · intro p hp cid hcid
      rw [hbl] at hcid
      by_cases hi : ro.instrument_id = p.1
      · rw [if_pos hi] at hcid
        rcases List.mem_append.mp (mem_sortDesc.mp hcid) with hold | hnew
        · have hne : cid ≠ o.client_order_id := fun he =>
            (notListed_spec hn ro.instrument_id).1 (he ▸ hold)
          have hnero : ro.client_order_id ≠ cid := by
            rw [hciro]
            exact fun he => hne he.symm
          obtain ⟨c, hg, ha, hiid, hb2⟩ := booksLive_bid hb hold
          exact liveAt_iff.mpr
            ⟨c, by rw [hfc, if_neg hnero]; exact hg, ha, by rw [hiid, hi], hb2⟩
        · have hceq : cid = ro.client_order_id := by simpa using hnew
          subst hceq
          refine liveAt_iff.mpr ⟨{ ro with status := .accepted, venue_order_id := some (generate_venue_order_id (add_order st ro) ro.instrument_id).1 }, by rw [hfc, if_pos rfl], rfl, hi, hbuy⟩
      · rw [if_neg hi] at hcid
        have hne : cid ≠ o.client_order_id := fun he =>
          (notListed_spec hn p.1).1 (he ▸ hcid)
        have hnero : ro.client_order_id ≠ cid := by
          rw [hciro]
          exact fun he => hne he.symm
        obtain ⟨c, hg, ha, hiid, hb2⟩ := booksLive_bid hb hcid
        exact liveAt_iff.mpr
          ⟨c, by rw [hfc, if_neg hnero]; exact hg, ha, hiid, hb2⟩
    · intro p hp cid hcid
      rw [hal] at hcid
      have hne : cid ≠ o.client_order_id := fun he =>
        (notListed_spec hn p.1).2 (he ▸ hcid)
      have hnero : ro.client_order_id ≠ cid := by
        rw [hciro]
        exact fun he => hne he.symm
      obtain ⟨c, hg, ha, hiid, hb2⟩ := booksLive_ask hb hcid
      exact liveAt_iff.mpr
        ⟨c, by rw [hfc, if_neg hnero]; exact hg, ha, hiid, hb2⟩
    · intro p hp
      rw [hbl]
      by_cases hi : ro.instrument_id = p.1
      · rw [if_pos hi]
        refine nodup_sortDesc (List.nodup_append.mpr
          ⟨booksNodup_bid hnd _, List.nodup_singleton _, ?_⟩)
        intro a ha hamem
        have : a = ro.client_order_id := by simpa using hamem
        subst this
        exact (notListed_spec hn ro.instrument_id).1 (hciro ▸ ha)
      · rw [if_neg hi]
        exact booksNodup_bid hnd p.1
    · intro p hp
      rw [hal]
      exact booksNodup_ask hnd p.1
  · have hbuy2 : ro.is_buy = false := by
      revert hbuy
      cases ro.is_buy <;> simp
    obtain ⟨hoa, hob, _⟩ := add_order_sell st ro hbuy2
    have hal : ∀ k, askList (generate_order_accepted (add_order st ro) ro).2 k =
        if ro.instrument_id = k then
          sortAsc (priceKey (setOrder st ro))
            (askList st ro.instrument_id ++ [ro.client_order_id])
        else askList st k := by
      intro k
      rw [askList_congr horders.2 k]
      exact askList_eq_of_orders _ _ hoa k
    have hbl : ∀ k, bidList (generate_order_accepted (add_order st ro) ro).2 k =
        bidList st k := by
      intro k
      rw [bidList_congr horders.1 k]
      exact bidList_congr hob k
    refine ⟨⟨?_, ?_⟩, ?_, ?_⟩
    · intro p hp cid hcid
      rw [hbl] at hcid
      have hne : cid ≠ o.client_order_id := fun he =>
        (notListed_spec hn p.1).1 (he ▸ hcid)
      have hnero : ro.client_order_id ≠ cid := by
        rw [hciro]
        exact fun he => hne he.symm
      obtain ⟨c, hg, ha, hiid, hb2⟩ := booksLive_bid hb hcid
      exact liveAt_iff.mpr
        ⟨c, by rw [hfc, if_neg hnero]; exact hg, ha, hiid, hb2⟩
    · intro p hp cid hcid
      rw [hal] at hcid
      by_cases hi : ro.instrument_id = p.1
      · rw [if_pos hi] at hcid
        rcases List.mem_append.mp (mem_sortAsc.mp hcid) with hold | hnew
        · have hne : cid ≠ o.client_order_id := fun he =>
            (notListed_spec hn ro.instrument_id).2 (he ▸ hold)
          have hnero : ro.client_order_id ≠ cid := by
            rw [hciro]
            exact fun he => hne he.symm
          obtain ⟨c, hg, ha, hiid, hb2⟩ := booksLive_ask hb hold
          exact liveAt_iff.mpr
            ⟨c, by rw [hfc, if_neg hnero]; exact hg, ha, by rw [hiid, hi], hb2⟩
        · have hceq : cid = ro.client_order_id := by simpa using hnew
          subst hceq
          refine liveAt_iff.mpr ⟨{ ro with status := .accepted, venue_order_id := some (generate_venue_order_id (add_order st ro) ro.instrument_id).1 }, by rw [hfc, if_pos rfl], rfl, hi, hbuy2⟩
      · rw [if_neg hi] at hcid
        have hne : cid ≠ o.client_order_id := fun he =>
          (notListed_spec hn p.1).2 (he ▸ hcid)
        have hnero : ro.client_order_id ≠ cid := by
          rw [hciro]
          exact fun he => hne he.symm
        obtain ⟨c, hg, ha, hiid, hb2⟩ := booksLive_ask hb hcid
        exact liveAt_iff.mpr
          ⟨c, by rw [hfc, if_neg hnero]; exact hg, ha, hiid, hb2⟩
    · intro p hp
      rw [hbl]
      exact booksNodup_bid hnd p.1
    · intro p hp
      rw [hal]
      by_cases hi : ro.instrument_id = p.1
      · rw [if_pos hi]
        refine nodup_sortAsc (List.nodup_append.mpr
          ⟨booksNodup_ask hnd _, List.nodup_singleton _, ?_⟩)
        intro a ha hamem
        have : a = ro.client_order_id := by simpa using hamem
        subst this
        exact (notListed_spec hn ro.instrument_id).2 (hciro ▸ ha)
      · rw [if_neg hi]
        exact booksNodup_ask hnd p.1

theorem booksWF_generate_rejected {st : Exchange} {ro : Order} (r : String)
    (hw : booksWF st) (hn : notListed st ro.client_order_id) :
    booksWF (generate_order_rejected st ro r).2 ∧
    notListed (generate_order_rejected st ro r).2 ro.client_order_id := by
  unfold generate_order_rejected
  dsimp only
  exact ⟨⟨booksLive_setOrder_unlisted hw.1 hn, booksNodup_setOrder _ hw.2⟩,
    notListed_setOrder _ hn⟩

theorem booksWF_generate_expired {st : Exchange} {ro : Order}
    (hw : booksWF st) (hn : notListed st ro.client_order_id) :
    booksWF (generate_order_expired st ro).2 ∧
    notListed (generate_order_expired st ro).2 ro.client_order_id := by
  unfold generate_order_expired
  dsimp only
  exact ⟨⟨booksLive_setOrder_unlisted hw.1 hn, booksNodup_setOrder _ hw.2⟩,
    notListed_setOrder _ hn⟩

theorem booksWF_generate_canceled {st : Exchange} {ro : Order}
    (hw : booksWF st) (hn : notListed st ro.client_order_id) :
    booksWF (generate_order_canceled st ro).2 ∧
    notListed (generate_order_canceled st ro).2 ro.client_order_id := by
  unfold generate_order_canceled
  dsimp only
  exact ⟨⟨booksLive_setOrder_unlisted hw.1 hn, booksNodup_setOrder _ hw.2⟩,
    notListed_setOrder _ hn⟩

theorem booksWF_generate_updated {st : Exchange} {ro : Order}
    (hro : ∀ c, alGet st.cache ro.client_order_id = some c → c = ro)
    (hw : booksWF st) (qty : Int) (price trigger : Option Int) :
    booksWF (generate_order_updated st ro qty price trigger).2 := by
  unfold generate_order_updated generate_venue_order_id
  cases hv : ro.venue_order_id with
  | some v =>
    dsimp only
    refine ⟨booksLive_setOrder_keep hw.1 ?_, booksNodup_setOrder _ hw.2⟩
    intro c hg
    have he := hro c hg
    subst he
    exact ⟨rfl, rfl, rfl⟩
  | none =>
    dsimp only
    refine ⟨booksLive_setOrder_keep hw.1 ?_, booksNodup_setOrder _ hw.2⟩
    intro c hg
    have he := hro c hg
    subst he
    exact ⟨rfl, rfl, rfl⟩

theorem booksWF_generate_triggered {st : Exchange} {ro : Order}
    (hro : ∀ c, alGet st.cache ro.client_order_id = some c → c = ro)
    (hw : booksWF st) :
    booksWF (generate_order_triggered st ro).2 := by
  unfold generate_order_triggered
  dsimp only
  refine ⟨booksLive_setOrder_keep hw.1 ?_, booksNodup_setOrder _ hw.2⟩
  intro c hg
  have he := hro c hg
  subst he
  exact ⟨rfl, rfl, rfl⟩

theorem booksWF_of_bid_erase {st st' : Exchange} (iid0 cid0 : Nat)
    (hob : st'.orders_bid =
      alSet st.orders_bid iid0 ((bidList st iid0).erase cid0))
    (hoa : st'.orders_ask = st.orders_ask) (hcache : st'.cache = st.cache)
    (hw : booksWF st) : booksWF st' := by
  obtain ⟨hb, hn⟩ := hw
  have hbl := bidList_eq_of_orders iid0 ((bidList st iid0).erase cid0) hob
  have hal := askList_congr hoa
  refine ⟨⟨?_, ?_⟩, ?_, ?_⟩
  · intro p hp cid hcid
    rw [liveAt_congr hcache]
    rw [hbl] at hcid
    by_cases hi : iid0 = p.1
    · rw [if_pos hi] at hcid
      obtain ⟨c, hg, ha, hiid, hb2⟩ :=
        booksLive_bid hb (List.erase_subset _ _ hcid)
      exact liveAt_iff.mpr ⟨c, hg, ha, by rw [hiid, hi], hb2⟩
    · rw [if_neg hi] at hcid
      exact liveAt_iff.mpr (booksLive_bid hb hcid)
  · intro p hp cid hcid
    rw [liveAt_congr hcache]
    rw [hal] at hcid
    exact liveAt_iff.mpr (booksLive_ask hb hcid)
  · intro p hp
    rw [hbl]
    by_cases hi : iid0 = p.1
    · rw [if_pos hi]
      exact (booksNodup_bid hn iid0).erase _
    · rw [if_neg hi]
      exact booksNodup_bid hn p.1
  · intro p hp
    rw [hal]
    exact booksNodup_ask hn p.1

theorem booksWF_of_ask_erase {st st' : Exchange} (iid0 cid0 : Nat)
    (hoa : st'.orders_ask =
      alSet st.orders_ask iid0 ((askList st iid0).erase cid0))
    (hob : st'.orders_bid = st.orders_bid) (hcache : st'.cache = st.cache)
    (hw : booksWF st) : booksWF st' := by
  obtain ⟨hb, hn⟩ := hw
  have hal := askList_eq_of_orders iid0 ((askList st iid0).erase cid0) hoa
  have hbl := bidList_congr hob
  refine ⟨⟨?_, ?_⟩, ?_, ?_⟩
  · intro p hp cid hcid
    rw [liveAt_congr hcache]
    rw [hbl] at hcid
    exact liveAt_iff.mpr (booksLive_bid hb hcid)
  · intro p hp cid hcid
    rw [liveAt_congr hcache]
    rw [hal] at hcid
    by_cases hi : iid0 = p.1
    · rw [if_pos hi] at hcid
      obtain ⟨c, hg, ha, hiid, hb2⟩ :=
        booksLive_ask hb (List.erase_subset _ _ hcid)
      exact liveAt_iff.mpr ⟨c, hg, ha, by rw [hiid, hi], hb2⟩
    · rw [if_neg hi] at hcid
      exact liveAt_iff.mpr (booksLive_ask hb hcid)
  · intro p hp
    rw [hbl]
    exact booksNodup_bid hn p.1
  · intro p hp
    rw [hal]
    by_cases hi : iid0 = p.1
    · rw [if_pos hi]
      exact (booksNodup_ask hn iid0).erase _
    · rw [if_neg hi]
      exact booksNodup_ask hn p.1

theorem notListed_of_bid_erase {st st' : Exchange} {o : Order}
    (hob : st'.orders_bid = alSet st.orders_bid o.instrument_id
      ((bidList st o.instrument_id).erase o.client_order_id))
    (hoa : st'.orders_ask = st.orders_ask)
    (hbuy : o.is_buy = true) (hw : booksWF st) (hagree : agreeSI st o) :
    notListed st' o.client_order_id := by
  obtain ⟨hb, hn⟩ := hw
  have hbl := bidList_eq_of_orders o.instrument_id
    ((bidList st o.instrument_id).erase o.client_order_id) hob
  have hal := askList_congr hoa
  constructor
  · intro p hp hm
    rw [hbl] at hm
    by_cases hi : o.instrument_id = p.1
    · rw [if_pos hi] at hm
      have := ((booksNodup_bid hn o.instrument_id).mem_erase_iff).mp hm
      exact this.1 rfl
    · rw [if_neg hi] at hm
      obtain ⟨c, hg, ha, hiid, hb2⟩ := booksLive_bid hb hm
      obtain ⟨e1, e2⟩ := hagree c hg
      exact hi (by rw [← e2, hiid])
  · intro p hp hm
    rw [hal] at hm
    obtain ⟨c, hg, ha, hiid, hb2⟩ := booksLive_ask hb hm
    obtain ⟨e1, e2⟩ := hagree c hg
    rw [hbuy] at e1
    cases hb2 ▸ e1
  
theorem notListed_of_ask_erase {st st' : Exchange} {o : Order}
    (hoa : st'.orders_ask = alSet st.orders_ask o.instrument_id
      ((askList st o.instrument_id).erase o.client_order_id))
    (hob : st'.orders_bid = st.orders_bid)
    (hbuy : o.is_buy = false) (hw : booksWF st) (hagree : agreeSI st o) :
    notListed st' o.client_order_id := by
  obtain ⟨hb, hn⟩ := hw
  have hal := askList_eq_of_orders o.instrument_id
    ((askList st o.instrument_id).erase o.client_order_id) hoa
  have hbl := bidList_congr hob
  constructor
  · intro p hp hm
    rw [hbl] at hm
    obtain ⟨c, hg, ha, hiid, hb2⟩ := booksLive_bid hb hm
    obtain ⟨e1, e2⟩ := hagree c hg
    rw [hbuy] at e1
    cases hb2 ▸ e1
  · intro p hp hm
    rw [hal] at hm
    by_cases hi : o.instrument_id = p.1
    · rw [if_pos hi] at hm
      have := ((booksNodup_ask hn o.instrument_id).mem_erase_iff).mp hm
      exact this.1 rfl
    · rw [if_neg hi] at hm
      obtain ⟨c, hg, ha, hiid, hb2⟩ := booksLive_ask hb hm
      obtain ⟨e1, e2⟩ := hagree c hg
      exact hi (by rw [← e2, hiid])

theorem erase_from_side_cache (st : Exchange) (o : Order) :
    (erase_from_side st o).cache = st.cache := by
  unfold erase_from_side
  split <;> rfl

theorem booksWF_erase_from_side (st : Exchange) (o : Order) (hw : booksWF st) :
    booksWF (erase_from_side st o) := by
  unfold erase_from_side
  split
  · exact booksWF_of_bid_erase _ _ rfl rfl rfl hw
  · exact booksWF_of_ask_erase _ _ rfl rfl rfl hw

theorem notListed_erase_from_side (st : Exchange) (o : Order)
    (hw : booksWF st) (hagree : agreeSI st o) :
    notListed (erase_from_side st o) o.client_order_id := by
  unfold erase_from_side
  split
  · rename_i hbuy
    exact notListed_of_bid_erase rfl rfl hbuy hw hagree
  · rename_i hbuy
    have hbuy2 : o.is_buy = false := by
      revert hbuy
      cases o.is_buy <;> simp
    exact notListed_of_ask_erase rfl rfl hbuy2 hw hagree

theorem readOrder_SI {st : Exchange} {o : Order} (hagree : agreeSI st o) :
    (readOrder st o).is_buy = o.is_buy ∧
    (readOrder st o).instrument_id = o.instrument_id := by
  cases hg0 : alGet st.cache o.client_order_id with
  | none =>
    unfold readOrder
    rw [hg0]
    exact ⟨rfl, rfl⟩
  | some c0 =>
    have he : readOrder st o = c0 := by
      unfold readOrder
      rw [hg0]
      rfl
    rw [he]
    exact hagree c0 hg0

theorem cancel_order_venue_spec (st : Exchange) (o : Order)
    (hc : cacheCoherent st) (hw : booksWF st) (hagree : agreeSI st o) :
    booksWF (cancel_order_venue st o).2 ∧
    cacheCoherent (cancel_order_venue st o).2 ∧
    agreeSI (cancel_order_venue st o).2 o ∧
    ((cancel_order_venue st o).1).client_order_id = o.client_order_id := by
  obtain ⟨hSIb, hSIi⟩ := readOrder_SI hagree
  have hciro := readOrder_cid hc o
  unfold cancel_order_venue generate_venue_order_id
  dsimp only
  split
  · refine ⟨⟨booksLive_setOrder_keep hw.1 ?_, booksNodup_setOrder _ hw.2⟩,
      cacheCoherent_setOrder _ hc, ?_, hciro⟩
    · intro c hg
      have he := readOrder_self hc o c hg
      subst he
      exact ⟨rfl, rfl, rfl⟩
    · intro c hg
      have hg2 : alGet (alSet st.cache (readOrder st o).client_order_id
          { readOrder st o with venue_order_id := some (toString ((alGet st.instrument_indexer (readOrder st o).instrument_id).getD 0) ++ "-" ++ pad3 ((alGet st.symbol_ord_count (readOrder st o).instrument_id).getD 0 + 1)) })
          o.client_order_id = some c := hg
      rw [hciro, alGet_alSet, if_pos rfl] at hg2
      cases hg2
      exact ⟨hSIb, hSIi⟩
  · exact ⟨hw, hc, hagree, hciro⟩

theorem booksWF_cancel_order_core {st : Exchange} (o : Order)
    (hc : cacheCoherent st) (hw : booksWF st) (hagree : agreeSI st o) :
    booksWF (cancel_order_core st o).2 ∧
    notListed (cancel_order_core st o).2 o.client_order_id := by
  obtain ⟨hwA, hcA, hagA, hcidA⟩ := cancel_order_venue_spec st o hc hw hagree
  unfold cancel_order_core
  dsimp only
  have hwB : booksWF (erase_from_side (cancel_order_venue st o).2 o) :=
    booksWF_erase_from_side _ o hwA
  have hcB : cacheCoherent (erase_from_side (cancel_order_venue st o).2 o) :=
    coherent_of_cache_eq (erase_from_side_cache _ o) hcA
  have hnB : notListed (erase_from_side (cancel_order_venue st o).2 o)
      o.client_order_id :=
    notListed_erase_from_side _ o hwA hagA
  have hcidB : (readOrder (erase_from_side (cancel_order_venue st o).2 o)
      (cancel_order_venue st o).1).client_order_id = o.client_order_id := by
    rw [readOrder_cid hcB]
    exact hcidA
  have X := booksWF_generate_canceled hwB (hcidB.symm ▸ hnB)
  exact ⟨X.1, hcidB ▸ X.2⟩

theorem booksNodup_lists_congr {st st' : Exchange}
    (hob : st'.orders_bid = st.orders_bid) (hoa : st'.orders_ask = st.orders_ask)
    (hn : booksNodup st) : booksNodup st' := by
  constructor
  · intro p hp
    rw [bidList_congr hob]
    exact hn.1 p (hob ▸ hp)
  · intro p hp
    rw [askList_congr hoa]
    exact hn.2 p (hoa ▸ hp)

theorem notListed_lists_congr {st st' : Exchange} {cid : Nat}
    (hob : st'.orders_bid = st.orders_bid) (hoa : st'.orders_ask = st.orders_ask)
    (hn : notListed st cid) : notListed st' cid := by
  constructor
  · intro p hp
    rw [bidList_congr hob]
    exact hn.1 p (hob ▸ hp)
  · intro p hp
    rw [askList_congr hoa]
    exact hn.2 p (hoa ▸ hp)

theorem booksLive_write_keep {st st' : Exchange} {x : Order}
    (hcache : st'.cache = alSet st.cache x.client_order_id x)
    (hob : st'.orders_bid = st.orders_bid)
    (hoa : st'.orders_ask = st.orders_ask)
    (hb : booksLive st)
    (hx : ∀ c, alGet st.cache x.client_order_id = some c → c.is_active = true →
      x.is_active = true ∧ x.instrument_id = c.instrument_id ∧
      x.is_buy = c.is_buy) :
    booksLive st' := by
  have key : ∀ iid b cid, liveAt st iid b cid = true →
      liveAt st' iid b cid = true := by
    intro iid b cid h
    obtain ⟨c, hg, ha, hi, hbuy⟩ := liveAt_iff.mp h
    by_cases he : x.client_order_id = cid
    · subst he
      obtain ⟨e1, e2, e3⟩ := hx c hg ha
      refine liveAt_iff.mpr ⟨x, ?_, e1, by rw [e2]; exact hi, by rw [e3]; exact hbuy⟩
      rw [hcache, alGet_alSet, if_pos rfl]
    · refine liveAt_iff.mpr ⟨c, ?_, ha, hi, hbuy⟩
      rw [hcache, alGet_alSet, if_neg he]
      exact hg
  constructor
  · intro p hp cid hcid
    rw [bidList_congr hob] at hcid
    exact key p.1 true cid (hb.1 p (hob ▸ hp) cid hcid)
  · intro p hp cid hcid
    rw [askList_congr hoa] at hcid
    exact key p.1 false cid (hb.2 p (hoa ▸ hp) cid hcid)

theorem booksLive_write_unlisted {st st' : Exchange} {x : Order}
    (hcache : st'.cache = alSet st.cache x.client_order_id x)
    (hob : st'.orders_bid = st.orders_bid)
    (hoa : st'.orders_ask = st.orders_ask)
    (hb : booksLive st) (hn : notListed st x.client_order_id) :
    booksLive st' := by
  constructor
  · intro p hp cid hcid
    rw [bidList_congr hob] at hcid
    have hne : x.client_order_id ≠ cid := by
      intro he
      exact hn.1 p (hob ▸ hp) (by rw [he]; exact hcid)
    obtain ⟨c, hg, ha, hi, hbuy⟩ := liveAt_iff.mp (hb.1 p (hob ▸ hp) cid hcid)
    refine liveAt_iff.mpr ⟨c, ?_, ha, hi, hbuy⟩
    rw [hcache, alGet_alSet, if_neg hne]
    exact hg
  · intro p hp cid hcid
    rw [askList_congr hoa] at hcid
    have hne : x.client_order_id ≠ cid := by
      intro he
      exact hn.2 p (hoa ▸ hp) (by rw [he]; exact hcid)
    obtain ⟨c, hg, ha, hi, hbuy⟩ := liveAt_iff.mp (hb.2 p (hoa ▸ hp) cid hcid)
    refine liveAt_iff.mpr ⟨c, ?_, ha, hi, hbuy⟩
    rw [hcache, alGet_alSet, if_neg hne]
    exact hg

theorem booksWF_write_then_delete {st st' : Exchange} {x ro : Order}
    (hcache : st'.cache = alSet st.cache x.client_order_id x)
    (hob : st'.orders_bid = st.orders_bid)
    (hoa : st'.orders_ask = st.orders_ask)
    (hxb : x.is_buy = ro.is_buy) (hxi : x.instrument_id = ro.instrument_id)
    (hro : ∀ c, alGet st.cache x.client_order_id = some c → c = ro)
    (hw : booksWF st) :
    booksWF (delete_order st' x) ∧
    notListed (delete_order st' x) x.client_order_id := by
  obtain ⟨hb, hn⟩ := hw
  by_cases hbuy : x.is_buy = true
  · obtain ⟨hob2, hoa2, hcache2⟩ := delete_order_buy st' x hbuy
    have hcc : (delete_order st' x).cache = alSet st.cache x.client_order_id x := by
      rw [hcache2, hcache]
    have hbl : ∀ k, bidList (delete_order st' x) k =
        if x.instrument_id = k then
          (bidList st x.instrument_id).erase x.client_order_id
        else bidList st k := by
      intro k
      have h1 := bidList_eq_of_orders x.instrument_id
        ((bidList st' x.instrument_id).erase x.client_order_id) hob2 k
      rw [h1]
      simp only [bidList_congr hob]
    have hal : ∀ k, askList (delete_order st' x) k = askList st k := by
      intro k
      rw [askList_congr hoa2, askList_congr hoa]
    refine ⟨⟨⟨?_, ?_⟩, ?_, ?_⟩, ?_, ?_⟩
    · intro p hp cid hcid
      rw [hbl] at hcid
      by_cases hi : x.instrument_id = p.1
      · rw [if_pos hi] at hcid
        obtain ⟨hne, hmem⟩ :=
          ((booksNodup_bid hn x.instrument_id).mem_erase_iff).mp hcid
        obtain ⟨c, hg, ha, hiid, hb2⟩ := booksLive_bid hb hmem
        refine liveAt_iff.mpr ⟨c, ?_, ha, by rw [hiid, hi], hb2⟩
        rw [hcc, alGet_alSet, if_neg (fun he => hne he.symm)]
        exact hg
      · rw [if_neg hi] at hcid
        by_cases hex : x.client_order_id = cid
        · subst hex
          obtain ⟨c, hg, ha, hiid, hb2⟩ := booksLive_bid hb hcid
          have hcr := hro c hg
          subst hcr
          exact absurd (by rw [hxi, hiid]) hi
        · obtain ⟨c, hg, ha, hiid, hb2⟩ := booksLive_bid hb hcid
          refine liveAt_iff.mpr ⟨c, ?_, ha, hiid, hb2⟩
          rw [hcc, alGet_alSet, if_neg hex]
          exact hg
    · intro p hp cid hcid
      rw [hal] at hcid
      by_cases hex : x.client_order_id = cid
      · subst hex
        obtain ⟨c, hg, ha, hiid, hb2⟩ := booksLive_ask hb hcid
        have hcr := hro c hg
        subst hcr
        rw [hxb] at hbuy
        rw [hb2] at hbuy
        cases hbuy
      · obtain ⟨c, hg, ha, hiid, hb2⟩ := booksLive_ask hb hcid
        refine liveAt_iff.mpr ⟨c, ?_, ha, hiid, hb2⟩
        rw [hcc, alGet_alSet, if_neg hex]
        exact hg
    · intro p hp
      rw [hbl]
      by_cases hi : x.instrument_id = p.1
      · rw [if_pos hi]
        exact (booksNodup_bid hn x.instrument_id).erase _
      · rw [if_neg hi]
        exact booksNodup_bid hn p.1
    · intro p hp
      rw [hal]
      exact booksNodup_ask hn p.1
    · intro p hp hm
      rw [hbl] at hm
      by_cases hi : x.instrument_id = p.1
      · rw [if_pos hi] at hm
        exact (((booksNodup_bid hn x.instrument_id).mem_erase_iff).mp hm).1 rfl
      · rw [if_neg hi] at hm
        obtain ⟨c, hg, ha, hiid, hb2⟩ := booksLive_bid hb hm
        have hcr := hro c hg
        subst hcr
        exact hi (by rw [hxi, hiid])
    · intro p hp hm
      rw [hal] at hm
      obtain ⟨c, hg, ha, hiid, hb2⟩ := booksLive_ask hb hm
      have hcr := hro c hg
      subst hcr
      rw [hxb] at hbuy
      rw [hb2] at hbuy
      cases hbuy
  · have hbuy2 : x.is_buy = false := by
      revert hbuy
      cases x.is_buy <;> simp
    obtain ⟨hoa2, hob2, hcache2⟩ := delete_order_sell st' x hbuy2
    have hcc : (delete_order st' x).cache = alSet st.cache x.client_order_id x := by
      rw [hcache2, hcache]
    have hal : ∀ k, askList (delete_order st' x) k =
        if x.instrument_id = k then
          (askList st x.instrument_id).erase x.client_order_id
        else askList st k := by
      intro k
      have h1 := askList_eq_of_orders x.instrument_id
        ((askList st' x.instrument_id).erase x.client_order_id) hoa2 k
      rw [h1]
      simp only [askList_congr hoa]
    have hbl : ∀ k, bidList (delete_order st' x) k = bidList st k := by
      intro k
      rw [bidList_congr hob2, bidList_congr hob]
    refine ⟨⟨⟨?_, ?_⟩, ?_, ?_⟩, ?_, ?_⟩
    · intro p hp cid hcid
      rw [hbl] at hcid
      by_cases hex : x.client_order_id = cid
      · subst hex
        obtain ⟨c, hg, ha, hiid, hb2⟩ := booksLive_bid hb hcid
        have hcr := hro c hg
        subst hcr
        rw [hxb] at hbuy2
        rw [hb2] at hbuy2
        cases hbuy2
      · obtain ⟨c, hg, ha, hiid, hb2⟩ := booksLive_bid hb hcid
        refine liveAt_iff.mpr ⟨c, ?_, ha, hiid, hb2⟩
        rw [hcc, alGet_alSet, if_neg hex]
        exact hg
    · intro p hp cid hcid
      rw [hal] at hcid
      by_cases hi : x.instrument_id = p.1
      · rw [if_pos hi] at hcid
        obtain ⟨hne, hmem⟩ :=
          ((booksNodup_ask hn x.instrument_id).mem_erase_iff).mp hcid
        obtain ⟨c, hg, ha, hiid, hb2⟩ := booksLive_ask hb hmem
        refine liveAt_iff.mpr ⟨c, ?_, ha, by rw [hiid, hi], hb2⟩
        rw [hcc, alGet_alSet, if_neg (fun he => hne he.symm)]
        exact hg
      · rw [if_neg hi] at hcid
        by_cases hex : x.client_order_id = cid
        · subst hex
          obtain ⟨c, hg, ha, hiid, hb2⟩ := booksLive_ask hb hcid
          have hcr := hro c hg
          subst hcr
          exact absurd (by rw [hxi, hiid]) hi
        · obtain ⟨c, hg, ha, hiid, hb2⟩ := booksLive_ask hb hcid
          refine liveAt_iff.mpr ⟨c, ?_, ha, hiid, hb2⟩
          rw [hcc, alGet_alSet, if_neg hex]
          exact hg
    · intro p hp
      rw [hbl]
      exact booksNodup_bid hn p.1
    · intro p hp
      rw [hal]
      by_cases hi : x.instrument_id = p.1
      · rw [if_pos hi]
        exact (booksNodup_ask hn x.instrument_id).erase _
      · rw [if_neg hi]
        exact booksNodup_ask hn p.1
    · intro p hp hm
      rw [hbl] at hm
      obtain ⟨c, hg, ha, hiid, hb2⟩ := booksLive_bid hb hm
      have hcr := hro c hg
      subst hcr
      rw [hxb] at hbuy2
      rw [hb2] at hbuy2
      cases hbuy2
    · intro p hp hm
      rw [hal] at hm
      by_cases hi : x.instrument_id = p.1
      · rw [if_pos hi] at hm
        exact (((booksNodup_ask hn x.instrument_id).mem_erase_iff).mp hm).1 rfl
      · rw [if_neg hi] at hm
        obtain ⟨c, hg, ha, hiid, hb2⟩ := booksLive_ask hb hm
        have hcr := hro c hg
        subst hcr
        exact hi (by rw [hxi, hiid])

theorem generate_order_filled_cache2 (st : Exchange) (ro : Order)
    (vpid : Option String) (q px : Int) (ccy : Nat) (com : Int)
    (ls : LiquiditySide) :
    ∃ x : Order,
      (generate_order_filled st ro vpid q px ccy com ls).2.cache =
        alSet st.cache ro.client_order_id x ∧
      x.client_order_id = ro.client_order_id ∧
      x.is_buy = ro.is_buy ∧ x.instrument_id = ro.instrument_id ∧
      x.type = ro.type ∧
      (generate_order_filled st ro vpid q px ccy com ls).2.orders_bid =
        st.orders_bid ∧
      (generate_order_filled st ro vpid q px ccy com ls).2.orders_ask =
        st.orders_ask := by
  unfold generate_order_filled generate_venue_order_id generate_execution_id
    setOrder
  cases ro.venue_order_id <;> exact ⟨_, rfl, rfl, rfl, rfl, rfl, rfl, rfl⟩

theorem booksWF_expire_composite {st : Exchange} (o : Order)
    (hc : cacheCoherent st) (hw : booksWF st) (hagree : agreeSI st o) :
    booksWF (generate_order_expired (delete_order st o)
      (readOrder (delete_order st o) o)).2 ∧
    notListed (generate_order_expired (delete_order st o)
      (readOrder (delete_order st o) o)).2 o.client_order_id := by
  have hwD : booksWF (delete_order st o) := booksWF_delete o hw
  have hnD : notListed (delete_order st o) o.client_order_id :=
    notListed_delete hw hagree
  have hcD : cacheCoherent (delete_order st o) :=
    coherent_of_cache_eq (delete_order_cache st o) hc
  have hcid : (readOrder (delete_order st o) o).client_order_id =
      o.client_order_id := readOrder_cid hcD o
  have X := booksWF_generate_expired hwD (hcid.symm ▸ hnD)
  exact ⟨X.1, hcid ▸ X.2⟩

theorem booksWF_fill_write_and_delete {st : Exchange} (o : Order)
    (hc : cacheCoherent st) (hw : booksWF st)
    (hm : (readOrder st o).type = .market → notListed st o.client_order_id)
    (vpid : Option String) (q px : Int) (ccy : Nat) (com : Int)
    (ls : LiquiditySide) :
    booksWF (fill_write_and_delete st o vpid q px ccy com ls) := by
  obtain ⟨x, hcache, hxcid, hxbuy, hxiid, hxtype, hxob, hxoa⟩ :=
    generate_order_filled_cache2 st (readOrder st o) vpid q px ccy com ls
  have hciro := readOrder_cid hc o
  unfold fill_write_and_delete
  dsimp only
  have hro2 : readOrder
      (generate_order_filled st (readOrder st o) vpid q px ccy com ls).2 o = x := by
    generalize hg : readOrder st o = ro at hcache hciro
    unfold readOrder
    rw [hcache, alGet_alSet, if_pos hciro]
    rfl
  rw [hro2]
  split
  · refine (booksWF_write_then_delete ?_ hxob hxoa hxbuy hxiid ?_ hw).1
    · rw [hcache, hxcid]
    · intro c hg
      rw [hxcid] at hg
      exact readOrder_self hc o c hg
  · rename_i hcond
    have hcx :
        (generate_order_filled st (readOrder st o) vpid q px ccy com ls).2.cache =
          alSet st.cache x.client_order_id x := by
      rw [hcache, hxcid]
    by_cases hact : x.is_active = true
    · refine ⟨booksLive_write_keep hcx hxob hxoa hw.1 ?_,
        booksNodup_lists_congr hxob hxoa hw.2⟩
      intro c hg ha
      rw [hxcid] at hg
      have hcr := readOrder_self hc o c hg
      subst hcr
      exact ⟨hact, hxiid, hxbuy⟩
    · have hcompl : x.is_completed = true := by
        unfold Order.is_completed
        unfold Order.is_active at hact
        revert hact
        cases x.status.isTerminal <;> simp
      have hpass : ¬(x.is_passive = true) := fun hp => hcond ⟨hp, hcompl⟩
      have hmkt : x.type = OrderType.market := by
        by_contra hne
        exact hpass (by simp [Order.is_passive, hne])
      have hnl : notListed st o.client_order_id := by
        apply hm
        rw [← hxtype, hmkt]
      refine ⟨booksLive_write_unlisted hcx hxob hxoa hw.1 ?_,
        booksNodup_lists_congr hxob hxoa hw.2⟩
      rw [hxcid, hciro]
      exact hnl

theorem sortedSides_add_order (st : Exchange) (o : Order)
    (hfresh : ∀ iid, o.client_order_id ∉ bidList st iid ∧
        o.client_order_id ∉ askList st iid)
    (hs : sortedSides st) : sortedSides (add_order st o) := by
  intro iid
  have hpk : priceKey (add_order st o) = priceKey (setOrder st o) :=
    priceKey_congr (by rw [add_order_cache]; rfl)
  cases hb : o.is_buy with
  | true =>
    obtain ⟨hbid, hask, _⟩ := add_order_buy st o hb
    have hbl : bidList (add_order st o) iid =
        if o.instrument_id = iid then
          sortDesc (priceKey (setOrder st o))
            (bidList st o.instrument_id ++ [o.client_order_id])
        else bidList st iid := by
      unfold bidList
      rw [hbid, alGet_alSet]
      by_cases hiid : o.instrument_id = iid
      · rw [if_pos hiid, if_pos hiid]
        rfl
      · rw [if_neg hiid, if_neg hiid]
    have hal : askList (add_order st o) iid = askList st iid := by
      unfold askList
      rw [hask]
    constructor
    · show List.Pairwise _ ((bidList (add_order st o) iid).map (priceKey (add_order st o)))
      rw [hpk, hbl]
      by_cases hiid : o.instrument_id = iid
      · rw [if_pos hiid]
        rw [List.pairwise_map]
        exact pairwise_sortDesc _ _
      · rw [if_neg hiid]
        rw [map_priceKey_setOrder_of_not_mem (hfresh iid).1]
        exact (hs iid).1
    · show List.Pairwise _ ((askList (add_order st o) iid).map (priceKey (add_order st o)))
      rw [hpk, hal]
      rw [map_priceKey_setOrder_of_not_mem (hfresh iid).2]
      exact (hs iid).2
  | false =>
    obtain ⟨hask, hbid, _⟩ := add_order_sell st o hb
    have hal : askList (add_order st o) iid =
        if o.instrument_id = iid then
          sortAsc (priceKey (setOrder st o))
            (askList st o.instrument_id ++ [o.client_order_id])
        else askList st iid := by
      unfold askList
      rw [hask, alGet_alSet]
      by_cases hiid : o.instrument_id = iid
      · rw [if_pos hiid, if_pos hiid]
        rfl
      · rw [if_neg hiid, if_neg hiid]
    have hbl : bidList (add_order st o) iid = bidList st iid := by
      unfold bidList
      rw [hbid]
    constructor
    · show List.Pairwise _ ((bidList (add_order st o) iid).map (priceKey (add_order st o)))
      rw [hpk, hbl]
      rw [map_priceKey_setOrder_of_not_mem (hfresh iid).1]
      exact (hs iid).1
    · show List.Pairwise _ ((askList (add_order st o) iid).map (priceKey (add_order st o)))
      rw [hpk, hal]
      by_cases hiid : o.instrument_id = iid
      · rw [if_pos hiid]
        rw [List.pairwise_map]
        exact pairwise_sortAsc _ _
      · rw [if_neg hiid]
        rw [map_priceKey_setOrder_of_not_mem (hfresh iid).2]
        exact (hs iid).2

theorem sortedSides_delete_order (st : Exchange) (o : Order)
    (hs : sortedSides st) : sortedSides (delete_order st o) := by
  intro iid
  cases hb : o.is_buy with
  | true =>
    obtain ⟨hbid, hask, hcache⟩ := delete_order_buy st o hb
    have hpk : priceKey (delete_order st o) = priceKey st := priceKey_congr hcache
    have hbl : bidList (delete_order st o) iid =
        if o.instrument_id = iid then
          (bidList st o.instrument_id).erase o.client_order_id
        else bidList st iid := by
      unfold bidList
      rw [hbid, alGet_alSet]
      by_cases hiid : o.instrument_id = iid
      · rw [if_pos hiid, if_pos hiid]
        rfl
      · rw [if_neg hiid, if_neg hiid]
    have hal : askList (delete_order st o) iid = askList st iid := by
      unfold askList
      rw [hask]
    constructor
    · show List.Pairwise _ ((bidList (delete_order st o) iid).map (priceKey (delete_order st o)))
      rw [hpk, hbl]
      by_cases hiid : o.instrument_id = iid
      · rw [if_pos hiid]
        subst hiid
        refine ((hs o.instrument_id).1).sublist ?_
        exact (List.erase_sublist _ _).map (priceKey st)
      · rw [if_neg hiid]
        exact (hs iid).1
    · show List.Pairwise _ ((askList (delete_order st o) iid).map (priceKey (delete_order st o)))
      rw [hpk, hal]
      exact (hs iid).2
  | false =>
    obtain ⟨hask, hbid, hcache⟩ := delete_order_sell st o hb
    have hpk : priceKey (delete_order st o) = priceKey st := priceKey_congr hcache
    have hal : askList (delete_order st o) iid =
        if o.instrument_id = iid then
          (askList st o.instrument_id).erase o.client_order_id
        else askList st iid := by
      unfold askList
      rw [hask, alGet_alSet]
      by_cases hiid : o.instrument_id = iid
      · rw [if_pos hiid, if_pos hiid]
        rfl
      · rw [if_neg hiid, if_neg hiid]
    have hbl : bidList (delete_order st o) iid = bidList st iid := by
      unfold bidList
      rw [hbid]
    constructor
    · show List.Pairwise _ ((bidList (delete_order st o) iid).map (priceKey (delete_order st o)))
      rw [hpk, hbl]
      exact (hs iid).1
    · show List.Pairwise _ ((askList (delete_order st o) iid).map (priceKey (delete_order st o)))
      rw [hpk, hal]
      by_cases hiid : o.instrument_id = iid
      · rw [if_pos hiid]
        subst hiid
        refine ((hs o.instrument_id).2).sublist ?_
        exact (List.erase_sublist _ _).map (priceKey st)
      · rw [if_neg hiid]
        exact (hs iid).2

theorem terminal_false_of_active {c : Order} (ha : c.is_active = true) :
    c.status.isTerminal = false := by
  unfold Order.is_active at ha
  revert ha
  cases c.status.isTerminal <;> simp

/-- C6 (amended): after each engine operation the side lists stay sorted and
hold only non-terminal orders, except that a price-changing modify breaks the
sort order (see the counterexample).  In detail: (i) every `_add_order` of an
order not already resting leaves all bid lists sorted non-increasing and all
ask lists sorted non-decreasing, and every `_delete_order` preserves that
sortedness — but `_update_limit_order` does not re-sort, refuting the
sortedness conjunct for modify; (ii) the non-terminal-membership conjunct
holds: in a well-formed state every listed client order id maps to a cached
order whose status is non-terminal, and every engine operation preserves
well-formedness — accepting a submission, writing a rejection (always at an
id the books do not list), applying a modify's `OrderUpdated`, triggering,
cancelling (which also delists the order), expiring (delist then write
`OrderExpired`), and filling (`OrderFilled` write, then delist when the
order is passive and completed; a market order is never listed). -/
theorem C6_sorted_and_live :
    (∀ (st : Exchange) (o : Order),
        (∀ iid, o.client_order_id ∉ bidList st iid ∧
                o.client_order_id ∉ askList st iid) →
        sortedSides st → sortedSides (add_order st o)) ∧
    (∀ (st : Exchange) (o : Order),
        sortedSides st → sortedSides (delete_order st o)) ∧
    (∀ (st : Exchange), booksWF st →
        (∀ p ∈ st.orders_bid, ∀ cid ∈ bidList st p.1,
          ∃ c, alGet st.cache cid = some c ∧ c.status.isTerminal = false) ∧
        (∀ p ∈ st.orders_ask, ∀ cid ∈ askList st p.1,
          ∃ c, alGet st.cache cid = some c ∧ c.status.isTerminal = false)) ∧
    (∀ (st : Exchange) (o : Order), cacheCoherent st → booksWF st →
        notListed st o.client_order_id → booksWF (accept_order st o).2) ∧
    (∀ (st : Exchange) (ro : Order) (r : String), booksWF st →
        notListed st ro.client_order_id →
        booksWF (generate_order_rejected st ro r).2) ∧
    (∀ (st : Exchange) (ro : Order) (qty : Int) (price trigger : Option Int),
        (∀ c, alGet st.cache ro.client_order_id = some c → c = ro) →
        booksWF st →
        booksWF (generate_order_updated st ro qty price trigger).2) ∧
    (∀ (st : Exchange) (ro : Order),
        (∀ c, alGet st.cache ro.client_order_id = some c → c = ro) →
        booksWF st → booksWF (generate_order_triggered st ro).2) ∧
    (∀ (st : Exchange) (o : Order), cacheCoherent st → booksWF st →
        agreeSI st o →
        booksWF (cancel_order_core st o).2 ∧
        notListed (cancel_order_core st o).2 o.client_order_id) ∧
    (∀ (st : Exchange) (o : Order), cacheCoherent st → booksWF st →
        agreeSI st o →
        booksWF (generate_order_expired (delete_order st o)
          (readOrder (delete_order st o) o)).2 ∧
        notListed (generate_order_expired (delete_order st o)
          (readOrder (delete_order st o) o)).2 o.client_order_id) ∧
    (∀ (st : Exchange) (o : Order) (vpid : Option String) (q px : Int)
        (ccy : Nat) (com : Int) (ls : LiquiditySide),
        cacheCoherent st → booksWF st →
        ((readOrder st o).type = .market → notListed st o.client_order_id) →
        booksWF (fill_write_and_delete st o vpid q px ccy com ls)) := by
  refine ⟨sortedSides_add_order, sortedSides_delete_order, ?_, ?_, ?_, ?_,
    ?_, ?_, ?_, ?_⟩
  · intro st hw
    constructor
    · intro p hp cid hcid
      obtain ⟨c, hg, ha, _, _⟩ := liveAt_iff.mp (hw.1.1 p hp cid hcid)
      exact ⟨c, hg, terminal_false_of_active ha⟩
    · intro p hp cid hcid
      obtain ⟨c, hg, ha, _, _⟩ := liveAt_iff.mp (hw.1.2 p hp cid hcid)
      exact ⟨c, hg, terminal_false_of_active ha⟩
  · intro st o hc hw hn
    exact booksWF_accept_order o hc hw hn
  · intro st ro r hw hn
    exact (booksWF_generate_rejected r hw hn).1
  · intro st ro qty price trigger hro hw
    exact booksWF_generate_updated hro hw qty price trigger
  · intro st ro hro hw
    exact booksWF_generate_triggered hro hw
  · intro st o hc hw ha
    exact booksWF_cancel_order_core o hc hw ha
  · intro st o hc hw ha
    exact booksWF_expire_composite o hc hw ha
  · intro st o vpid q px ccy com ls hc hw hm
    exact booksWF_fill_write_and_delete o hc hw hm vpid q px ccy com ls

/-- Witness for C6 at concrete inputs: on the empty exchange, inserting the
limit buy `c6_oA` and removing it keep the side lists sorted; with the
accepted copy of the order resting as the single bid, each engine operation
leaves the books well-formed (and cancelling delists the order), and the
resting id maps to a non-terminal cached order. -/
theorem C6_witness :
    sortedSides (add_order exBase c6_oA) ∧
    sortedSides (delete_order (add_order exBase c6_oA) c6_oA) ∧
    (∃ c, alGet c6w_stL.cache 1 = some c ∧ c.status.isTerminal = false) ∧
    booksWF (accept_order c6w_st0 c6_oA).2 ∧
    booksWF (generate_order_rejected c6w_st0 c6_oA "post-only").2 ∧
    booksWF (generate_order_updated c6w_stL c6w_oAcc 10 (some 98) none).2 ∧
    booksWF (generate_order_triggered c6w_stL c6w_oAcc).2 ∧
    (booksWF (cancel_order_core c6w_stL c6w_oAcc).2 ∧
      notListed (cancel_order_core c6w_stL c6w_oAcc).2 1) ∧
    booksWF (generate_order_expired (delete_order c6w_stL c6w_oAcc)
      (readOrder (delete_order c6w_stL c6w_oAcc) c6w_oAcc)).2 ∧
    booksWF (fill_write_and_delete c6w_stL c6w_oAcc none 10 100 0 1 .taker) := by
  have hWF0 : booksWF c6w_st0 := by
    refine ⟨⟨?_, ?_⟩, ?_, ?_⟩ <;> decide
  have hWFL : booksWF c6w_stL := by
    refine ⟨⟨?_, ?_⟩, ?_, ?_⟩ <;> decide
  have hc0 : cacheCoherent c6w_st0 := cacheCoherent_of_forall _ (by decide)
  have hcL : cacheCoherent c6w_stL := cacheCoherent_of_forall _ (by decide)
  have hn0 : notListed c6w_st0 1 := by
    refine ⟨?_, ?_⟩ <;> decide
  have hs0 : sortedSides exBase := by
    intro iid
    constructor
    · simp [bidPrices, bidList, exBase, alGet]
    · simp [askPrices, askList, exBase, alGet]
  have hfresh : ∀ iid, c6_oA.client_order_id ∉ bidList exBase iid ∧
      c6_oA.client_order_id ∉ askList exBase iid := by
    intro iid
    constructor
    · simp [bidList, exBase, alGet]
    · simp [askList, exBase, alGet]
  have hroL : ∀ c, alGet c6w_stL.cache c6w_oAcc.client_order_id = some c →
      c = c6w_oAcc := by
    intro c hg
    have h2 : some c6w_oAcc = some c := hg
    cases h2
    rfl
  have hagL : agreeSI c6w_stL c6w_oAcc := by
    intro c hg
    have h2 : some c6w_oAcc = some c := hg
    cases h2
    exact ⟨rfl, rfl⟩
  have hmL : (readOrder c6w_stL c6w_oAcc).type = .market →
      notListed c6w_stL 1 := by
    intro h
    exact absurd h (by decide)
  have h1 := C6_sorted_and_live.1 exBase c6_oA hfresh hs0
  refine ⟨h1,
    C6_sorted_and_live.2.1 (add_order exBase c6_oA) c6_oA h1,
    (C6_sorted_and_live.2.2.1 c6w_stL hWFL).1 (1, [1]) (by decide) 1 (by decide),
    C6_sorted_and_live.2.2.2.1 c6w_st0 c6_oA hc0 hWF0 hn0,
    C6_sorted_and_live.2.2.2.2.1 c6w_st0 c6_oA "post-only" hWF0 hn0,
    C6_sorted_and_live.2.2.2.2.2.1 c6w_stL c6w_oAcc 10 (some 98) none hroL hWFL,
    C6_sorted_and_live.2.2.2.2.2.2.1 c6w_stL c6w_oAcc hroL hWFL,
    C6_sorted_and_live.2.2.2.2.2.2.2.1 c6w_stL c6w_oAcc hcL hWFL hagL,
    C6_sorted_and_live.2.2.2.2.2.2.2.2.1 c6w_stL c6w_oAcc hcL hWFL hagL |>.1,
    C6_sorted_and_live.2.2.2.2.2.2.2.2.2 c6w_stL c6w_oAcc none 10 100 0 1
      .taker hcL hWFL hmL⟩
